import Mathlib

/-!
# jsondiff: comparison and rendering of two decoded JSON documents

A shallow embedding of `jsondiff.go`, `context.go`, `json.go`, `yaml.go` and
`printer.go`.
The traversal state `context` is passed explicitly; every method
`func (ctx *context) m(...)` becomes a function `Context.m` returning the new
state.
-/

set_option autoImplicit false

namespace Jsondiff

/-! ## Data model -/

/-- Decoded document: the `interface{}` that `encoding/json` produces with
`UseNumber`. `null` is the nil interface, `number` carries the literal text of a
`json.Number`, `object` is a `map[string]interface{}` given by its entries; the
order of the entries is the order in which a `range` over the map visits them
(Go leaves that order unspecified), and `m[k]` is the first entry with key `k`. -/
inductive Value where
  | null
  | bool (b : Bool)
  | number (text : String)
  | string (s : String)
  | array (items : List Value)
  | object (entries : List (String × Value))

/-- The type `Difference int` of `jsondiff.go`. -/
abbrev Difference := Int

def FullMatch : Difference := 0
def SupersetMatch : Difference := 1
def NoMatch : Difference := 2
def FirstArgIsInvalidJson : Difference := 3
def SecondArgIsInvalidJson : Difference := 4
def BothArgsAreInvalidJson : Difference := 5

/-- The method `Difference.String`. -/
def Difference.String (d : Difference) : String :=
  if d = FullMatch then "FullMatch"
  else if d = SupersetMatch then "SupersetMatch"
  else if d = NoMatch then "NoMatch"
  else if d = FirstArgIsInvalidJson then "FirstArgIsInvalidJson"
  else if d = SecondArgIsInvalidJson then "SecondArgIsInvalidJson"
  else if d = BothArgsAreInvalidJson then "BothArgsAreInvalidJson"
  else "Invalid"

def JSON : String := "JSON"
def YAML : String := "YAML"

/-- The struct `Tag`: the begin and end marker of a span. -/
structure Tag where
  Begin : String
  End : String
deriving DecidableEq, Repr

/-- The struct `Options`. -/
structure Options where
  Output : String
  Normal : Tag
  Added : Tag
  Removed : Tag
  Changed : Tag
  Prefix : String
  Indent : String
  PrintTypes : Bool
deriving DecidableEq, Repr

/-- The four `*Tag` pointers that `ctx.tag` ever receives: `&ctx.opts.Normal`,
`&ctx.opts.Added`, `&ctx.opts.Removed`, `&ctx.opts.Changed`. `ctx.lastTag == tag`
compares pointers, so a span is identified by the field it points to and not by
its marker strings. -/
inductive Span where
  | Normal
  | Added
  | Removed
  | Changed
deriving DecidableEq, Repr

/-- Dereference of a `*Tag` pointing into `opts`. -/
def Options.tagOf (o : Options) : Span → Tag
  | .Normal => o.Normal
  | .Added => o.Added
  | .Removed => o.Removed
  | .Changed => o.Changed

/-- Marker and line-break events, in the order in which they are written to the
buffer. -/
inductive Event where
  | opened (s : Span)
  | closed (s : Span)
  | lineBreak
deriving DecidableEq, Repr

/-- The struct `context`. `trace` is a ghost field that is not in the source: it
records every span marker and line feed written to `buf`, so that properties of
spans can be stated when marker strings are empty or coincide. No function reads
it. -/
structure Context where
  opts : Options
  buf : String
  level : Int
  lastTag : Option Span
  diff : Difference
  trace : List Event
deriving DecidableEq, Repr

/-- The literal `context{opts: opts}`: empty buffer, level 0, no open span,
`diff` the zero value `FullMatch`. -/
def newContext (opts : Options) : Context :=
  { opts := opts, buf := "", level := 0, lastTag := none, diff := FullMatch, trace := [] }

/-! ## Go library functions used by the source -/

/-- Lower-case hexadecimal digit of `n < 16`. -/
def hexDigit (n : Nat) : Char :=
  if n < 10 then Char.ofNat (48 + n) else Char.ofNat (87 + n)

/-- One rune of `strconv.Quote`: the quote and the backslash are escaped, printable
runes are kept, control characters get their letter escape or `\xNN`. Runes
from U+0080 on are taken as printable (Go consults `unicode.IsPrint` there). -/
def quoteRune (c : Char) : String :=
  if c = '"' then "\\\""
  else if c = '\\' then "\\\\"
  else if 32 ≤ c.toNat ∧ c.toNat ≠ 127 then String.singleton c
  else if c.toNat = 7 then "\\a"
  else if c.toNat = 8 then "\\b"
  else if c.toNat = 12 then "\\f"
  else if c.toNat = 10 then "\\n"
  else if c.toNat = 13 then "\\r"
  else if c.toNat = 9 then "\\t"
  else if c.toNat = 11 then "\\v"
  else "\\x" ++ String.singleton (hexDigit (c.toNat / 16)) ++ String.singleton (hexDigit (c.toNat % 16))

/-- Go's `strconv.Quote`. -/
def strconvQuote (s : String) : String :=
  "\"" ++ String.join (s.data.map quoteRune) ++ "\""

/-- Go's `strconv.FormatBool`. -/
def formatBool (b : Bool) : String := if b then "true" else "false"

/-- Go's `<` on strings: lexicographic on the UTF-8 bytes, which orders strings as
the lexicographic order on their code points does. -/
def stringLess (a b : String) : Bool := decide (a.data < b.data)

/-- Ordered insertion, the step of `sortStrings`. -/
def insertString (k : String) : List String → List String
  | [] => [k]
  | x :: xs => if stringLess x k then x :: insertString k xs else k :: x :: xs

/-- Go's `sort.Strings`: the strings in ascending order. -/
def sortStrings (keys : List String) : List String :=
  keys.foldr insertString []

/-- The keys collected by `printMapDiff`: the set `keysMap` of the keys of `ma` and
of `mb`, copied to the slice `keys` and sorted. -/
def unionKeys (ma mb : List (String × Value)) : List String :=
  sortStrings ((ma.map Prod.fst ++ mb.map Prod.fst).dedup)

/-! ## `context.go`: writing -/

namespace Context

/-- The call `ctx.buf.WriteString(s)`. -/
def writeString (ctx : Context) (s : String) : Context :=
  { ctx with buf := ctx.buf ++ s }

/-- Ghost: append an event to the trace. -/
def log (ctx : Context) (e : Event) : Context :=
  { ctx with trace := ctx.trace ++ [e] }

def Output (ctx : Context) : String := ctx.opts.Output

/-- The statement `if ctx.lastTag != nil { ctx.buf.WriteString(ctx.lastTag.End) }`. -/
def writeLastTagEnd (ctx : Context) : Context :=
  match ctx.lastTag with
  | some t => (ctx.writeString (ctx.opts.tagOf t).End).log (.closed t)
  | none => ctx

/-- The statement `if ctx.lastTag != nil { ctx.buf.WriteString(ctx.lastTag.Begin) }`. -/
def writeLastTagBegin (ctx : Context) : Context :=
  match ctx.lastTag with
  | some t => (ctx.writeString (ctx.opts.tagOf t).Begin).log (.opened t)
  | none => ctx

/-- The loop `for i := 0; i < ctx.level; i++ { ctx.buf.WriteString(ctx.opts.Indent) }`;
it writes nothing when the level is not positive. -/
def writeIndent (ctx : Context) : Context :=
  ctx.writeString (String.join (List.replicate ctx.level.toNat ctx.opts.Indent))

def newline (ctx : Context) (s : String) : Context :=
  let ctx := ctx.writeString s
  let ctx := ctx.writeLastTagEnd
  let ctx := (ctx.writeString "\n").log .lineBreak
  let ctx := ctx.writeString ctx.opts.Prefix
  let ctx := ctx.writeIndent
  ctx.writeLastTagBegin

def jsonQuote (_ctx : Context) (str : String) : String := strconvQuote str

def yamlQuote (_ctx : Context) (str : String) : String := str

def quote (ctx : Context) (str : String) : String :=
  if ctx.Output = JSON then ctx.jsonQuote str
  else if ctx.Output = YAML then ctx.yamlQuote str
  else str

def key (ctx : Context) (k : String) : Context :=
  let ctx := ctx.writeString (ctx.quote k)
  ctx.writeString ": "

def writeType (ctx : Context) : Value → Context
  | .bool _ => ctx.writeString "(boolean)"
  | .number _ => ctx.writeString "(number)"
  | .string _ => ctx.writeString "(string)"
  | .array _ => ctx.writeString "(array)"
  | .object _ => ctx.writeString "(object)"
  | .null => ctx.writeString "(null)"

def writeTypeMaybe (ctx : Context) (v : Value) : Context :=
  if ctx.opts.PrintTypes then
    let ctx := ctx.writeString " "
    ctx.writeType v
  else ctx

def tag (ctx : Context) (tag : Span) : Context :=
  if ctx.lastTag = some tag then ctx
  else
    let ctx := ctx.writeLastTagEnd
    let ctx := (ctx.writeString (ctx.opts.tagOf tag).Begin).log (.opened tag)
    { ctx with lastTag := some tag }

def result (ctx : Context) (d : Difference) : Context :=
  if d = NoMatch then { ctx with diff := NoMatch }
  else if d = SupersetMatch ∧ ctx.diff ≠ NoMatch then { ctx with diff := SupersetMatch }
  else if ctx.diff ≠ NoMatch ∧ ctx.diff ≠ SupersetMatch then { ctx with diff := FullMatch }
  else ctx

/-! ### `json.go` -/

def jsonWriteStartList (ctx : Context) : Context :=
  let ctx := { ctx with level := ctx.level + 1 }
  ctx.newline "["

def jsonWriteEndList (ctx : Context) : Context := ctx.writeString "]"

def jsonWriteStartMap (ctx : Context) : Context :=
  let ctx := { ctx with level := ctx.level + 1 }
  ctx.newline "\x7b"

def jsonWriteEndMap (ctx : Context) : Context := ctx.writeString "\x7d"

def jsonWriteEndOfItem (ctx : Context) (i len : Int) : Context :=
  if i ≠ len - 1 then ctx.newline ","
  else
    let ctx := { ctx with level := ctx.level - 1 }
    ctx.newline ""

def jsonWriteStartListItem (ctx : Context) : Context := ctx

/-- The function `jsonWriteListItem(i, v, len)`; `wv` stands for the call
`ctx.writeValue(v, true)`, the only use the function makes of `v`. -/
def jsonWriteListItem (ctx : Context) (i : Int) (wv : Context → Context) (len : Int) : Context :=
  let ctx := wv ctx
  ctx.jsonWriteEndOfItem i len

/-- The function `jsonWriteMapItem(i, k, v, len)`; `wv` stands for
`ctx.writeValue(v, true)`. -/
def jsonWriteMapItem (ctx : Context) (i : Int) (k : String) (wv : Context → Context)
    (len : Int) : Context :=
  let ctx := ctx.key k
  let ctx := wv ctx
  ctx.jsonWriteEndOfItem i len

/-! ### `yaml.go` -/

def yamlWriteStartList (ctx : Context) : Context := ctx.newline ""

def yamlWriteEndList (ctx : Context) : Context := ctx

def yamlWriteStartMap (ctx : Context) : Context :=
  let ctx := { ctx with level := ctx.level + 1 }
  ctx.newline ""

def yamlWriteEndMap (ctx : Context) : Context := ctx

def yamlWriteEndOfItem (ctx : Context) (i len : Int) : Context :=
  if i ≠ len - 1 then ctx.newline ""
  else { ctx with level := ctx.level - 1 }

def yamlWriteStartListItem (ctx : Context) : Context := ctx.writeString "- "

/-- The function `yamlWriteListItem(i, v, len)`; `wv` stands for
`ctx.writeValue(v, true)`. -/
def yamlWriteListItem (ctx : Context) (i : Int) (wv : Context → Context) (len : Int) : Context :=
  let ctx := ctx.writeString "- "
  let ctx := wv ctx
  if i ≠ len - 1 then ctx.newline ""
  else { ctx with level := ctx.level - 1 }

/-- The function `yamlWriteMapItem(i, k, v, len)`; `wv` stands for
`ctx.writeValue(v, true)`. -/
def yamlWriteMapItem (ctx : Context) (i : Int) (k : String) (wv : Context → Context)
    (len : Int) : Context :=
  let ctx := ctx.key k
  let ctx := wv ctx
  if i ≠ len - 1 then ctx.newline "" else ctx

/-! ### Dialect dispatch (`switch ctx.Output()`) -/

def writeStartList (ctx : Context) : Context :=
  if ctx.Output = JSON then ctx.jsonWriteStartList
  else if ctx.Output = YAML then ctx.yamlWriteStartList
  else ctx

def writeEndList (ctx : Context) : Context :=
  if ctx.Output = JSON then ctx.jsonWriteEndList
  else if ctx.Output = YAML then ctx.yamlWriteEndList
  else ctx

def writeListItem (ctx : Context) (i : Int) (wv : Context → Context) (len : Int) : Context :=
  if ctx.Output = JSON then ctx.jsonWriteListItem i wv len
  else if ctx.Output = YAML then ctx.yamlWriteListItem i wv len
  else ctx

def writeStartMap (ctx : Context) : Context :=
  if ctx.Output = JSON then ctx.jsonWriteStartMap
  else if ctx.Output = YAML then ctx.yamlWriteStartMap
  else ctx

def writeEndMap (ctx : Context) : Context :=
  if ctx.Output = JSON then ctx.jsonWriteEndMap
  else if ctx.Output = YAML then ctx.yamlWriteEndMap
  else ctx

def writeMapItem (ctx : Context) (i : Int) (k : String) (wv : Context → Context)
    (len : Int) : Context :=
  if ctx.Output = JSON then ctx.jsonWriteMapItem i k wv len
  else if ctx.Output = YAML then ctx.yamlWriteMapItem i k wv len
  else ctx

def writeEndOfItem (ctx : Context) (i len : Int) : Context :=
  if ctx.Output = JSON then ctx.jsonWriteEndOfItem i len
  else if ctx.Output = YAML then ctx.yamlWriteEndOfItem i len
  else ctx

def writeStartListItem (ctx : Context) : Context :=
  if ctx.Output = JSON then ctx.jsonWriteStartListItem
  else if ctx.Output = YAML then ctx.yamlWriteStartListItem
  else ctx

/-! ### Full rendering of a value -/

mutual

/-- The function `writeValue(v, full)`. The calls `ctx.writeList(vv)` and
`ctx.writeMap(vv)` are written out in the array and object cases: the empty test,
the start of the collection, the loop over the items and the end. -/
def writeValue : Value → Bool → Context → Context
  | .bool vv, _, ctx => (ctx.writeString (formatBool vv)).writeTypeMaybe (.bool vv)
  | .number vv, _, ctx => (ctx.writeString vv).writeTypeMaybe (.number vv)
  | .string vv, _, ctx =>
    let vv1 := ctx.quote vv
    (ctx.writeString vv1).writeTypeMaybe (.string vv)
  | .array vv, full, ctx =>
    let ctx :=
      if full then
        -- writeList
        if vv.length = 0 then ctx.writeString "[]"
        else
          let ctx := ctx.writeStartList
          let ctx := writeListItems vv 0 vv.length ctx
          ctx.writeEndList
      else ctx.writeString "[]"
    ctx.writeTypeMaybe (.array vv)
  | .object vv, full, ctx =>
    let ctx :=
      if full then
        -- writeMap
        if vv.length = 0 then ctx.writeString "\x7b\x7d"
        else
          let ctx := ctx.writeStartMap
          let ctx := writeMapItems vv 0 vv.length ctx
          ctx.writeEndMap
      else ctx.writeString "\x7b\x7d"
    ctx.writeTypeMaybe (.object vv)
  | .null, _, ctx => (ctx.writeString "null").writeTypeMaybe .null

/-- The loop `for i, v := range vv { ctx.writeListItem(i, v, len(vv)) }` of
`writeList`, from index `i` on. -/
def writeListItems : List Value → Int → Int → Context → Context
  | [], _, _, ctx => ctx
  | v :: rest, i, len, ctx =>
    writeListItems rest (i + 1) len (ctx.writeListItem i (fun c => writeValue v true c) len)

/-- The loop `for k, v := range vv { ctx.writeMapItem(i, k, v, len(vv)); i++ }` of
`writeMap`, from the `i`-th visited entry on. -/
def writeMapItems : List (String × Value) → Int → Int → Context → Context
  | [], _, _, ctx => ctx
  | (k, v) :: rest, i, len, ctx =>
    writeMapItems rest (i + 1) len (ctx.writeMapItem i k (fun c => writeValue v true c) len)

end

def writeList (ctx : Context) (vv : List Value) : Context :=
  if vv.length = 0 then ctx.writeString "[]"
  else
    let ctx := ctx.writeStartList
    let ctx := writeListItems vv 0 vv.length ctx
    ctx.writeEndList

def writeMap (ctx : Context) (vv : List (String × Value)) : Context :=
  if vv.length = 0 then ctx.writeString "\x7b\x7d"
  else
    let ctx := ctx.writeStartMap
    let ctx := writeMapItems vv 0 vv.length ctx
    ctx.writeEndMap

def writeMismatch (ctx : Context) (a b : Value) : Context :=
  let ctx := writeValue a false ctx
  let ctx := ctx.writeString " => "
  writeValue b false ctx

def printMismatch (ctx : Context) (a b : Value) : Context :=
  let ctx := ctx.tag .Changed
  ctx.writeMismatch a b

/-! ### The traversal -/

/-- The kinds `reflect.TypeOf(v).Kind()` of a decoded non-nil value; a
`json.Number` is a string type, so its kind is `String`. -/
inductive Kind where
  | Bool
  | String
  | Slice
  | Map
deriving DecidableEq, Repr

end Context

/-- The test `v == nil`. -/
def Value.isNil : Value → Bool
  | .null => true
  | _ => false

/-- The kind `reflect.TypeOf(v).Kind()`; it is only asked of non-nil values. -/
def Value.kind : Value → Context.Kind
  | .bool _ => .Bool
  | .number _ => .String
  | .string _ => .String
  | .array _ => .Slice
  | .object _ => .Map
  | .null => .Bool

namespace Context

/-- The tail of the loop of `printSliceDiff` once `sa` is exhausted: every further
index is valid in `sb` only (`i < sblen`), the item is written as added. -/
def printAddedItems : List Value → Int → Int → Context → Context
  | [], _, _, ctx => ctx
  | y :: sb, i, max, ctx =>
    let ctx := ctx.writeStartListItem
    let ctx := ctx.tag .Added
    let ctx := writeValue y true ctx
    let ctx := ctx.result NoMatch
    let ctx := ctx.tag .Normal
    let ctx := ctx.writeEndOfItem i max
    printAddedItems sb (i + 1) max ctx

/-- The tail of the loop of `printSliceDiff` once `sb` is exhausted: every further
index is valid in `sa` only (`i < salen`), the item is written as removed. -/
def printRemovedItems : List Value → Int → Int → Context → Context
  | [], _, _, ctx => ctx
  | x :: sa, i, max, ctx =>
    let ctx := ctx.writeStartListItem
    let ctx := ctx.tag .Removed
    let ctx := writeValue x true ctx
    let ctx := ctx.result SupersetMatch
    let ctx := ctx.tag .Normal
    let ctx := ctx.writeEndOfItem i max
    printRemovedItems sa (i + 1) max ctx

/-- The loop `for i, k := range keys { body }`. -/
def forKeys (body : Int → String → Context → Context) : List String → Int → Context → Context
  | [], _, ctx => ctx
  | k :: keys, i, ctx => forKeys body keys (i + 1) (body i k ctx)

mutual

/-- The function `printDiff(a, b)`. The calls `ctx.printSliceDiff(a, b)` and
`ctx.printMapDiff(a, b)` are written out in the array and object cases. -/
def printDiff : Value → Value → Context → Context
  | a, b, ctx =>
    if a.isNil || b.isNil then
      if a.isNil && b.isNil then
        let ctx := ctx.tag .Normal
        let ctx := writeValue a false ctx
        ctx.result FullMatch
      else
        let ctx := ctx.printMismatch a b
        ctx.result NoMatch
    else if a.kind ≠ b.kind then
      let ctx := ctx.printMismatch a b
      ctx.result NoMatch
    else
      match a with
      | .bool x =>
        match b with
        | .bool y =>
          if x ≠ y then
            let ctx := ctx.printMismatch a b
            ctx.result NoMatch
          else
            let ctx := ctx.tag .Normal
            let ctx := writeValue a true ctx
            ctx.result FullMatch
        | _ =>
          -- not reached: `b` has the kind of `a`
          let ctx := ctx.tag .Normal
          let ctx := writeValue a true ctx
          ctx.result FullMatch
      | .number aa =>
        match b with
        | .number bb =>
          if aa ≠ bb then
            let ctx := ctx.printMismatch a b
            ctx.result NoMatch
          else
            let ctx := ctx.tag .Normal
            let ctx := writeValue a true ctx
            ctx.result FullMatch
        | _ =>
          -- `bb, ok := b.(json.Number)` with `!ok`
          let ctx := ctx.printMismatch a b
          ctx.result NoMatch
      | .string aa =>
        match b with
        | .string bb =>
          if aa ≠ bb then
            let ctx := ctx.printMismatch a b
            ctx.result NoMatch
          else
            let ctx := ctx.tag .Normal
            let ctx := writeValue a true ctx
            ctx.result FullMatch
        | _ =>
          -- `bb, ok := b.(string)` with `!ok`
          let ctx := ctx.printMismatch a b
          ctx.result NoMatch
      | .array sa =>
        match b with
        | .array sb =>
          -- printSliceDiff
          let salen : Int := sa.length
          let sblen : Int := sb.length
          let max := if sblen > salen then sblen else salen
          let ctx := ctx.tag .Normal
          if max = 0 then
            let ctx := ctx.writeString "[]"
            ctx.writeTypeMaybe a
          else
            let ctx := ctx.writeStartList
            let ctx := printSliceItems sa sb 0 max ctx
            let ctx := ctx.writeEndList
            ctx.writeTypeMaybe a
        | _ =>
          -- not reached: `b` has the kind of `a`
          ctx
      | .object ma =>
        match b with
        | .object mb =>
          -- printMapDiff
          let keys := unionKeys ma mb
          let ctx := ctx.tag .Normal
          if keys.length = 0 then
            let ctx := ctx.writeString "\x7b\x7d"
            ctx.writeTypeMaybe a
          else
            let ctx := ctx.writeStartMap
            let ctx := forKeys (fun i k ctx =>
              let ctx :=
                match ma.lookup k, mb.lookup k with
                | some _, some vb =>
                  let ctx := ctx.key k
                  printDiffAt ma k vb ctx
                | some va, none =>
                  let ctx := ctx.tag .Removed
                  let ctx := ctx.key k
                  let ctx := writeValue va true ctx
                  ctx.result SupersetMatch
                | none, some vb =>
                  let ctx := ctx.tag .Added
                  let ctx := ctx.key k
                  let ctx := writeValue vb true ctx
                  ctx.result NoMatch
                | none, none => ctx
              let ctx := ctx.tag .Normal
              ctx.writeEndOfItem i keys.length) keys 0 ctx
            let ctx := ctx.writeEndMap
            ctx.writeTypeMaybe a
        | _ =>
          -- not reached: `b` has the kind of `a`
          ctx
      | .null =>
        -- not reached: `a` is not nil
        let ctx := ctx.tag .Normal
        let ctx := writeValue a true ctx
        ctx.result FullMatch

/-- The loop `for i := 0; i < max; i++` of `printSliceDiff`, from index `i` on,
with `sa[i:]` and `sb[i:]` as the two lists: while both have an item the index is
valid in both slices and the items are compared; when one is exhausted the
remaining indices are valid in the other one only. -/
def printSliceItems : List Value → List Value → Int → Int → Context → Context
  | x :: sa, y :: sb, i, max, ctx =>
    let ctx := ctx.writeStartListItem
    let ctx := printDiff x y ctx
    let ctx := ctx.tag .Normal
    let ctx := ctx.writeEndOfItem i max
    printSliceItems sa sb (i + 1) max ctx
  | x :: sa, [], i, max, ctx => printRemovedItems (x :: sa) i max ctx
  | [], sb, i, max, ctx => printAddedItems sb i max ctx

/-- The call `ctx.printDiff(va, vb)` with `va, aok := ma[k]` and `aok` true: the
entry of `ma` with key `k` is compared with `vb`. -/
def printDiffAt : List (String × Value) → String → Value → Context → Context
  | [], _, _, ctx => ctx
  | (k1, va) :: ma, k, vb, ctx =>
    if k = k1 then printDiff va vb ctx else printDiffAt ma k vb ctx

end

/-- The body of the loop `for i, k := range keys` of `printMapDiff`, with `len`
for `len(keys)`. -/
def printMapItem (ma mb : List (String × Value)) (len : Int) (i : Int) (k : String)
    (ctx : Context) : Context :=
  let ctx :=
    match ma.lookup k, mb.lookup k with
    | some _, some vb =>
      let ctx := ctx.key k
      printDiffAt ma k vb ctx
    | some va, none =>
      let ctx := ctx.tag .Removed
      let ctx := ctx.key k
      let ctx := writeValue va true ctx
      ctx.result SupersetMatch
    | none, some vb =>
      let ctx := ctx.tag .Added
      let ctx := ctx.key k
      let ctx := writeValue vb true ctx
      ctx.result NoMatch
    | none, none => ctx
  let ctx := ctx.tag .Normal
  ctx.writeEndOfItem i len

/-- The function `printSliceDiff(a, b)`; it is only called with two arrays. -/
def printSliceDiff (ctx : Context) (a b : Value) : Context :=
  match a, b with
  | .array sa, .array sb =>
    let salen : Int := sa.length
    let sblen : Int := sb.length
    let max := if sblen > salen then sblen else salen
    let ctx := ctx.tag .Normal
    if max = 0 then
      let ctx := ctx.writeString "[]"
      ctx.writeTypeMaybe a
    else
      let ctx := ctx.writeStartList
      let ctx := printSliceItems sa sb 0 max ctx
      let ctx := ctx.writeEndList
      ctx.writeTypeMaybe a
  | _, _ => ctx

/-- The function `printMapDiff(a, b)`; it is only called with two objects. -/
def printMapDiff (ctx : Context) (a b : Value) : Context :=
  match a, b with
  | .object ma, .object mb =>
    let keys := unionKeys ma mb
    let ctx := ctx.tag .Normal
    if keys.length = 0 then
      let ctx := ctx.writeString "\x7b\x7d"
      ctx.writeTypeMaybe a
    else
      let ctx := ctx.writeStartMap
      let ctx := forKeys (printMapItem ma mb keys.length) keys 0 ctx
      let ctx := ctx.writeEndMap
      ctx.writeTypeMaybe a
  | _, _ => ctx

end Context

/-! ## `jsondiff.go`: the entry point -/

/-- The function `DefaultConsoleOptions()`; the octal escape 033 of the source is the escape character. -/
def DefaultConsoleOptions : Options :=
  { Output := JSON
    Normal := ⟨"", ""⟩
    Added := ⟨"\x1b[0;32m", "\x1b[0m"⟩
    Removed := ⟨"\x1b[0;31m", "\x1b[0m"⟩
    Changed := ⟨"\x1b[0;33m", "\x1b[0m"⟩
    Prefix := ""
    Indent := "    "
    PrintTypes := false }

/-- The function `DefaultHTMLOptions()`. -/
def DefaultHTMLOptions : Options :=
  { Output := JSON
    Normal := ⟨"", ""⟩
    Added := ⟨"<span style=\"background-color: #8bff7f\">", "</span>"⟩
    Removed := ⟨"<span style=\"background-color: #fd7f7f\">", "</span>"⟩
    Changed := ⟨"<span style=\"background-color: #fcff7f\">", "</span>"⟩
    Prefix := ""
    Indent := "    "
    PrintTypes := false }

/-- The method `WithYAMLOutput` on a copy of the options. -/
def Options.WithYAMLOutput (opts : Options) : Options :=
  { opts with Indent := "  ", Output := YAML }

/-- The function `Compare(a, b, opts)`, given the outcomes of the two
`Decode` calls: `none` is a decode error, `some v` the decoded value. -/
def Compare (a b : Option Value) (opts : Options) : Difference × String :=
  match a, b with
  | none, none => (BothArgsAreInvalidJson, "both arguments are invalid json")
  | none, some _ => (FirstArgIsInvalidJson, "first argument is invalid json")
  | some _, none => (SecondArgIsInvalidJson, "second argument is invalid json")
  | some av, some bv =>
    let opts := if opts.Output = "" then { opts with Output := JSON } else opts
    let ctx := newContext opts
    let ctx := Context.printDiff av bv ctx
    let ctx := ctx.writeLastTagEnd
    (ctx.diff, ctx.buf)

/-! ## `printer.go`

The second implementation of the traversal: the package-level functions
`printDiff`, `printDiffBody`, `printValue`, ... over the interface `Printer`. They
are placed in the namespace `Printer`, as several of them share their name with a
method of `context`. -/

/-- The interface `Printer` with its two implementations, the structs `jsonPrinter`
and `yamlPrinter`; each holds the pointer `ctx` to its `context`. -/
inductive Printer where
  | jsonPrinter (ctx : Context)
  | yamlPrinter (ctx : Context)
deriving DecidableEq, Repr

/-- The function `NewPrinter(opts)`. -/
def NewPrinter (opts : Options) : Printer :=
  if opts.Output = YAML then .yamlPrinter (newContext opts)
  else .jsonPrinter (newContext opts)

namespace Printer

/-- The `context` behind the field `ctx`. -/
def ctx : Printer → Context
  | .jsonPrinter c => c
  | .yamlPrinter c => c

/-- An update of the `context` behind the pointer `p.ctx`. -/
def onCtx (p : Printer) (f : Context → Context) : Printer :=
  match p with
  | .jsonPrinter c => .jsonPrinter (f c)
  | .yamlPrinter c => .yamlPrinter (f c)

/-! ### Methods with the same body in `jsonPrinter` and `yamlPrinter` -/

def PrintNormalTag (p : Printer) : Printer := p.onCtx (fun c => c.tag .Normal)

def PrintChangedTag (p : Printer) : Printer := p.onCtx (fun c => c.tag .Changed)

def PrintAddedTag (p : Printer) : Printer := p.onCtx (fun c => c.tag .Added)

def PrintRemovedTag (p : Printer) : Printer := p.onCtx (fun c => c.tag .Removed)

def PrintLastTag (p : Printer) : Printer := p.onCtx (fun c => c.writeLastTagEnd)

def SetResult (p : Printer) (r : Difference) : Printer := p.onCtx (fun c => c.result r)

def WriteString (p : Printer) (str : String) : Printer := p.onCtx (fun c => c.writeString str)

/-- The method `WriteTypeMaybe`; its body is the body of `context.writeTypeMaybe`. -/
def WriteTypeMaybe (p : Printer) (v : Value) : Printer := p.onCtx (fun c => c.writeTypeMaybe v)

def IncrementLevel (p : Printer) : Printer :=
  p.onCtx (fun c => { c with level := c.level + 1 })

/-- The statement `p.ctx.level--`. -/
def decrementLevel (p : Printer) : Printer :=
  p.onCtx (fun c => { c with level := c.level - 1 })

def Diff (p : Printer) : Difference := p.ctx.diff

/-- The method `Newline`; its body is the body of `context.newline`. -/
def Newline (p : Printer) (s : String) : Printer := p.onCtx (fun c => c.newline s)

/-! ### Methods that differ between the two printers -/

def PrintKey (p : Printer) (k : String) : Printer :=
  match p with
  | .jsonPrinter _ =>
    let p := p.WriteString (strconvQuote k)
    p.WriteString ": "
  | .yamlPrinter _ =>
    let p := p.WriteString k
    p.WriteString ": "

def PrintFirst (p : Printer) : Printer :=
  match p with
  | .jsonPrinter _ => p
  | .yamlPrinter _ => p.WriteString "---"

def PrintStartList (p : Printer) : Printer :=
  match p with
  | .jsonPrinter _ => p.Newline "["
  | .yamlPrinter _ => p.Newline ""

def PrintEndList (p : Printer) : Printer :=
  match p with
  | .jsonPrinter _ => p.WriteString "]"
  | .yamlPrinter _ => p

def PrintStartListItem (p : Printer) : Printer :=
  match p with
  | .jsonPrinter _ => p
  | .yamlPrinter _ => p.WriteString "- "

/-- The method `PrintListItem(v, last)`; `pv` stands for the call
`printValue(p, v, true)`, the only use the method makes of `v`. -/
def PrintListItem (p : Printer) (pv : Printer → Printer) (last : Bool) : Printer :=
  match p with
  | .jsonPrinter _ =>
    let p := pv p
    if !last then p.Newline ","
    else
      let p := p.decrementLevel
      p.Newline ""
  | .yamlPrinter _ =>
    let p := p.WriteString "- "
    let p := pv p
    if !last then p.Newline ""
    else p.decrementLevel

def PrintStartMap (p : Printer) : Printer :=
  match p with
  | .jsonPrinter _ =>
    let p := p.IncrementLevel
    p.Newline "\x7b"
  | .yamlPrinter _ =>
    let p := p.IncrementLevel
    p.Newline ""

def PrintEndMap (p : Printer) : Printer :=
  match p with
  | .jsonPrinter _ =>
    let p := p.Newline ""
    p.WriteString "\x7d"
  | .yamlPrinter _ => p

/-- The method `PrintMapItem(k, v, last)`; `pv` stands for
`printValue(p, v, true)`. -/
def PrintMapItem (p : Printer) (k : String) (pv : Printer → Printer) (last : Bool) : Printer :=
  match p with
  | .jsonPrinter _ =>
    let p := p.PrintKey k
    let p := pv p
    if !last then p.Newline ","
    else
      let p := p.decrementLevel
      p.Newline ""
  | .yamlPrinter _ =>
    let p := p.PrintKey k
    let p := pv p
    if !last then p.Newline "" else p

def PrintEndOfItem (p : Printer) (last : Bool) : Printer :=
  match p with
  | .jsonPrinter _ =>
    if !last then p.Newline "," else p.decrementLevel
  | .yamlPrinter _ =>
    if last then p.Newline "" else p.decrementLevel

/-! ### The package-level functions -/

mutual

/-- The function `printValue(p, v, full)`. The calls `printList(p, vv)` and
`printMap(p, vv)` are written out in the array and object cases. -/
def printValue : Value → Bool → Printer → Printer
  | .bool vv, _, p => (p.WriteString (formatBool vv)).WriteTypeMaybe (.bool vv)
  | .number vv, _, p => (p.WriteString vv).WriteTypeMaybe (.number vv)
  | .string vv, _, p =>
    let vv1 := strconvQuote vv
    (p.WriteString vv1).WriteTypeMaybe (.string vv)
  | .array vv, full, p =>
    let p :=
      if full then
        -- printList
        if vv.length = 0 then p.WriteString "[]"
        else
          let p := p.PrintStartList
          let p := printListItems vv 0 vv.length p
          p.PrintEndList
      else p.WriteString "[]"
    p.WriteTypeMaybe (.array vv)
  | .object vv, full, p =>
    let p :=
      if full then
        -- printMap
        if vv.length = 0 then p.WriteString "\x7b\x7d"
        else
          let p := p.PrintStartMap
          let p := printMapItems vv 0 vv.length p
          p.PrintEndMap
      else p.WriteString "\x7b\x7d"
    p.WriteTypeMaybe (.object vv)
  | .null, _, p => (p.WriteString "null").WriteTypeMaybe .null

/-- The loop `for i, v := range vv { p.PrintListItem(v, i == len(vv)-1) }` of
`printList`, from index `i` on. -/
def printListItems : List Value → Int → Int → Printer → Printer
  | [], _, _, p => p
  | v :: rest, i, len, p =>
    printListItems rest (i + 1) len
      (p.PrintListItem (fun q => printValue v true q) (decide (i = len - 1)))

/-- The loop `for k, v := range vv { p.PrintMapItem(k, v, i == len(vv)-1); i++ }`
of `printMap`, from the `i`-th visited entry on. -/
def printMapItems : List (String × Value) → Int → Int → Printer → Printer
  | [], _, _, p => p
  | (k, v) :: rest, i, len, p =>
    printMapItems rest (i + 1) len
      (p.PrintMapItem k (fun q => printValue v true q) (decide (i = len - 1)))

end

def printList (p : Printer) (vv : List Value) : Printer :=
  if vv.length = 0 then p.WriteString "[]"
  else
    let p := p.PrintStartList
    let p := printListItems vv 0 vv.length p
    p.PrintEndList

def printMap (p : Printer) (vv : List (String × Value)) : Printer :=
  if vv.length = 0 then p.WriteString "\x7b\x7d"
  else
    let p := p.PrintStartMap
    let p := printMapItems vv 0 vv.length p
    p.PrintEndMap

def printMismatch (p : Printer) (a b : Value) : Printer :=
  let p := printValue a false p
  let p := p.WriteString " => "
  printValue b false p

def printChanged (p : Printer) (a b : Value) : Printer :=
  let p := p.PrintChangedTag
  p.printMismatch a b

/-- The tail of the loop of `printSliceDiff` once `sa` is exhausted: every further
index is valid in `sb` only, the item is printed as added. -/
def printAddedItems : List Value → Int → Int → Printer → Printer
  | [], _, _, p => p
  | y :: sb, i, max, p =>
    let p := p.PrintStartListItem
    let p := p.PrintAddedTag
    let p := printValue y true p
    let p := p.SetResult NoMatch
    let p := p.PrintNormalTag
    let p := p.PrintEndOfItem (decide (i = max - 1))
    printAddedItems sb (i + 1) max p

/-- The tail of the loop of `printSliceDiff` once `sb` is exhausted: every further
index is valid in `sa` only, the item is printed as removed. -/
def printRemovedItems : List Value → Int → Int → Printer → Printer
  | [], _, _, p => p
  | x :: sa, i, max, p =>
    let p := p.PrintStartListItem
    let p := p.PrintRemovedTag
    let p := printValue x true p
    let p := p.SetResult SupersetMatch
    let p := p.PrintNormalTag
    let p := p.PrintEndOfItem (decide (i = max - 1))
    printRemovedItems sa (i + 1) max p

/-- The loop `for i, k := range keys { body }`. -/
def forKeys (body : Int → String → Printer → Printer) : List String → Int → Printer → Printer
  | [], _, p => p
  | k :: keys, i, p => forKeys body keys (i + 1) (body i k p)

mutual

/-- The function `printDiffBody(p, a, b)`. The calls `printSliceDiff(p, a, b)` and
`printMapDiff(p, a, b)` are written out in the array and object cases. -/
def printDiffBody : Value → Value → Printer → Printer
  | a, b, p =>
    if a.isNil || b.isNil then
      if a.isNil && b.isNil then
        let p := p.PrintNormalTag
        let p := printValue a false p
        p.SetResult FullMatch
      else
        let p := p.printChanged a b
        p.SetResult NoMatch
    else if a.kind ≠ b.kind then
      let p := p.printChanged a b
      p.SetResult NoMatch
    else
      match a with
      | .bool x =>
        match b with
        | .bool y =>
          if x ≠ y then
            let p := p.printChanged a b
            p.SetResult NoMatch
          else
            let p := p.PrintNormalTag
            let p := printValue a true p
            p.SetResult FullMatch
        | _ =>
          -- not reached: `b` has the kind of `a`
          let p := p.PrintNormalTag
          let p := printValue a true p
          p.SetResult FullMatch
      | .number aa =>
        match b with
        | .number bb =>
          if aa ≠ bb then
            let p := p.printChanged a b
            p.SetResult NoMatch
          else
            let p := p.PrintNormalTag
            let p := printValue a true p
            p.SetResult FullMatch
        | _ =>
          -- `bb, ok := b.(json.Number)` with `!ok`
          let p := p.printChanged a b
          p.SetResult NoMatch
      | .string aa =>
        match b with
        | .string bb =>
          if aa ≠ bb then
            let p := p.printChanged a b
            p.SetResult NoMatch
          else
            let p := p.PrintNormalTag
            let p := printValue a true p
            p.SetResult FullMatch
        | _ =>
          -- `bb, ok := b.(string)` with `!ok`
          let p := p.printChanged a b
          p.SetResult NoMatch
      | .array sa =>
        match b with
        | .array sb =>
          -- printSliceDiff
          let salen : Int := sa.length
          let sblen : Int := sb.length
          let max := if sblen > salen then sblen else salen
          let p := p.PrintNormalTag
          if max = 0 then p.WriteString "[]"
          else
            let p := p.IncrementLevel
            let p := p.PrintStartList
            let p := printSliceItems sa sb 0 max p
            let p := p.PrintEndList
            p.WriteTypeMaybe a
        | _ =>
          -- not reached: `b` has the kind of `a`
          p
      | .object ma =>
        match b with
        | .object mb =>
          -- printMapDiff
          let keys := unionKeys ma mb
          let p := p.PrintNormalTag
          if keys.length = 0 then
            let p := p.WriteString "\x7b\x7d"
            p.WriteTypeMaybe a
          else
            let p := p.PrintStartMap
            let p := forKeys (fun i k p =>
              let p :=
                match ma.lookup k, mb.lookup k with
                | some _, some vb =>
                  let p := p.PrintKey k
                  printDiffBodyAt ma k vb p
                | some va, none =>
                  let p := p.PrintRemovedTag
                  let p := p.PrintKey k
                  let p := printValue va true p
                  p.SetResult SupersetMatch
                | none, some vb =>
                  let p := p.PrintAddedTag
                  let p := p.PrintKey k
                  let p := printValue vb true p
                  p.SetResult NoMatch
                | none, none => p
              let p := p.PrintNormalTag
              p.PrintEndOfItem (decide (i = (keys.length : Int) - 1))) keys 0 p
            let p := p.PrintEndMap
            p.WriteTypeMaybe a
        | _ =>
          -- not reached: `b` has the kind of `a`
          p
      | .null =>
        -- not reached: `a` is not nil
        let p := p.PrintNormalTag
        let p := printValue a true p
        p.SetResult FullMatch

/-- The loop `for i := 0; i < max; i++` of `printSliceDiff`, from index `i` on,
with `sa[i:]` and `sb[i:]` as the two lists. -/
def printSliceItems : List Value → List Value → Int → Int → Printer → Printer
  | x :: sa, y :: sb, i, max, p =>
    let p := p.PrintStartListItem
    let p := printDiffBody x y p
    let p := p.PrintNormalTag
    let p := p.PrintEndOfItem (decide (i = max - 1))
    printSliceItems sa sb (i + 1) max p
  | x :: sa, [], i, max, p => printRemovedItems (x :: sa) i max p
  | [], sb, i, max, p => printAddedItems sb i max p

/-- The call `printDiffBody(p, va, vb)` with `va, aok := ma[k]` and `aok` true: the
entry of `ma` with key `k` is compared with `vb`. -/
def printDiffBodyAt : List (String × Value) → String → Value → Printer → Printer
  | [], _, _, p => p
  | (k1, va) :: ma, k, vb, p =>
    if k = k1 then printDiffBody va vb p else printDiffBodyAt ma k vb p

end

/-- The body of the loop `for i, k := range keys` of `printMapDiff`, with `len`
for `len(keys)`. -/
def printMapItem (ma mb : List (String × Value)) (len : Int) (i : Int) (k : String)
    (p : Printer) : Printer :=
  let p :=
    match ma.lookup k, mb.lookup k with
    | some _, some vb =>
      let p := p.PrintKey k
      printDiffBodyAt ma k vb p
    | some va, none =>
      let p := p.PrintRemovedTag
      let p := p.PrintKey k
      let p := printValue va true p
      p.SetResult SupersetMatch
    | none, some vb =>
      let p := p.PrintAddedTag
      let p := p.PrintKey k
      let p := printValue vb true p
      p.SetResult NoMatch
    | none, none => p
  let p := p.PrintNormalTag
  p.PrintEndOfItem (decide (i = len - 1))

/-- The function `printDiff(p, a, b)`. -/
def printDiff (p : Printer) (a b : Value) : Printer :=
  let p := p.PrintFirst
  printDiffBody a b p

end Printer

open Context

/-! ## Vocabulary of the statements and of their proofs -/

namespace Context

/-- A relation between a state and a later state that holds across every
primitive step of the writer: a write to the buffer, a change of level, the
closing and reopening of the open span at a line break. -/
structure WriteRel (R : Context → Context → Prop) : Prop where
  refl : ∀ c, R c c
  trans : ∀ a b c, R a b → R b c → R a c
  primWrite : ∀ c s, R c (c.writeString s)
  primLevel : ∀ c l, R c { c with level := l }
  primEnd : ∀ c, R c c.writeLastTagEnd
  primBegin : ∀ c, R c c.writeLastTagBegin
  primBreak : ∀ c, R c (c.log .lineBreak)

end Context

/-- Deep equality of two decoded values: the same kind at every position, equal
booleans and strings, numbers with the same literal text, arrays of equal
length whose items are deeply equal index by index, objects with the same keys
whose values are deeply equal key by key. -/
inductive DeepEqual : Value → Value → Prop where
  | null : DeepEqual .null .null
  | bool (x : Bool) : DeepEqual (.bool x) (.bool x)
  | number (t : String) : DeepEqual (.number t) (.number t)
  | string (s : String) : DeepEqual (.string s) (.string s)
  | array (xs ys : List Value) : xs.length = ys.length →
      (∀ (i : Nat) (x y : Value), xs[i]? = some x → ys[i]? = some y → DeepEqual x y) →
      DeepEqual (.array xs) (.array ys)
  | object (ma mb : List (String × Value)) :
      (∀ k, (ma.lookup k).isSome = (mb.lookup k).isSome) →
      (∀ k x y, ma.lookup k = some x → mb.lookup k = some y → DeepEqual x y) →
      DeepEqual (.object ma) (.object mb)

/-- The superset relation of the doc comment of `Compare`: scalars and null are
equal; an array is at least as long as the other one and each of its items in
the index range of the other is equal to or a superset of the item there; an
object has every key of the other one and its value at each such key is equal
to or a superset of the value there. -/
inductive Superset : Value → Value → Prop where
  | null : Superset .null .null
  | bool (x : Bool) : Superset (.bool x) (.bool x)
  | number (t : String) : Superset (.number t) (.number t)
  | string (s : String) : Superset (.string s) (.string s)
  | array (xs ys : List Value) : ys.length ≤ xs.length →
      (∀ (i : Nat) (x y : Value), xs[i]? = some x → ys[i]? = some y →
        ¬ DeepEqual x y → Superset x y) →
      Superset (.array xs) (.array ys)
  | object (ma mb : List (String × Value)) :
      (∀ k, (mb.lookup k).isSome → (ma.lookup k).isSome) →
      (∀ k x y, ma.lookup k = some x → mb.lookup k = some y →
        ¬ DeepEqual x y → Superset x y) →
      Superset (.object ma) (.object mb)

/-- The three classifications a traversal can produce. -/
def okDiff (d : Difference) : Prop := d = FullMatch ∨ d = SupersetMatch ∨ d = NoMatch

/-- The classification `d` reached from `d0` by a part of the traversal whose
pair of nodes is deeply equal exactly when `E` and in the superset relation
exactly when `S`. -/
structure Agg (d0 d : Difference) (E S : Prop) : Prop where
  ok : okDiff d
  full : d = FullMatch ↔ d0 = FullMatch ∧ E
  sup : d ≠ NoMatch ↔ d0 ≠ NoMatch ∧ S

namespace Context

/-- Options, open span and classification are kept. -/
def Keeps (c d : Context) : Prop :=
  d.opts = c.opts ∧ d.lastTag = c.lastTag ∧ d.diff = c.diff

end Context

/-- Every index valid in both lists holds a pair of items related by `P`. -/
def EachPair (P : Value → Value → Prop) (xs ys : List Value) : Prop :=
  ∀ (i : Nat) (x y : Value), xs[i]? = some x → ys[i]? = some y → P x y

/-- The verdict of the map-diff at key `k`, as deep equality. -/
def EqAt (ma mb : List (String × Value)) (k : String) : Prop :=
  match ma.lookup k, mb.lookup k with
  | some x, some y => DeepEqual x y
  | none, none => True
  | _, _ => False

/-- The verdict of the map-diff at key `k`, as the superset relation. -/
def SupAt (ma mb : List (String × Value)) (k : String) : Prop :=
  match ma.lookup k, mb.lookup k with
  | some x, some y => Superset x y
  | none, some _ => False
  | _, none => True

/-- Equality of two scalars or nulls, as `printDiff` tests it. -/
def sameLeaf : Value → Value → Bool
  | .null, .null => true
  | .bool x, .bool y => x == y
  | .number x, .number y => x == y
  | .string x, .string y => x == y
  | _, _ => false

namespace Context

/-- The variable `max` of `printSliceDiff`: the larger of the two lengths. -/
def maxLen (sa sb : List Value) : Int :=
  if (sb.length : Int) > sa.length then (sb.length : Int) else sa.length

end Context

/-- One step of a position in a document: into the value of an object key or
into the element of an array index. -/
inductive PathStep where
  | key (k : String)
  | index (i : Nat)

/-- The value of a document at a position, when the position exists in it. -/
def Value.at : Value → List PathStep → Option Value
  | v, [] => some v
  | .object m, .key k :: p =>
    match m.lookup k with
    | some v => v.at p
    | none => none
  | .array xs, .index i :: p =>
    match xs[i]? with
    | some v => v.at p
    | none => none
  | _, _ :: _ => none

/-- Null, a boolean, a number or a string. -/
def Value.isScalar : Value → Bool
  | .array _ => false
  | .object _ => false
  | _ => true

/-- The options with which `Compare` runs the traversal: `Output` defaults to
`JSON`. -/
def defaultOutput (opts : Options) : Options :=
  if opts.Output = "" then { opts with Output := JSON } else opts

namespace Context

/-- The state `d` is reached from `c` by writing only: writes to the buffer,
changes of level and the closing and reopening of the open span at line breaks. -/
inductive Writes : Context → Context → Prop where
  | refl (c : Context) : Writes c c
  | writeString (c d : Context) (s : String) : Writes c d → Writes c (d.writeString s)
  | setLevel (c d : Context) (l : Int) : Writes c d → Writes c { d with level := l }
  | lastTagEnd (c d : Context) : Writes c d → Writes c d.writeLastTagEnd
  | lastTagBegin (c d : Context) : Writes c d → Writes c d.writeLastTagBegin
  | lineBreak (c d : Context) : Writes c d → Writes c (d.log .lineBreak)

/-- A property of the state kept by the traversal: by the write-only steps, by
the transition to the Normal span, by recording a match, and by each of the three
blocks that open another span, write, and record their outcome. -/
structure TravInv (I : Context → Prop) : Prop where
  writes : ∀ c d, I c → Writes c d → I d
  normal : ∀ c, I c → I (c.tag .Normal)
  matched : ∀ c, I c → I (c.result FullMatch)
  changed : ∀ c d, I c → Writes (c.tag .Changed) d → I (d.result NoMatch)
  removed : ∀ c d, I c → Writes (c.tag .Removed) d → I (d.result SupersetMatch)
  added : ∀ c d, I c → Writes (c.tag .Added) d → I (d.result NoMatch)

/-- The traversal has opened an Added, Removed or Changed span. -/
def opensOther (c : Context) : Prop :=
  ∃ t, t ≠ Span.Normal ∧ Event.opened t ∈ c.trace

/-- Rendering and classification in sync: the open span was opened, and a span
other than Normal was opened exactly when the classification is not `FullMatch`. -/
def SyncInv (c : Context) : Prop :=
  (∀ t, c.lastTag = some t → Event.opened t ∈ c.trace) ∧ okDiff c.diff ∧
    (opensOther c ↔ c.diff ≠ FullMatch)

/-- What writing only does to the trace: it grows, and the only spans it opens
are reopenings of the open span. -/
def TraceRel (c d : Context) : Prop :=
  d.lastTag = c.lastTag ∧ d.diff = c.diff ∧ (∀ e ∈ c.trace, e ∈ d.trace) ∧
    ∀ t, Event.opened t ∈ d.trace → Event.opened t ∈ c.trace ∨ c.lastTag = some t

/-- A relation between the states of two runs of the traversal that take the
same branches (same dialect, same `PrintTypes`) and that every primitive step,
done in both runs, keeps. -/
structure SimRel (S : Context → Context → Prop) : Prop where
  output : ∀ c d, S c d → c.opts.Output = d.opts.Output
  printTypes : ∀ c d, S c d → c.opts.PrintTypes = d.opts.PrintTypes
  write : ∀ c d s, S c d → S (c.writeString s) (d.writeString s)
  writePrefix : ∀ c d, S c d → S (c.writeString c.opts.Prefix) (d.writeString d.opts.Prefix)
  indent : ∀ c d, S c d → S c.writeIndent d.writeIndent
  levelUp : ∀ c d, S c d → S { c with level := c.level + 1 } { d with level := d.level + 1 }
  levelDown : ∀ c d, S c d → S { c with level := c.level - 1 } { d with level := d.level - 1 }
  lastEnd : ∀ c d, S c d → S c.writeLastTagEnd d.writeLastTagEnd
  lastBegin : ∀ c d, S c d → S c.writeLastTagBegin d.writeLastTagBegin
  lineBreak : ∀ c d, S c d → S (c.log .lineBreak) (d.log .lineBreak)
  tag : ∀ c d t, S c d → S (c.tag t) (d.tag t)
  result : ∀ c d r, S c d → S (c.result r) (d.result r)

end Context

/-- Two options values that differ at most in the Added, Removed and Changed
marker pairs. -/
def SameButOther (o p : Options) : Prop :=
  o.Output = p.Output ∧ o.Normal = p.Normal ∧ o.Prefix = p.Prefix ∧ o.Indent = p.Indent ∧
    o.PrintTypes = p.PrintTypes

namespace Context

/-- Two runs under options that differ at most in the Added, Removed and Changed
markers: same level, open span, classification and events, and the same buffer
as long as none of these three spans was opened. -/
def NormalSim (c d : Context) : Prop :=
  SameButOther c.opts d.opts ∧ c.level = d.level ∧ c.lastTag = d.lastTag ∧ c.diff = d.diff ∧
    c.trace = d.trace ∧ (∀ t, c.lastTag = some t → Event.opened t ∈ c.trace) ∧
    (¬ opensOther c → c.buf = d.buf)

/-- The buffer of `d` extends the buffer of `c`: the buffer is append-only. -/
def Ext (c d : Context) : Prop := ∃ s, d.buf = c.buf ++ s

/-- The state at the head of an iteration of the loops of `printSliceDiff` and
`printMapDiff`: the options of the traversal and the Normal span open. -/
def AtHead (o : Options) (c : Context) : Prop := c.opts = o ∧ c.lastTag = some .Normal

/-- The text `out` holds an entry written in full inside an Added span: at a state
`c` of the traversal under the options `o` whose last write is the Added
begin-marker, `write` (the key, if any, and `writeValue(v, true)`) is written,
followed by the Added end-marker. -/
def InAddedSpan (o : Options) (write : Context → Context) (out : String) : Prop :=
  ∃ (c : Context) (pre rest : String), c.opts = o ∧ c.lastTag = some .Added ∧
    c.buf = pre ++ o.Added.Begin ∧ out = (write c).buf ++ o.Added.End ++ rest

end Context

/-- The first document of the superset scenario,
`{"a": 123, "b": 456, "c": [7, 8, 9]}`. -/
def supersetDoc : Value :=
  .object [("a", .number "123"), ("b", .number "456"),
    ("c", .array [.number "7", .number "8", .number "9"])]

/-- The second document of the superset scenario, `{"a": 123, "c": [7, 8]}`. -/
def subsetDoc : Value :=
  .object [("a", .number "123"), ("c", .array [.number "7", .number "8"])]

/-- The text `s` inside the span with markers `t`. -/
def Tag.wrap (t : Tag) (s : String) : String := t.Begin ++ s ++ t.End

/-- The line break at nesting level `level`: line feed, prefix, indentation. -/
def Options.lineBreak (o : Options) (level : Nat) : String :=
  "\n" ++ o.Prefix ++ String.join (List.replicate level o.Indent)

/-- The type tag that `writeType` writes for a value. -/
def Value.typeTag : Value → String
  | .bool _ => "(boolean)"
  | .number _ => "(number)"
  | .string _ => "(string)"
  | .array _ => "(array)"
  | .object _ => "(object)"
  | .null => "(null)"

/-- The kinds of the value model: null, boolean, number, string, array, object. -/
inductive JsonKind where
  | null
  | boolean
  | number
  | string
  | array
  | object
deriving DecidableEq, Repr

/-- The kind of a decoded value. -/
def Value.jsonKind : Value → JsonKind
  | .null => .null
  | .bool _ => .boolean
  | .number _ => .number
  | .string _ => .string
  | .array _ => .array
  | .object _ => .object

namespace Context

/-- What `writeTypeMaybe` appends for `v`: a space and the type tag when
`PrintTypes` is on, nothing when it is off. -/
def typeSuffix (c : Context) (v : Value) : String :=
  if c.opts.PrintTypes then " " ++ v.typeTag else ""

/-- The compact text of a value, as `writeValue(v, false)` writes it before the
type suffix: the literal of a scalar (strings quoted by the dialect), the
token `[]` for every array and `{}` for every object. -/
def compact (c : Context) : Value → String
  | .bool b => formatBool b
  | .number t => t
  | .string s => c.quote s
  | .array _ => "[]"
  | .object _ => "\x7b\x7d"
  | .null => "null"

/-- The switch of `writeValue(v, full)`: the value itself, before
`writeTypeMaybe`. -/
def writeBare (c : Context) (v : Value) (full : Bool) : Context :=
  match v with
  | .bool vv => c.writeString (formatBool vv)
  | .number vv => c.writeString vv
  | .string vv => c.writeString (c.quote vv)
  | .array vv => if full then c.writeList vv else c.writeString "[]"
  | .object vv => if full then c.writeMap vv else c.writeString "\x7b\x7d"
  | .null => c.writeString "null"

/-- The end-marker of the open span, empty when no span is open. -/
def lastEnd (c : Context) : String :=
  match c.lastTag with
  | some t => (c.opts.tagOf t).End
  | none => ""

/-- The begin-marker of the open span, empty when no span is open. -/
def lastBegin (c : Context) : String :=
  match c.lastTag with
  | some t => (c.opts.tagOf t).Begin
  | none => ""

/-- The indentation at the level of `c`: `Indent` once per level, nothing when
the level is not positive. -/
def indentation (c : Context) : String :=
  String.join (List.replicate c.level.toNat c.opts.Indent)

end Context

/-- The two values are a mismatch for `printDiff`: of different kinds, or
scalars of one kind with different values. -/
def Mismatch (a b : Value) : Prop :=
  a.jsonKind ≠ b.jsonKind ∨ (a.isScalar = true ∧ b.isScalar = true ∧ a ≠ b)

/-- The strings are in strictly ascending order. -/
def Ascending (l : List String) : Prop := List.Pairwise (fun a b => stringLess a b = true) l

/-- The quoting of the dialect selected by the options, as `ctx.quote` does it. -/
def Options.quote (o : Options) (s : String) : String :=
  if o.Output = JSON then strconvQuote s
  else if o.Output = YAML then s
  else s

/-- The fixed texts that the renderer writes: literals, brackets, separators
and type tags. -/
def tokens : List String :=
  ["true", "false", "null", "[]", "\x7b\x7d", " ", "(boolean)", "(number)", "(string)",
    "(array)", "(object)", "(null)", ": ", " => ", "- ", "]", "\x7d", "", ",", "[", "\x7b"]

mutual

/-- Every text that the renderer writes for the value satisfies `A`: the literal
text of each number and the quoted text of each string and key. -/
def Value.TextsOK (A : String → Prop) (o : Options) : Value → Prop
  | .null => True
  | .bool _ => True
  | .number t => A t
  | .string s => A (o.quote s)
  | .array vv => itemsOK A o vv
  | .object m => entriesOK A o m

/-- The items of an array satisfy `Value.TextsOK`. -/
def itemsOK (A : String → Prop) (o : Options) : List Value → Prop
  | [] => True
  | v :: rest => v.TextsOK A o ∧ itemsOK A o rest

/-- The keys and values of an object satisfy `Value.TextsOK`. -/
def entriesOK (A : String → Prop) (o : Options) : List (String × Value) → Prop
  | [] => True
  | (k, v) :: rest => A (o.quote k) ∧ v.TextsOK A o ∧ entriesOK A o rest

end

namespace Context

/-- A property of the state kept by every step of the traversal under the
options `o`, when the texts written satisfy `A`: a write, a line break, a change
of level, a span transition, a recorded outcome. -/
structure StepInv (o : Options) (A : String → Prop) (J : Context → Prop) : Prop where
  opts : ∀ c, J c → c.opts = o
  write : ∀ c s, A s → J c → J (c.writeString s)
  newline : ∀ c s, A s → J c → J (c.newline s)
  level : ∀ c l, J c → J { c with level := l }
  tag : ∀ c t, J c → J (c.tag t)
  result : ∀ c d, J c → J (c.result d)

end Context

/-- The text holds no line feed. -/
def NoLineFeed (s : String) : Prop := '\n' ∉ s.data

/-- Every line of `s` after the first starts with `p`: each line feed of `s` is
followed by `p`. -/
def LineStarts (p s : String) : Prop :=
  ∀ l r : List Char, s.data = l ++ '\n' :: r → p.data <+: r

/-- No marker, prefix or indent of the options holds a line feed. -/
def Options.NoLineFeeds (o : Options) : Prop :=
  NoLineFeed o.Prefix ∧ NoLineFeed o.Indent ∧
    ∀ t : Span, NoLineFeed (o.tagOf t).Begin ∧ NoLineFeed (o.tagOf t).End

instance (s : String) : Decidable (NoLineFeed s) := by
  unfold NoLineFeed; infer_instance

namespace Context

/-- The buffer under the options `o`, each of its lines after the first starting
with the prefix. -/
def LinesInv (o : Options) (c : Context) : Prop :=
  c.opts = o ∧ LineStarts o.Prefix c.buf

end Context

/-- The classification that `result(d)` leaves when the accumulated one is `c`. -/
def resultDiff (c d : Difference) : Difference :=
  if d = NoMatch then NoMatch
  else if d = SupersetMatch ∧ c ≠ NoMatch then SupersetMatch
  else if c ≠ NoMatch ∧ c ≠ SupersetMatch then FullMatch
  else c

/-- The outcomes of the loop `for i, k := range keys`, one entry after the other. -/
def outcomesKeys (body : String → List Difference) : List String → List Difference
  | [] => []
  | k :: keys => body k ++ outcomesKeys body keys

mutual
/-- The outcomes that `printDiff(a, b)` passes to `ctx.result`, in the order of the
calls: one per compared pair of scalars or nulls, per mismatch, per removed and
per added entry. -/
def outcomes : Value → Value → List Difference
  | a, b =>
    match a with
    | .array sa =>
      match b with
      | .array sb => outcomesItems sa sb
      | _ => [NoMatch]
    | .object ma =>
      match b with
      | .object mb =>
        outcomesKeys (fun k =>
          match ma.lookup k, mb.lookup k with
          | some _, some vb => outcomesAt ma k vb
          | some _, none => [SupersetMatch]
          | none, some _ => [NoMatch]
          | none, none => []) (unionKeys ma mb)
      | _ => [NoMatch]
    | _ => if sameLeaf a b then [FullMatch] else [NoMatch]
/-- The outcomes of the loop of `printSliceDiff`. -/
def outcomesItems : List Value → List Value → List Difference
  | x :: sa, y :: sb => outcomes x y ++ outcomesItems sa sb
  | x :: sa, [] => (x :: sa).map (fun _ => SupersetMatch)
  | [], sb => sb.map (fun _ => NoMatch)
/-- The outcomes of `ctx.printDiff(ma[k], vb)`. -/
def outcomesAt : List (String × Value) → String → Value → List Difference
  | [], _, _ => []
  | (k1, va) :: ma, k, vb => if k = k1 then outcomes va vb else outcomesAt ma k vb
end

/-- The outcomes of one entry of the loop of `printMapDiff`. -/
def outcomesEntry (ma mb : List (String × Value)) (k : String) : List Difference :=
  match ma.lookup k, mb.lookup k with
  | some _, some vb => outcomesAt ma k vb
  | some _, none => [SupersetMatch]
  | none, some _ => [NoMatch]
  | none, none => []

/-- The text `out` extends `s`, and after `s` it holds the keys of the list, each
quoted by the dialect and followed by `: `, one after the other in the order of
the list: before each key comes the text `pre` that opens its entry and after it
the rest `entry` of the entry. -/
def KeysInOrder (o : Options) : List String → String → String → Prop
  | [], s, out => ∃ rest, out = s ++ rest
  | k :: ks, s, out =>
    ∃ pre entry, KeysInOrder o ks (s ++ pre ++ o.quote k ++ ": " ++ entry) out

namespace Context

/-- The state after the key `k` is written in the open span: the key quoted by
the dialect and `: ` are appended to the buffer. -/
def keyWritten (d : Context) (k : String) : Context :=
  { d with buf := d.buf ++ d.opts.quote k ++ ": " }

/-- The state after the span `t` is opened from the open Normal span and the key
`k` is written in it: the Normal end-marker, the begin-marker of `t`, the quoted
key and `: ` are appended to the buffer, and `t` is the open span. -/
def keyInSpan (d : Context) (t : Span) (k : String) : Context :=
  { d with
    buf := d.buf ++ d.opts.Normal.End ++ (d.opts.tagOf t).Begin ++ d.opts.quote k ++ ": "
    lastTag := some t
    trace := d.trace ++ [Event.closed .Normal, Event.opened t] }

end Context

/-- The console options with the line prefix `> `. -/
def prefixedOptions : Options := { DefaultConsoleOptions with Prefix := "> " }

/-- The console options with `PrintTypes` on. -/
def typedOptions : Options := { DefaultConsoleOptions with PrintTypes := true }

/-- The six names of `Difference.String`, in the order of the constants. -/
def differenceNames : List String :=
  ["FullMatch", "SupersetMatch", "NoMatch", "FirstArgIsInvalidJson", "SecondArgIsInvalidJson",
    "BothArgsAreInvalidJson"]

/-- One event read by the reader of the stream of markers and line breaks, `st`
being the span that is open: a begin-marker is accepted when no span is open, an
end-marker when its own span is open, a line break when no span is open. -/
def spanStep (st : Option Span) (e : Event) : Option (Option Span) :=
  match st, e with
  | none, .opened t => some (some t)
  | some s, .closed t => if s = t then some none else none
  | none, .lineBreak => some none
  | _, _ => none

/-- The reader run over a list of events from the state `st`: the state after
the last event, or `none` when an event was not accepted. -/
def spanRun (st : Option Span) : List Event → Option (Option Span)
  | [] => some st
  | e :: es =>
    match spanStep st e with
    | some st2 => spanRun st2 es
    | none => none

/-- The events are balanced: read from the state without open span every event
is accepted, and no span is open at the end. -/
def Balanced (es : List Event) : Prop := spanRun none es = some none

/-- The state in which `Compare` returns for two decoded documents: after the
traversal and the closing of the open span. -/
def finalContext (a b : Value) (opts : Options) : Context :=
  (printDiff a b (newContext (defaultOutput opts))).writeLastTagEnd

namespace Context

/-- The events written so far are accepted by the reader of the stream, which is
left with the open span of the state. -/
def SpanInv (o : Options) (c : Context) : Prop :=
  c.opts = o ∧ spanRun none c.trace = some c.lastTag

end Context

/-- The document `{"a": [1], "b": 2}`. -/
def listThenKeyDoc : Value := .object [("a", .array [.number "1"]), ("b", .number "2")]

/-! ## Relations kept by the write-only steps -/

namespace Context

section WriteRel

variable {R : Context → Context → Prop} (hR : WriteRel R)
include hR

theorem WriteRel.writeString {c d : Context} (s : String) (h : R c d) :
    R c (d.writeString s) := hR.trans _ _ _ h (hR.primWrite d s)

theorem WriteRel.setLevel {c d : Context} (l : Int) (h : R c d) :
    R c { d with level := l } := hR.trans _ _ _ h (hR.primLevel d l)

theorem WriteRel.writeLastTagEnd {c d : Context} (h : R c d) :
    R c d.writeLastTagEnd := hR.trans _ _ _ h (hR.primEnd d)

theorem WriteRel.writeLastTagBegin {c d : Context} (h : R c d) :
    R c d.writeLastTagBegin := hR.trans _ _ _ h (hR.primBegin d)

theorem WriteRel.logBreak {c d : Context} (h : R c d) :
    R c (d.log .lineBreak) := hR.trans _ _ _ h (hR.primBreak d)

theorem WriteRel.newline {c d : Context} (s : String) (h : R c d) : R c (d.newline s) := by
  unfold Context.newline writeIndent
  exact hR.writeLastTagBegin (hR.writeString _ (hR.writeString _ (hR.logBreak
    (hR.writeString _ (hR.writeLastTagEnd (hR.writeString _ h))))))

theorem WriteRel.key {c d : Context} (k : String) (h : R c d) : R c (d.key k) := by
  unfold Context.key
  exact hR.writeString _ (hR.writeString _ h)

theorem WriteRel.writeTypeMaybe {c d : Context} (v : Value) (h : R c d) :
    R c (d.writeTypeMaybe v) := by
  unfold Context.writeTypeMaybe Context.writeType
  split
  · cases v <;> exact hR.writeString _ (hR.writeString _ h)
  · exact h

theorem WriteRel.jsonWriteEndOfItem {c d : Context} (i len : Int) (h : R c d) :
    R c (d.jsonWriteEndOfItem i len) := by
  unfold Context.jsonWriteEndOfItem
  split
  · exact hR.newline _ h
  · exact hR.newline _ (hR.setLevel _ h)

theorem WriteRel.yamlWriteEndOfItem {c d : Context} (i len : Int) (h : R c d) :
    R c (d.yamlWriteEndOfItem i len) := by
  unfold Context.yamlWriteEndOfItem
  split
  · exact hR.newline _ h
  · exact hR.setLevel _ h

theorem WriteRel.writeEndOfItem {c d : Context} (i len : Int) (h : R c d) :
    R c (d.writeEndOfItem i len) := by
  unfold Context.writeEndOfItem
  split
  · exact hR.jsonWriteEndOfItem _ _ h
  · split
    · exact hR.yamlWriteEndOfItem _ _ h
    · exact h

theorem WriteRel.writeStartListItem {c d : Context} (h : R c d) : R c d.writeStartListItem := by
  unfold Context.writeStartListItem jsonWriteStartListItem yamlWriteStartListItem
  split
  · exact h
  · split
    · exact hR.writeString _ h
    · exact h

theorem WriteRel.writeListItem {c d : Context} (i len : Int) (wv : Context → Context)
    (hw : ∀ e, R c e → R c (wv e)) (h : R c d) : R c (d.writeListItem i wv len) := by
  unfold Context.writeListItem jsonWriteListItem yamlWriteListItem
  split
  · exact hR.jsonWriteEndOfItem _ _ (hw _ h)
  · split
    · dsimp only
      split
      · exact hR.newline _ (hw _ (hR.writeString _ h))
      · exact hR.setLevel _ (hw _ (hR.writeString _ h))
    · exact h

theorem WriteRel.writeMapItem {c d : Context} (i len : Int) (k : String) (wv : Context → Context)
    (hw : ∀ e, R c e → R c (wv e)) (h : R c d) : R c (d.writeMapItem i k wv len) := by
  unfold Context.writeMapItem jsonWriteMapItem yamlWriteMapItem
  split
  · exact hR.jsonWriteEndOfItem _ _ (hw _ (hR.key _ h))
  · split
    · dsimp only
      split
      · exact hR.newline _ (hw _ (hR.key _ h))
      · exact hw _ (hR.key _ h)
    · exact h

theorem WriteRel.writeStartList {c d : Context} (h : R c d) : R c d.writeStartList := by
  unfold Context.writeStartList jsonWriteStartList yamlWriteStartList
  split
  · exact hR.newline _ (hR.setLevel _ h)
  · split
    · exact hR.newline _ h
    · exact h

theorem WriteRel.writeEndList {c d : Context} (h : R c d) : R c d.writeEndList := by
  unfold Context.writeEndList jsonWriteEndList yamlWriteEndList
  split
  · exact hR.writeString _ h
  · split <;> exact h

theorem WriteRel.writeStartMap {c d : Context} (h : R c d) : R c d.writeStartMap := by
  unfold Context.writeStartMap jsonWriteStartMap yamlWriteStartMap
  split
  · exact hR.newline _ (hR.setLevel _ h)
  · split
    · exact hR.newline _ (hR.setLevel _ h)
    · exact h

theorem WriteRel.writeEndMap {c d : Context} (h : R c d) : R c d.writeEndMap := by
  unfold Context.writeEndMap jsonWriteEndMap yamlWriteEndMap
  split
  · exact hR.writeString _ h
  · split <;> exact h

mutual
theorem WriteRel.writeValue : ∀ (v : Value) (full : Bool) (c d : Context), R c d →
    R c (writeValue v full d)
  | .null, _, c, d, h => by
    rw [Context.writeValue]
    exact hR.writeTypeMaybe _ (hR.writeString _ h)
  | .bool b, _, c, d, h => by
    rw [Context.writeValue]
    exact hR.writeTypeMaybe _ (hR.writeString _ h)
  | .number b, _, c, d, h => by
    rw [Context.writeValue]
    exact hR.writeTypeMaybe _ (hR.writeString _ h)
  | .string b, _, c, d, h => by
    rw [Context.writeValue]
    exact hR.writeTypeMaybe _ (hR.writeString _ h)
  | .array vv, full, c, d, h => by
    rw [Context.writeValue]
    refine hR.writeTypeMaybe _ ?_
    split
    · split
      · exact hR.writeString _ h
      · exact hR.writeEndList (WriteRel.writeListItems vv 0 _ c _ (hR.writeStartList h))
    · exact hR.writeString _ h
  | .object vv, full, c, d, h => by
    rw [Context.writeValue]
    refine hR.writeTypeMaybe _ ?_
    split
    · split
      · exact hR.writeString _ h
      · exact hR.writeEndMap (WriteRel.writeMapItems vv 0 _ c _ (hR.writeStartMap h))
    · exact hR.writeString _ h
theorem WriteRel.writeListItems : ∀ (vv : List Value) (i len : Int) (c d : Context), R c d →
    R c (writeListItems vv i len d)
  | [], _, _, c, d, h => by rw [Context.writeListItems]; exact h
  | v :: rest, i, len, c, d, h => by
    rw [Context.writeListItems]
    exact WriteRel.writeListItems rest _ _ c _
      (hR.writeListItem i len _ (fun e he => WriteRel.writeValue v true c e he) h)
theorem WriteRel.writeMapItems : ∀ (vv : List (String × Value)) (i len : Int) (c d : Context),
    R c d → R c (writeMapItems vv i len d)
  | [], _, _, c, d, h => by rw [Context.writeMapItems]; exact h
  | (k, v) :: rest, i, len, c, d, h => by
    rw [Context.writeMapItems]
    exact WriteRel.writeMapItems rest _ _ c _
      (hR.writeMapItem i len k _ (fun e he => WriteRel.writeValue v true c e he) h)
end

end WriteRel

end Context

/-! ## Deep equality and the superset relation -/

theorem DeepEqual.superset {a b : Value} (h : DeepEqual a b) : Superset a b := by
  induction h with
  | null => exact .null
  | bool x => exact .bool x
  | number t => exact .number t
  | string s => exact .string s
  | array xs ys hlen _ ih => exact .array xs ys (by omega) (fun i x y hx hy _ => ih i x y hx hy)
  | object ma mb hk _ ih =>
    exact .object ma mb (fun k hb => by rw [hk k]; exact hb) (fun k x y hx hy _ => ih k x y hx hy)

theorem superset_array_iff (xs ys : List Value) :
    Superset (.array xs) (.array ys) ↔ ys.length ≤ xs.length ∧
      ∀ (i : Nat) (x y : Value), xs[i]? = some x → ys[i]? = some y → Superset x y := by
  constructor
  · intro h
    cases h with
    | array _ _ hlen hall =>
      refine ⟨hlen, fun i x y hx hy => ?_⟩
      by_cases he : DeepEqual x y
      · exact he.superset
      · exact hall i x y hx hy he
  · rintro ⟨hlen, hall⟩
    exact .array xs ys hlen (fun i x y hx hy _ => hall i x y hx hy)

theorem superset_object_iff (ma mb : List (String × Value)) :
    Superset (.object ma) (.object mb) ↔ (∀ k, (mb.lookup k).isSome → (ma.lookup k).isSome) ∧
      ∀ k x y, ma.lookup k = some x → mb.lookup k = some y → Superset x y := by
  constructor
  · intro h
    cases h with
    | object _ _ hk hall =>
      refine ⟨hk, fun i x y hx hy => ?_⟩
      by_cases he : DeepEqual x y
      · exact he.superset
      · exact hall i x y hx hy he
  · rintro ⟨hk, hall⟩
    exact .object ma mb hk (fun i x y hx hy _ => hall i x y hx hy)

theorem deepEqual_array_iff (xs ys : List Value) :
    DeepEqual (.array xs) (.array ys) ↔ xs.length = ys.length ∧
      ∀ (i : Nat) (x y : Value), xs[i]? = some x → ys[i]? = some y → DeepEqual x y := by
  constructor
  · intro h
    cases h with
    | array _ _ hlen hall => exact ⟨hlen, hall⟩
  · rintro ⟨hlen, hall⟩
    exact .array xs ys hlen hall

theorem deepEqual_object_iff (ma mb : List (String × Value)) :
    DeepEqual (.object ma) (.object mb) ↔
      (∀ k, (ma.lookup k).isSome = (mb.lookup k).isSome) ∧
      ∀ k x y, ma.lookup k = some x → mb.lookup k = some y → DeepEqual x y := by
  constructor
  · intro h
    cases h with
    | object _ _ hk hall => exact ⟨hk, hall⟩
  · rintro ⟨hk, hall⟩
    exact .object ma mb hk hall

theorem Agg.agg_refl {d : Difference} (h : okDiff d) : Agg d d True True :=
  ⟨h, by simp, by simp⟩

theorem Agg.agg_trans {d0 d1 d2 : Difference} {E1 S1 E2 S2 : Prop} (h1 : Agg d0 d1 E1 S1)
    (h2 : Agg d1 d2 E2 S2) : Agg d0 d2 (E1 ∧ E2) (S1 ∧ S2) :=
  ⟨h2.ok, by rw [h2.full, h1.full, and_assoc], by rw [h2.sup, h1.sup, and_assoc]⟩

theorem Agg.congr {d0 d : Difference} {E S E1 S1 : Prop} (h : Agg d0 d E S) (hE : E ↔ E1)
    (hS : S ↔ S1) : Agg d0 d E1 S1 :=
  ⟨h.ok, by rw [h.full, hE], by rw [h.sup, hS]⟩

theorem agg_result_full (c : Context) (h : okDiff c.diff) :
    Agg c.diff (c.result FullMatch).diff True True := by
  have : (c.result FullMatch).diff = c.diff := by
    unfold okDiff at h
    unfold Context.result
    simp only [FullMatch, SupersetMatch, NoMatch] at *
    rcases h with h | h | h <;> simp [h]
  rw [this]; exact Agg.agg_refl h

theorem agg_result_sup (c : Context) (h : okDiff c.diff) :
    Agg c.diff (c.result SupersetMatch).diff False True := by
  unfold okDiff at h
  unfold Context.result
  simp only [FullMatch, SupersetMatch, NoMatch] at *
  rcases h with h | h | h <;> constructor <;> simp [h, okDiff, FullMatch, SupersetMatch, NoMatch]

theorem agg_result_no (c : Context) :
    Agg c.diff (c.result NoMatch).diff False False := by
  unfold Context.result
  constructor <;> simp [okDiff, FullMatch, SupersetMatch, NoMatch]

/-! ## What the writing functions leave unchanged -/

namespace Context

theorem keeps_writeRel : WriteRel Keeps where
  refl := fun _ => ⟨rfl, rfl, rfl⟩
  trans := fun _ _ _ h1 h2 =>
    ⟨h2.1.trans h1.1, h2.2.1.trans h1.2.1, h2.2.2.trans h1.2.2⟩
  primWrite := fun _ _ => ⟨rfl, rfl, rfl⟩
  primLevel := fun _ _ => ⟨rfl, rfl, rfl⟩
  primEnd := fun c => by
    unfold writeLastTagEnd; split <;> exact ⟨rfl, rfl, rfl⟩
  primBegin := fun c => by
    unfold writeLastTagBegin; split <;> exact ⟨rfl, rfl, rfl⟩
  primBreak := fun _ => ⟨rfl, rfl, rfl⟩

theorem keeps_writeValue (v : Value) (full : Bool) (c : Context) :
    Keeps c (writeValue v full c) :=
  keeps_writeRel.writeValue v full c c (keeps_writeRel.refl c)

@[simp] theorem writeString_diff (c : Context) (s : String) : (c.writeString s).diff = c.diff := rfl
@[simp] theorem writeString_opts (c : Context) (s : String) : (c.writeString s).opts = c.opts := rfl
@[simp] theorem writeString_lastTag (c : Context) (s : String) :
    (c.writeString s).lastTag = c.lastTag := rfl
@[simp] theorem writeString_buf (c : Context) (s : String) : (c.writeString s).buf = c.buf ++ s := rfl
@[simp] theorem writeString_level (c : Context) (s : String) : (c.writeString s).level = c.level := rfl
@[simp] theorem writeString_trace (c : Context) (s : String) : (c.writeString s).trace = c.trace := rfl

@[simp] theorem writeValue_diff (v : Value) (full : Bool) (c : Context) :
    (writeValue v full c).diff = c.diff := (keeps_writeValue v full c).2.2
@[simp] theorem writeValue_opts (v : Value) (full : Bool) (c : Context) :
    (writeValue v full c).opts = c.opts := (keeps_writeValue v full c).1
@[simp] theorem writeValue_lastTag (v : Value) (full : Bool) (c : Context) :
    (writeValue v full c).lastTag = c.lastTag := (keeps_writeValue v full c).2.1

@[simp] theorem key_diff (c : Context) (k : String) : (c.key k).diff = c.diff := rfl
@[simp] theorem key_opts (c : Context) (k : String) : (c.key k).opts = c.opts := rfl
@[simp] theorem key_lastTag (c : Context) (k : String) : (c.key k).lastTag = c.lastTag := rfl

@[simp] theorem writeTypeMaybe_diff (c : Context) (v : Value) :
    (c.writeTypeMaybe v).diff = c.diff :=
  (keeps_writeRel.writeTypeMaybe v (keeps_writeRel.refl c)).2.2
@[simp] theorem writeTypeMaybe_opts (c : Context) (v : Value) :
    (c.writeTypeMaybe v).opts = c.opts :=
  (keeps_writeRel.writeTypeMaybe v (keeps_writeRel.refl c)).1
@[simp] theorem writeTypeMaybe_lastTag (c : Context) (v : Value) :
    (c.writeTypeMaybe v).lastTag = c.lastTag :=
  (keeps_writeRel.writeTypeMaybe v (keeps_writeRel.refl c)).2.1

@[simp] theorem writeStartList_diff (c : Context) : c.writeStartList.diff = c.diff :=
  (keeps_writeRel.writeStartList (keeps_writeRel.refl c)).2.2
@[simp] theorem writeStartList_opts (c : Context) : c.writeStartList.opts = c.opts :=
  (keeps_writeRel.writeStartList (keeps_writeRel.refl c)).1
@[simp] theorem writeStartList_lastTag (c : Context) : c.writeStartList.lastTag = c.lastTag :=
  (keeps_writeRel.writeStartList (keeps_writeRel.refl c)).2.1

@[simp] theorem writeEndList_diff (c : Context) : c.writeEndList.diff = c.diff :=
  (keeps_writeRel.writeEndList (keeps_writeRel.refl c)).2.2
@[simp] theorem writeEndList_opts (c : Context) : c.writeEndList.opts = c.opts :=
  (keeps_writeRel.writeEndList (keeps_writeRel.refl c)).1
@[simp] theorem writeEndList_lastTag (c : Context) : c.writeEndList.lastTag = c.lastTag :=
  (keeps_writeRel.writeEndList (keeps_writeRel.refl c)).2.1

@[simp] theorem writeStartMap_diff (c : Context) : c.writeStartMap.diff = c.diff :=
  (keeps_writeRel.writeStartMap (keeps_writeRel.refl c)).2.2
@[simp] theorem writeStartMap_opts (c : Context) : c.writeStartMap.opts = c.opts :=
  (keeps_writeRel.writeStartMap (keeps_writeRel.refl c)).1
@[simp] theorem writeStartMap_lastTag (c : Context) : c.writeStartMap.lastTag = c.lastTag :=
  (keeps_writeRel.writeStartMap (keeps_writeRel.refl c)).2.1

@[simp] theorem writeEndMap_diff (c : Context) : c.writeEndMap.diff = c.diff :=
  (keeps_writeRel.writeEndMap (keeps_writeRel.refl c)).2.2
@[simp] theorem writeEndMap_opts (c : Context) : c.writeEndMap.opts = c.opts :=
  (keeps_writeRel.writeEndMap (keeps_writeRel.refl c)).1
@[simp] theorem writeEndMap_lastTag (c : Context) : c.writeEndMap.lastTag = c.lastTag :=
  (keeps_writeRel.writeEndMap (keeps_writeRel.refl c)).2.1

@[simp] theorem writeEndOfItem_diff (c : Context) (i len : Int) :
    (c.writeEndOfItem i len).diff = c.diff :=
  (keeps_writeRel.writeEndOfItem i len (keeps_writeRel.refl c)).2.2
@[simp] theorem writeEndOfItem_opts (c : Context) (i len : Int) :
    (c.writeEndOfItem i len).opts = c.opts :=
  (keeps_writeRel.writeEndOfItem i len (keeps_writeRel.refl c)).1
@[simp] theorem writeEndOfItem_lastTag (c : Context) (i len : Int) :
    (c.writeEndOfItem i len).lastTag = c.lastTag :=
  (keeps_writeRel.writeEndOfItem i len (keeps_writeRel.refl c)).2.1

@[simp] theorem writeStartListItem_diff (c : Context) : c.writeStartListItem.diff = c.diff :=
  (keeps_writeRel.writeStartListItem (keeps_writeRel.refl c)).2.2
@[simp] theorem writeStartListItem_opts (c : Context) : c.writeStartListItem.opts = c.opts :=
  (keeps_writeRel.writeStartListItem (keeps_writeRel.refl c)).1
@[simp] theorem writeStartListItem_lastTag (c : Context) :
    c.writeStartListItem.lastTag = c.lastTag :=
  (keeps_writeRel.writeStartListItem (keeps_writeRel.refl c)).2.1

@[simp] theorem newline_diff (c : Context) (s : String) : (c.newline s).diff = c.diff :=
  (keeps_writeRel.newline s (keeps_writeRel.refl c)).2.2
@[simp] theorem newline_opts (c : Context) (s : String) : (c.newline s).opts = c.opts :=
  (keeps_writeRel.newline s (keeps_writeRel.refl c)).1
@[simp] theorem newline_lastTag (c : Context) (s : String) : (c.newline s).lastTag = c.lastTag :=
  (keeps_writeRel.newline s (keeps_writeRel.refl c)).2.1

@[simp] theorem writeLastTagEnd_diff (c : Context) : c.writeLastTagEnd.diff = c.diff :=
  (keeps_writeRel.primEnd c).2.2
@[simp] theorem writeLastTagEnd_opts (c : Context) : c.writeLastTagEnd.opts = c.opts :=
  (keeps_writeRel.primEnd c).1
@[simp] theorem writeLastTagEnd_lastTag (c : Context) : c.writeLastTagEnd.lastTag = c.lastTag :=
  (keeps_writeRel.primEnd c).2.1

@[simp] theorem tag_diff (c : Context) (t : Span) : (c.tag t).diff = c.diff := by
  unfold Context.tag; split <;> simp [log]
@[simp] theorem tag_opts (c : Context) (t : Span) : (c.tag t).opts = c.opts := by
  unfold Context.tag; split <;> simp [log]
@[simp] theorem tag_lastTag (c : Context) (t : Span) : (c.tag t).lastTag = some t := by
  unfold Context.tag; split <;> simp [*]
@[simp] theorem tag_level (c : Context) (t : Span) : (c.tag t).level = c.level := by
  unfold Context.tag writeLastTagEnd; split
  · rfl
  · split <;> rfl

@[simp] theorem result_opts (c : Context) (d : Difference) : (c.result d).opts = c.opts := by
  unfold Context.result; split_ifs <;> rfl
@[simp] theorem result_lastTag (c : Context) (d : Difference) :
    (c.result d).lastTag = c.lastTag := by
  unfold Context.result; split_ifs <;> rfl
@[simp] theorem result_buf (c : Context) (d : Difference) : (c.result d).buf = c.buf := by
  unfold Context.result; split_ifs <;> rfl
@[simp] theorem result_level (c : Context) (d : Difference) : (c.result d).level = c.level := by
  unfold Context.result; split_ifs <;> rfl
@[simp] theorem result_trace (c : Context) (d : Difference) : (c.result d).trace = c.trace := by
  unfold Context.result; split_ifs <;> rfl

@[simp] theorem printMismatch_diff (c : Context) (a b : Value) :
    (c.printMismatch a b).diff = c.diff := by
  simp [printMismatch, writeMismatch]
@[simp] theorem printMismatch_opts (c : Context) (a b : Value) :
    (c.printMismatch a b).opts = c.opts := by
  simp [printMismatch, writeMismatch]
@[simp] theorem printMismatch_lastTag (c : Context) (a b : Value) :
    (c.printMismatch a b).lastTag = some .Changed := by
  simp [printMismatch, writeMismatch]

end Context

/-! ## The key union and the loops -/

theorem eachPair_cons (P : Value → Value → Prop) (x y : Value) (xs ys : List Value) :
    EachPair P (x :: xs) (y :: ys) ↔ P x y ∧ EachPair P xs ys := by
  constructor
  · intro h
    exact ⟨h 0 x y (by simp) (by simp), fun i a b ha hb => h (i + 1) a b (by simpa using ha) (by simpa using hb)⟩
  · rintro ⟨h0, ht⟩ i a b ha hb
    cases i with
    | zero =>
      simp only [List.getElem?_cons_zero, Option.some.injEq] at ha hb
      subst ha; subst hb; exact h0
    | succ n => exact ht n a b (by simpa using ha) (by simpa using hb)

theorem eachPair_nil_right (P : Value → Value → Prop) (xs : List Value) : EachPair P xs [] := by
  intro i x y _ hy; simp at hy

theorem eachPair_nil_left (P : Value → Value → Prop) (ys : List Value) : EachPair P [] ys := by
  intro i x y hx _; simp at hx

theorem lookup_isSome_iff (m : List (String × Value)) (k : String) :
    (m.lookup k).isSome ↔ k ∈ m.map Prod.fst := by
  induction m with
  | nil => simp
  | cons e m ih =>
    obtain ⟨k1, v⟩ := e
    by_cases h : k = k1
    · subst h; simp [List.lookup]
    · have : (k == k1) = false := by simpa using h
      simp [List.lookup, this, ih, h]

theorem mem_insertString (k x : String) (l : List String) :
    x ∈ insertString k l ↔ x = k ∨ x ∈ l := by
  induction l with
  | nil => simp [insertString]
  | cons y l ih =>
    unfold insertString
    split
    · simp [ih]; tauto
    · simp

theorem mem_sortStrings (x : String) (l : List String) : x ∈ sortStrings l ↔ x ∈ l := by
  induction l with
  | nil => simp [sortStrings]
  | cons y l ih =>
    have : sortStrings (y :: l) = insertString y (sortStrings l) := rfl
    rw [this, mem_insertString, ih]; simp

theorem mem_unionKeys (ma mb : List (String × Value)) (k : String) :
    k ∈ unionKeys ma mb ↔ (ma.lookup k).isSome ∨ (mb.lookup k).isSome := by
  unfold unionKeys
  rw [mem_sortStrings, List.mem_dedup, List.mem_append, lookup_isSome_iff, lookup_isSome_iff]

theorem forall_eqAt_iff (ma mb : List (String × Value)) :
    (∀ k ∈ unionKeys ma mb, EqAt ma mb k) ↔ DeepEqual (.object ma) (.object mb) := by
  rw [deepEqual_object_iff]
  constructor
  · intro h
    have h1 : ∀ k, EqAt ma mb k := by
      intro k
      by_cases hk : k ∈ unionKeys ma mb
      · exact h k hk
      · rw [mem_unionKeys] at hk
        unfold EqAt
        cases ha : ma.lookup k <;> cases hb : mb.lookup k <;> simp_all
    constructor
    · intro k
      have := h1 k
      unfold EqAt at this
      cases ha : ma.lookup k <;> cases hb : mb.lookup k <;> simp_all
    · intro k x y hx hy
      have := h1 k
      unfold EqAt at this
      simpa [hx, hy] using this
  · rintro ⟨hk, hall⟩ k _
    unfold EqAt
    have := hk k
    cases ha : ma.lookup k <;> cases hb : mb.lookup k <;> simp_all
    exact hall k _ _ ha hb

theorem forall_supAt_iff (ma mb : List (String × Value)) :
    (∀ k ∈ unionKeys ma mb, SupAt ma mb k) ↔ Superset (.object ma) (.object mb) := by
  rw [superset_object_iff]
  constructor
  · intro h
    have h1 : ∀ k, SupAt ma mb k := by
      intro k
      by_cases hk : k ∈ unionKeys ma mb
      · exact h k hk
      · rw [mem_unionKeys] at hk
        unfold SupAt
        cases ha : ma.lookup k <;> cases hb : mb.lookup k <;> simp_all
    constructor
    · intro k
      have := h1 k
      unfold SupAt at this
      cases ha : ma.lookup k <;> cases hb : mb.lookup k <;> simp_all
    · intro k x y hx hy
      have := h1 k
      unfold SupAt at this
      simpa [hx, hy] using this
  · rintro ⟨hk, hall⟩ k _
    unfold SupAt
    have := hk k
    cases ha : ma.lookup k <;> cases hb : mb.lookup k <;> simp_all
    exact hall k _ _ ha hb

namespace Context

theorem printRemovedItems_agg : ∀ (sa : List Value) (i max : Int) (c : Context),
    okDiff c.diff → Agg c.diff (printRemovedItems sa i max c).diff (sa = []) True
  | [], _, _, c, h => by
    rw [printRemovedItems]; exact (Agg.agg_refl h).congr (by simp) Iff.rfl
  | x :: sa, i, max, c, h => by
    rw [printRemovedItems]
    have h1 : Agg c.diff (((((c.writeStartListItem.tag .Removed) |> writeValue x true).result
        SupersetMatch).tag .Normal).writeEndOfItem i max).diff False True := by
      have := agg_result_sup (writeValue x true (c.writeStartListItem.tag .Removed))
        (by simpa using h)
      simpa using this
    exact (h1.agg_trans (printRemovedItems_agg sa (i + 1) max _ h1.ok)).congr (by simp) (by simp)

theorem printAddedItems_agg : ∀ (sb : List Value) (i max : Int) (c : Context),
    okDiff c.diff → Agg c.diff (printAddedItems sb i max c).diff (sb = []) (sb = [])
  | [], _, _, c, h => by
    rw [printAddedItems]; exact (Agg.agg_refl h).congr (by simp) (by simp)
  | y :: sb, i, max, c, h => by
    rw [printAddedItems]
    have h1 : Agg c.diff (((((c.writeStartListItem.tag .Added) |> writeValue y true).result
        NoMatch).tag .Normal).writeEndOfItem i max).diff False False := by
      have := agg_result_no (writeValue y true (c.writeStartListItem.tag .Added))
      simpa using this
    exact (h1.agg_trans (printAddedItems_agg sb (i + 1) max _ h1.ok)).congr (by simp) (by simp)

theorem forKeys_agg (body : Int → String → Context → Context) (E S : String → Prop)
    (hbody : ∀ i k c, okDiff c.diff → Agg c.diff (body i k c).diff (E k) (S k)) :
    ∀ (keys : List String) (i : Int) (c : Context), okDiff c.diff →
      Agg c.diff (forKeys body keys i c).diff (∀ k ∈ keys, E k) (∀ k ∈ keys, S k)
  | [], _, c, h => by
    rw [forKeys]; exact (Agg.agg_refl h).congr (by simp) (by simp)
  | k :: keys, i, c, h => by
    rw [forKeys]
    have h1 := hbody i k c h
    exact (h1.agg_trans (forKeys_agg body E S hbody keys (i + 1) _ h1.ok)).congr (by simp) (by simp)

end Context

/-! ## Unfolding of the traversal -/

namespace Context

theorem maxLen_eq_zero (sa sb : List Value) : maxLen sa sb = 0 ↔ sa = [] ∧ sb = [] := by
  unfold maxLen
  constructor
  · intro h
    constructor <;> apply List.eq_nil_of_length_eq_zero <;> split at h <;> omega
  · rintro ⟨rfl, rfl⟩; simp

theorem printDiff_array (sa sb : List Value) (c : Context) :
    printDiff (.array sa) (.array sb) c =
      if maxLen sa sb = 0 then
        ((c.tag .Normal).writeString "[]").writeTypeMaybe (.array sa)
      else
        ((printSliceItems sa sb 0 (maxLen sa sb)
          (c.tag .Normal).writeStartList).writeEndList).writeTypeMaybe (.array sa) := rfl

theorem printDiff_object (ma mb : List (String × Value)) (c : Context) :
    printDiff (.object ma) (.object mb) c =
      if (unionKeys ma mb).length = 0 then
        ((c.tag .Normal).writeString "\x7b\x7d").writeTypeMaybe (.object ma)
      else
        ((forKeys (printMapItem ma mb (unionKeys ma mb).length)
          (unionKeys ma mb) 0 (c.tag .Normal).writeStartMap).writeEndMap).writeTypeMaybe
          (.object ma) := rfl

theorem printDiff_eq_printSliceDiff (sa sb : List Value) (c : Context) :
    printDiff (.array sa) (.array sb) c = c.printSliceDiff (.array sa) (.array sb) := rfl

theorem printDiff_eq_printMapDiff (ma mb : List (String × Value)) (c : Context) :
    printDiff (.object ma) (.object mb) c = c.printMapDiff (.object ma) (.object mb) := rfl

theorem printDiff_leaf (a b : Value) (c : Context)
    (harr : ∀ sa sb, a = .array sa → b ≠ .array sb)
    (hobj : ∀ ma mb, a = .object ma → b ≠ .object mb) :
    printDiff a b c =
      if sameLeaf a b then (writeValue a true (c.tag .Normal)).result FullMatch
      else (c.printMismatch a b).result NoMatch := by
  cases a with
  | null => cases b <;> rfl
  | bool x =>
    cases b with
    | bool y =>
      rw [printDiff]
      by_cases h : x = y <;> simp [Value.isNil, Value.kind, sameLeaf, h]
    | _ => rfl
  | number x =>
    cases b with
    | number y =>
      rw [printDiff]
      by_cases h : x = y <;> simp [Value.isNil, Value.kind, sameLeaf, h]
    | _ => rfl
  | string x =>
    cases b with
    | string y =>
      rw [printDiff]
      by_cases h : x = y <;> simp [Value.isNil, Value.kind, sameLeaf, h]
    | _ => rfl
  | array sa =>
    cases b with
    | array sb => exact absurd rfl (harr sa sb rfl)
    | _ => rfl
  | object ma =>
    cases b with
    | object mb => exact absurd rfl (hobj ma mb rfl)
    | _ => rfl

end Context

/-! ## The classification computed by the traversal -/

theorem sameLeaf_iff_deepEqual (a b : Value)
    (harr : ∀ sa sb, a = .array sa → b ≠ .array sb)
    (hobj : ∀ ma mb, a = .object ma → b ≠ .object mb) :
    sameLeaf a b = true ↔ DeepEqual a b := by
  constructor
  · intro h
    cases a <;> cases b <;> simp [sameLeaf] at h
    · exact .null
    · subst h; exact .bool _
    · subst h; exact .number _
    · subst h; exact .string _
  · intro h
    cases h with
    | null => rfl
    | bool x => simp [sameLeaf]
    | number t => simp [sameLeaf]
    | string s => simp [sameLeaf]
    | array xs ys _ _ => exact absurd rfl (harr xs ys rfl)
    | object ma mb _ _ => exact absurd rfl (hobj ma mb rfl)

theorem sameLeaf_iff_superset (a b : Value)
    (harr : ∀ sa sb, a = .array sa → b ≠ .array sb)
    (hobj : ∀ ma mb, a = .object ma → b ≠ .object mb) :
    sameLeaf a b = true ↔ Superset a b := by
  constructor
  · intro h
    exact ((sameLeaf_iff_deepEqual a b harr hobj).1 h).superset
  · intro h
    cases h with
    | null => rfl
    | bool x => simp [sameLeaf]
    | number t => simp [sameLeaf]
    | string s => simp [sameLeaf]
    | array xs ys _ _ => exact absurd rfl (harr xs ys rfl)
    | object ma mb _ _ => exact absurd rfl (hobj ma mb rfl)

namespace Context

theorem printDiff_agg_leaf (a b : Value) (c : Context) (h : okDiff c.diff)
    (harr : ∀ sa sb, a = .array sa → b ≠ .array sb)
    (hobj : ∀ ma mb, a = .object ma → b ≠ .object mb) :
    Agg c.diff (printDiff a b c).diff (DeepEqual a b) (Superset a b) := by
  rw [printDiff_leaf a b c harr hobj]
  by_cases hs : sameLeaf a b = true
  · rw [if_pos hs]
    have := agg_result_full (writeValue a true (c.tag .Normal)) (by simpa using h)
    simp only [writeValue_diff, tag_diff] at this
    exact this.congr (by simp [← sameLeaf_iff_deepEqual a b harr hobj, hs])
      (by simp [← sameLeaf_iff_superset a b harr hobj, hs])
  · rw [if_neg hs]
    have := agg_result_no (c.printMismatch a b)
    rw [printMismatch_diff] at this
    exact this.congr (by simp [← sameLeaf_iff_deepEqual a b harr hobj, hs])
      (by simp [← sameLeaf_iff_superset a b harr hobj, hs])

theorem lookup_cons_ne (k k1 : String) (v : Value) (m : List (String × Value)) (h : ¬ k = k1) :
    List.lookup k ((k1, v) :: m) = List.lookup k m := by
  have : (k == k1) = false := by simpa using h
  simp [List.lookup, this]

theorem lookup_cons_eq (k : String) (v : Value) (m : List (String × Value)) :
    List.lookup k ((k, v) :: m) = some v := by
  simp [List.lookup]

mutual

theorem printDiff_agg : ∀ (a b : Value) (c : Context), okDiff c.diff →
    Agg c.diff (printDiff a b c).diff (DeepEqual a b) (Superset a b)
  | .array sa, b, c, h => by
    cases b with
    | array sb =>
      rw [printDiff_array]
      by_cases h0 : maxLen sa sb = 0
      · rw [if_pos h0]
        obtain ⟨rfl, rfl⟩ := (maxLen_eq_zero sa sb).1 h0
        simp only [writeTypeMaybe_diff, writeString_diff, tag_diff]
        exact (Agg.agg_refl h).congr
          (by simp [deepEqual_array_iff])
          (by simp [superset_array_iff])
      · rw [if_neg h0]
        simp only [writeTypeMaybe_diff, writeEndList_diff]
        have := printSliceItems_agg sa sb 0 (maxLen sa sb) (c.tag .Normal).writeStartList (by simpa using h)
        simp only [writeStartList_diff, tag_diff] at this
        exact this.congr (deepEqual_array_iff sa sb).symm (superset_array_iff sa sb).symm
    | _ => exact printDiff_agg_leaf _ _ c h (by simp) (by simp)
  | .object ma, b, c, h => by
    cases b with
    | object mb =>
      rw [printDiff_object]
      by_cases h0 : (unionKeys ma mb).length = 0
      · rw [if_pos h0]
        have hk : unionKeys ma mb = [] := List.eq_nil_of_length_eq_zero h0
        simp only [writeTypeMaybe_diff, writeString_diff, tag_diff]
        refine (Agg.agg_refl h).congr ?_ ?_
        · rw [← forall_eqAt_iff, hk]; simp
        · rw [← forall_supAt_iff, hk]; simp
      · rw [if_neg h0]
        simp only [writeTypeMaybe_diff, writeEndMap_diff]
        have := forKeys_agg (printMapItem ma mb (unionKeys ma mb).length) (EqAt ma mb)
          (SupAt ma mb) ?_ (unionKeys ma mb) 0
          (c.tag .Normal).writeStartMap (by simpa using h)
        · simp only [writeStartMap_diff, tag_diff] at this
          exact this.congr (forall_eqAt_iff ma mb) (forall_supAt_iff ma mb)
        · intro i k d hd
          unfold printMapItem
          simp only [writeEndOfItem_diff, tag_diff]
          unfold EqAt SupAt
          cases ha : ma.lookup k with
          | none =>
            cases hb : mb.lookup k with
            | none => exact Agg.agg_refl hd
            | some vb =>
              have := agg_result_no (writeValue vb true ((d.tag .Added).key k))
              simpa using this
          | some va =>
            cases hb : mb.lookup k with
            | none =>
              have := agg_result_sup (writeValue va true ((d.tag .Removed).key k))
                (by simpa using hd)
              simpa using this
            | some vb =>
              have := printDiffAt_agg ma k vb (d.key k) va ha (by simpa using hd)
              simpa using this
    | _ => exact printDiff_agg_leaf _ _ c h (by simp) (by simp)
  | .null, b, c, h => printDiff_agg_leaf _ _ c h (by simp) (by simp)
  | .bool _, b, c, h => printDiff_agg_leaf _ _ c h (by simp) (by simp)
  | .number _, b, c, h => printDiff_agg_leaf _ _ c h (by simp) (by simp)
  | .string _, b, c, h => printDiff_agg_leaf _ _ c h (by simp) (by simp)

theorem printSliceItems_agg : ∀ (sa sb : List Value) (i max : Int) (c : Context),
    okDiff c.diff →
    Agg c.diff (printSliceItems sa sb i max c).diff
      (sa.length = sb.length ∧ EachPair DeepEqual sa sb)
      (sb.length ≤ sa.length ∧ EachPair Superset sa sb)
  | x :: sa, y :: sb, i, max, c, h => by
    rw [printSliceItems]
    have h1 := printDiff_agg x y c.writeStartListItem (by simpa using h)
    have h2 : Agg c.diff (((printDiff x y c.writeStartListItem).tag .Normal).writeEndOfItem
        i max).diff (DeepEqual x y) (Superset x y) := by simpa using h1
    refine (h2.agg_trans (printSliceItems_agg sa sb (i + 1) max _ h2.ok)).congr ?_ ?_
    · rw [eachPair_cons]; simp only [List.length_cons, Nat.add_right_cancel_iff]; tauto
    · rw [eachPair_cons]; simp only [List.length_cons, Nat.add_le_add_iff_right]; tauto
  | x :: sa, [], i, max, c, h => by
    rw [printSliceItems]
    exact (printRemovedItems_agg (x :: sa) i max c h).congr
      (by simp) (by simp [eachPair_nil_right])
  | [], sb, i, max, c, h => by
    rw [printSliceItems]
    refine (printAddedItems_agg sb i max c h).congr ?_ ?_
    · simp only [List.length_nil, eachPair_nil_left, and_true]
      constructor
      · rintro rfl; rfl
      · intro h; exact List.eq_nil_of_length_eq_zero h.symm
    · simp only [List.length_nil, eachPair_nil_left, and_true, Nat.le_zero_eq]
      constructor
      · rintro rfl; rfl
      · intro h; exact List.eq_nil_of_length_eq_zero h

theorem printDiffAt_agg : ∀ (ma : List (String × Value)) (k : String) (vb : Value)
    (c : Context) (va : Value), ma.lookup k = some va → okDiff c.diff →
    Agg c.diff (printDiffAt ma k vb c).diff (DeepEqual va vb) (Superset va vb)
  | [], k, vb, c, va, hl, h => by simp at hl
  | (k1, v) :: ma, k, vb, c, va, hl, h => by
    rw [printDiffAt]
    by_cases hk : k = k1
    · subst hk
      rw [lookup_cons_eq] at hl
      cases hl
      rw [if_pos rfl]
      exact printDiff_agg v vb c h
    · rw [lookup_cons_ne k k1 v ma hk] at hl
      rw [if_neg hk]
      exact printDiffAt_agg ma k vb c va hl h

end

end Context

/-! ## Positions and the classification of a fresh traversal -/

mutual
theorem deepEqual_refl : ∀ v : Value, DeepEqual v v
  | .null => .null
  | .bool x => .bool x
  | .number t => .number t
  | .string s => .string s
  | .array xs => .array xs xs rfl (fun i x y hx hy => by
      rw [hx] at hy; cases hy; exact deepEqual_refl_items xs i x hx)
  | .object m => .object m m (fun _ => rfl) (fun k x y hx hy => by
      rw [hx] at hy; cases hy; exact deepEqual_refl_entries m k x hx)
theorem deepEqual_refl_items : ∀ (xs : List Value) (i : Nat) (x : Value), xs[i]? = some x →
    DeepEqual x x
  | [], i, x, h => by simp at h
  | v :: xs, 0, x, h => by
    simp only [List.getElem?_cons_zero, Option.some.injEq] at h
    subst h; exact deepEqual_refl v
  | v :: xs, i + 1, x, h => deepEqual_refl_items xs i x (by simpa using h)
theorem deepEqual_refl_entries : ∀ (m : List (String × Value)) (k : String) (x : Value),
    m.lookup k = some x → DeepEqual x x
  | [], k, x, h => by simp at h
  | (k1, v) :: m, k, x, h => by
    by_cases hk : k = k1
    · subst hk
      rw [Context.lookup_cons_eq] at h
      cases h; exact deepEqual_refl v
    · rw [Context.lookup_cons_ne k k1 v m hk] at h
      exact deepEqual_refl_entries m k x h
end

theorem superset_at : ∀ (p : List PathStep) (a b x y : Value), Superset a b →
    a.at p = some x → b.at p = some y → Superset x y
  | [], a, b, x, y, h, ha, hb => by
    simp only [Value.at, Option.some.injEq] at ha hb
    subst ha; subst hb; exact h
  | .key k :: p, a, b, x, y, h, ha, hb => by
    cases a <;> cases b <;> simp only [Value.at, reduceCtorEq] at ha hb
    rename_i ma mb
    cases hla : ma.lookup k with
    | none => simp [hla] at ha
    | some va =>
      cases hlb : mb.lookup k with
      | none => simp [hlb] at hb
      | some vb =>
        simp only [hla] at ha
        simp only [hlb] at hb
        exact superset_at p va vb x y (((superset_object_iff ma mb).1 h).2 k va vb hla hlb) ha hb
  | .index i :: p, a, b, x, y, h, ha, hb => by
    cases a <;> cases b <;> simp only [Value.at, reduceCtorEq] at ha hb
    rename_i sa sb
    cases hla : sa[i]? with
    | none => simp [hla] at ha
    | some va =>
      cases hlb : sb[i]? with
      | none => simp [hlb] at hb
      | some vb =>
        simp only [hla] at ha
        simp only [hlb] at hb
        exact superset_at p va vb x y (((superset_array_iff sa sb).1 h).2 i va vb hla hlb) ha hb

theorem superset_scalar_eq (x y : Value) (h : Superset x y) (hx : x.isScalar = true) : x = y := by
  cases h <;> first | rfl | simp [Value.isScalar] at hx

theorem okDiff_newContext (opts : Options) : okDiff (newContext opts).diff := Or.inl rfl

theorem compare_some (a b : Value) (opts : Options) :
    Compare (some a) (some b) opts =
      ((printDiff a b (newContext (defaultOutput opts))).diff,
        (printDiff a b (newContext (defaultOutput opts))).writeLastTagEnd.buf) := by
  simp [Compare, defaultOutput]

theorem traversal_agg (a b : Value) (opts : Options) :
    Agg FullMatch (printDiff a b (newContext opts)).diff (DeepEqual a b) (Superset a b) :=
  printDiff_agg a b (newContext opts) (okDiff_newContext opts)

theorem traversal_fullMatch_iff (a b : Value) (opts : Options) :
    (printDiff a b (newContext opts)).diff = FullMatch ↔ DeepEqual a b := by
  rw [(traversal_agg a b opts).full]; simp

theorem traversal_noMatch_iff (a b : Value) (opts : Options) :
    (printDiff a b (newContext opts)).diff = NoMatch ↔ ¬ Superset a b := by
  have := (traversal_agg a b opts).sup
  simp only [FullMatch, NoMatch, ne_eq] at this ⊢
  constructor
  · intro h hs; exact (this.2 ⟨by decide, hs⟩) h
  · intro h; by_contra hne; exact h (this.1 hne).2

theorem traversal_supersetMatch_iff (a b : Value) (opts : Options) :
    (printDiff a b (newContext opts)).diff = SupersetMatch ↔ Superset a b ∧ ¬ DeepEqual a b := by
  have hok := (traversal_agg a b opts).ok
  have h0 := traversal_fullMatch_iff a b opts
  have h2 := traversal_noMatch_iff a b opts
  unfold okDiff at hok
  simp only [FullMatch, SupersetMatch, NoMatch] at *
  constructor
  · intro h
    constructor
    · by_contra hs; rw [h2.2 hs] at h; exact absurd h (by decide)
    · intro he; rw [h0.2 he] at h; exact absurd h (by decide)
  · rintro ⟨hs, he⟩
    rcases hok with h | h | h
    · exact absurd (h0.1 h) he
    · exact h
    · exact absurd hs (h2.1 h)

/-! ## Invariants of the traversal -/

namespace Context

theorem Writes.writes_trans {a b c : Context} (h1 : Writes a b) (h2 : Writes b c) : Writes a c := by
  induction h2 with
  | refl => exact h1
  | writeString d s _ ih => exact .writeString a d s ih
  | setLevel d l _ ih => exact .setLevel a d l ih
  | lastTagEnd d _ ih => exact .lastTagEnd a d ih
  | lastTagBegin d _ ih => exact .lastTagBegin a d ih
  | lineBreak d _ ih => exact .lineBreak a d ih

theorem writes_writeRel : WriteRel Writes where
  refl := .refl
  trans := fun _ _ _ h1 h2 => h1.writes_trans h2
  primWrite := fun c s => .writeString c c s (.refl c)
  primLevel := fun c l => .setLevel c c l (.refl c)
  primEnd := fun c => .lastTagEnd c c (.refl c)
  primBegin := fun c => .lastTagBegin c c (.refl c)
  primBreak := fun c => .lineBreak c c (.refl c)

/-- Every relation kept by the write-only steps holds between a state and the
states reached from it by writing only. -/
theorem Writes.rel {R : Context → Context → Prop} (hR : WriteRel R) {c d : Context}
    (h : Writes c d) : R c d := by
  induction h with
  | refl => exact hR.refl c
  | writeString d s _ ih => exact hR.writeString s ih
  | setLevel d l _ ih => exact hR.setLevel l ih
  | lastTagEnd d _ ih => exact hR.writeLastTagEnd ih
  | lastTagBegin d _ ih => exact hR.writeLastTagBegin ih
  | lineBreak d _ ih => exact hR.logBreak ih

theorem forKeys_inv {I : Context → Prop} (body : Int → String → Context → Context)
    (hbody : ∀ i k c, I c → I (body i k c)) :
    ∀ (keys : List String) (i : Int) (c : Context), I c → I (forKeys body keys i c)
  | [], _, c, h => by rw [Context.forKeys]; exact h
  | k :: keys, i, c, h => by
    rw [Context.forKeys]
    exact forKeys_inv body hbody keys (i + 1) _ (hbody i k c h)

section TravInv

set_option linter.unusedSectionVars false

variable {I : Context → Prop} (hI : TravInv I)
include hI

theorem TravInv.inv_same (a : Value) (full : Bool) (c : Context) (h : I c) :
    I ((writeValue a full (c.tag .Normal)).result FullMatch) :=
  hI.matched _ (hI.writes _ _ (hI.normal c h)
    (writes_writeRel.writeValue a full _ _ (.refl _)))

theorem TravInv.inv_mismatch (a b : Value) (c : Context) (h : I c) :
    I ((c.printMismatch a b).result NoMatch) := by
  unfold printMismatch writeMismatch
  exact hI.changed c _ h (writes_writeRel.writeValue b false _ _
    (writes_writeRel.writeString _ (writes_writeRel.writeValue a false _ _ (.refl _))))

theorem TravInv.inv_leaf (a b : Value) (c : Context) (h : I c)
    (harr : ∀ sa sb, a = .array sa → b ≠ .array sb)
    (hobj : ∀ ma mb, a = .object ma → b ≠ .object mb) : I (printDiff a b c) := by
  rw [printDiff_leaf a b c harr hobj]
  split
  · exact hI.inv_same a true c h
  · exact hI.inv_mismatch a b c h

theorem TravInv.inv_endItem (c : Context) (i len : Int) (h : I c) :
    I ((c.tag .Normal).writeEndOfItem i len) :=
  hI.writes _ _ (hI.normal c h) (writes_writeRel.writeEndOfItem i len (.refl _))

theorem TravInv.inv_printRemovedItems : ∀ (sa : List Value) (i max : Int) (c : Context), I c →
    I (printRemovedItems sa i max c)
  | [], _, _, c, h => by rw [Context.printRemovedItems]; exact h
  | x :: sa, i, max, c, h => by
    rw [Context.printRemovedItems]
    refine TravInv.inv_printRemovedItems sa (i + 1) max _ (hI.inv_endItem _ i max ?_)
    refine hI.removed c.writeStartListItem _
      (hI.writes c _ h (writes_writeRel.writeStartListItem (.refl _))) ?_
    exact writes_writeRel.writeValue x true _ _ (.refl _)

theorem TravInv.inv_printAddedItems : ∀ (sb : List Value) (i max : Int) (c : Context), I c →
    I (printAddedItems sb i max c)
  | [], _, _, c, h => by rw [Context.printAddedItems]; exact h
  | y :: sb, i, max, c, h => by
    rw [Context.printAddedItems]
    refine TravInv.inv_printAddedItems sb (i + 1) max _ (hI.inv_endItem _ i max ?_)
    refine hI.added c.writeStartListItem _
      (hI.writes c _ h (writes_writeRel.writeStartListItem (.refl _))) ?_
    exact writes_writeRel.writeValue y true _ _ (.refl _)

mutual

theorem TravInv.inv_printDiff : ∀ (a b : Value) (c : Context), I c → I (printDiff a b c)
  | .array sa, b, c, h => by
    cases b with
    | array sb =>
      rw [printDiff_array]
      split
      · exact hI.writes _ _ (hI.normal c h)
          (writes_writeRel.writeTypeMaybe _ (writes_writeRel.writeString _ (.refl _)))
      · refine hI.writes _ _ (TravInv.inv_printSliceItems sa sb 0 (maxLen sa sb) _
          (hI.writes _ _ (hI.normal c h) (writes_writeRel.writeStartList (.refl _)))) ?_
        exact writes_writeRel.writeTypeMaybe _ (writes_writeRel.writeEndList (.refl _))
    | _ => exact hI.inv_leaf _ _ c h (by simp) (by simp)
  | .object ma, b, c, h => by
    cases b with
    | object mb =>
      rw [printDiff_object]
      split
      · exact hI.writes _ _ (hI.normal c h)
          (writes_writeRel.writeTypeMaybe _ (writes_writeRel.writeString _ (.refl _)))
      · refine hI.writes _ _ (forKeys_inv (printMapItem ma mb (unionKeys ma mb).length) ?_
          (unionKeys ma mb) 0 _
          (hI.writes _ _ (hI.normal c h) (writes_writeRel.writeStartMap (.refl _)))) ?_
        · intro i k d hd
          unfold printMapItem
          refine hI.inv_endItem _ _ _ ?_
          cases ha : ma.lookup k with
          | none =>
            cases hb : mb.lookup k with
            | none => exact hd
            | some vb =>
              exact hI.added d _ hd (writes_writeRel.writeValue vb true _ _
                (writes_writeRel.key k (.refl _)))
          | some va =>
            cases hb : mb.lookup k with
            | none =>
              exact hI.removed d _ hd (writes_writeRel.writeValue va true _ _
                (writes_writeRel.key k (.refl _)))
            | some vb =>
              exact TravInv.inv_printDiffAt ma k vb _
                (hI.writes d _ hd (writes_writeRel.key k (.refl _)))
        · exact writes_writeRel.writeTypeMaybe _ (writes_writeRel.writeEndMap (.refl _))
    | _ => exact hI.inv_leaf _ _ c h (by simp) (by simp)
  | .null, b, c, h => hI.inv_leaf _ _ c h (by simp) (by simp)
  | .bool _, b, c, h => hI.inv_leaf _ _ c h (by simp) (by simp)
  | .number _, b, c, h => hI.inv_leaf _ _ c h (by simp) (by simp)
  | .string _, b, c, h => hI.inv_leaf _ _ c h (by simp) (by simp)

theorem TravInv.inv_printSliceItems : ∀ (sa sb : List Value) (i max : Int) (c : Context), I c →
    I (printSliceItems sa sb i max c)
  | x :: sa, y :: sb, i, max, c, h => by
    rw [Context.printSliceItems]
    exact TravInv.inv_printSliceItems sa sb (i + 1) max _ (hI.inv_endItem _ i max
      (TravInv.inv_printDiff x y _ (hI.writes c _ h (writes_writeRel.writeStartListItem (.refl _)))))
  | x :: sa, [], i, max, c, h => by
    rw [Context.printSliceItems]
    exact hI.inv_printRemovedItems (x :: sa) i max c h
  | [], sb, i, max, c, h => by
    rw [Context.printSliceItems]
    exact hI.inv_printAddedItems sb i max c h

theorem TravInv.inv_printDiffAt : ∀ (ma : List (String × Value)) (k : String) (vb : Value)
    (c : Context), I c → I (printDiffAt ma k vb c)
  | [], k, vb, c, h => by rw [Context.printDiffAt]; exact h
  | (k1, v) :: ma, k, vb, c, h => by
    rw [Context.printDiffAt]
    split
    · exact TravInv.inv_printDiff v vb c h
    · exact TravInv.inv_printDiffAt ma k vb c h

end

end TravInv

end Context

/-! ## Spans and classification in sync -/

namespace Context

theorem traceRel_writeRel : WriteRel TraceRel where
  refl := fun _ => ⟨rfl, rfl, fun _ h => h, fun _ h => Or.inl h⟩
  trans := fun a b c h1 h2 =>
    ⟨h2.1.trans h1.1, h2.2.1.trans h1.2.1, fun e he => h2.2.2.1 e (h1.2.2.1 e he), fun t ht => by
      rcases h2.2.2.2 t ht with h | h
      · exact h1.2.2.2 t h
      · exact Or.inr (h1.1 ▸ h)⟩
  primWrite := fun _ _ => ⟨rfl, rfl, fun _ h => h, fun _ h => Or.inl h⟩
  primLevel := fun _ _ => ⟨rfl, rfl, fun _ h => h, fun _ h => Or.inl h⟩
  primEnd := fun c => by
    unfold writeLastTagEnd
    split
    · refine ⟨rfl, rfl, fun e h => ?_, fun t h => ?_⟩
      · simp [log, h]
      · simp [log] at h; exact Or.inl h
    · exact ⟨rfl, rfl, fun _ h => h, fun _ h => Or.inl h⟩
  primBegin := fun c => by
    unfold writeLastTagBegin
    split
    · rename_i t ht
      refine ⟨rfl, rfl, fun e h => ?_, fun s h => ?_⟩
      · simp [log, h]
      · simp [log] at h
        rcases h with h | h
        · exact Or.inl h
        · exact Or.inr (h ▸ ht)
    · exact ⟨rfl, rfl, fun _ h => h, fun _ h => Or.inl h⟩
  primBreak := fun c => by
    refine ⟨rfl, rfl, fun e h => ?_, fun t h => ?_⟩
    · simp [log, h]
    · simp [log] at h; exact Or.inl h

theorem mem_tag_trace (c : Context) (t : Span) (e : Event) (h : e ∈ c.trace) :
    e ∈ (c.tag t).trace := by
  unfold Context.tag writeLastTagEnd
  split
  · exact h
  · split <;> simp [log, h]

theorem opened_mem_tag_trace (c : Context) (t s : Span) :
    Event.opened s ∈ (c.tag t).trace ↔
      Event.opened s ∈ c.trace ∨ (s = t ∧ c.lastTag ≠ some t) := by
  unfold Context.tag writeLastTagEnd
  split
  · rename_i h; simp [h]
  · rename_i h
    split <;> simp [log, h]

theorem okDiff_result (c : Context) (r : Difference) (h : okDiff c.diff) (hr : okDiff r) :
    okDiff (c.result r).diff := by
  unfold okDiff at *
  unfold Context.result
  simp only [FullMatch, SupersetMatch, NoMatch] at *
  rcases h with h | h | h <;> rcases hr with hr | hr | hr <;> simp [h, hr]

theorem result_ne_fullMatch (c : Context) (r : Difference) (hr : r = SupersetMatch ∨ r = NoMatch) :
    (c.result r).diff ≠ FullMatch := by
  unfold Context.result
  simp only [FullMatch, SupersetMatch, NoMatch] at *
  rcases hr with hr | hr
  · subst hr
    split_ifs <;> simp_all
  · subst hr; simp

theorem result_fullMatch_diff (c : Context) (h : okDiff c.diff) :
    (c.result FullMatch).diff = c.diff := by
  unfold okDiff at h
  unfold Context.result
  simp only [FullMatch, SupersetMatch, NoMatch] at *
  rcases h with h | h | h <;> simp [h]

theorem syncInv_writes (c d : Context) (h : SyncInv c) (hw : Writes c d) : SyncInv d := by
  obtain ⟨hl, hd, ht, ho⟩ := hw.rel traceRel_writeRel
  obtain ⟨h1, h2, h3⟩ := h
  refine ⟨fun t htag => ht _ (h1 t (hl ▸ htag)), hd ▸ h2, ?_⟩
  rw [hd, ← h3]
  constructor
  · rintro ⟨t, hne, hmem⟩
    rcases ho t hmem with h | h
    · exact ⟨t, hne, h⟩
    · exact ⟨t, hne, h1 t h⟩
  · rintro ⟨t, hne, hmem⟩
    exact ⟨t, hne, ht _ hmem⟩

theorem syncInv_block (c d : Context) (t : Span) (r : Difference) (h : SyncInv c)
    (ht : t ≠ Span.Normal) (hr : r = SupersetMatch ∨ r = NoMatch)
    (hw : Writes (c.tag t) d) : SyncInv (d.result r) := by
  obtain ⟨hl, hd, hmono, ho⟩ := hw.rel traceRel_writeRel
  obtain ⟨h1, h2, h3⟩ := h
  have hopen : Event.opened t ∈ (c.tag t).trace := by
    rw [opened_mem_tag_trace]
    by_cases hc : c.lastTag = some t
    · exact Or.inl (h1 t hc)
    · exact Or.inr ⟨rfl, hc⟩
  refine ⟨fun s hs => ?_, ?_, ?_⟩
  · rw [result_lastTag, hl, tag_lastTag] at hs
    cases hs
    rw [result_trace]; exact hmono _ hopen
  · refine okDiff_result d r (by rw [hd, tag_diff]; exact h2) ?_
    rcases hr with hr | hr
    · exact Or.inr (Or.inl hr)
    · exact Or.inr (Or.inr hr)
  · constructor
    · intro _; exact result_ne_fullMatch d r hr
    · intro _; exact ⟨t, ht, by rw [result_trace]; exact hmono _ hopen⟩

theorem syncInv_travInv : TravInv SyncInv where
  writes := syncInv_writes
  normal := fun c h => by
    obtain ⟨h1, h2, h3⟩ := h
    refine ⟨fun s hs => ?_, by rw [tag_diff]; exact h2, ?_⟩
    · rw [tag_lastTag] at hs
      cases hs
      rw [opened_mem_tag_trace]
      by_cases hc : c.lastTag = some .Normal
      · exact Or.inl (h1 _ hc)
      · exact Or.inr ⟨rfl, hc⟩
    · rw [tag_diff, ← h3]
      constructor
      · rintro ⟨t, hne, hmem⟩
        rw [opened_mem_tag_trace] at hmem
        rcases hmem with h | ⟨h, _⟩
        · exact ⟨t, hne, h⟩
        · exact absurd h hne
      · rintro ⟨t, hne, hmem⟩
        exact ⟨t, hne, mem_tag_trace c _ _ hmem⟩
  matched := fun c h => by
    obtain ⟨h1, h2, h3⟩ := h
    refine ⟨fun s hs => ?_, ?_, ?_⟩
    · rw [result_lastTag] at hs; rw [result_trace]; exact h1 s hs
    · rw [result_fullMatch_diff c h2]; exact h2
    · rw [result_fullMatch_diff c h2, ← h3]
      unfold opensOther; rw [result_trace]
  changed := fun c d h hw => syncInv_block c d .Changed NoMatch h (by decide) (Or.inr rfl) hw
  removed := fun c d h hw =>
    syncInv_block c d .Removed SupersetMatch h (by decide) (Or.inl rfl) hw
  added := fun c d h hw => syncInv_block c d .Added NoMatch h (by decide) (Or.inr rfl) hw

theorem syncInv_newContext (opts : Options) : SyncInv (newContext opts) := by
  refine ⟨fun t h => ?_, Or.inl rfl, ?_⟩
  · simp [newContext] at h
  · simp [opensOther, newContext]

theorem syncInv_traversal (a b : Value) (opts : Options) :
    SyncInv (printDiff a b (newContext opts)) :=
  syncInv_travInv.inv_printDiff a b _ (syncInv_newContext opts)

end Context

/-! ## Two runs of the traversal -/

namespace Context

section SimRel

set_option linter.unusedSectionVars false

variable {S : Context → Context → Prop} (hS : SimRel S)
include hS

theorem SimRel.sim_newline {c d : Context} (s : String) (h : S c d) :
    S (c.newline s) (d.newline s) := by
  unfold Context.newline
  exact hS.lastBegin _ _ (hS.indent _ _ (hS.writePrefix _ _ (hS.lineBreak _ _
    (hS.write _ _ _ (hS.lastEnd _ _ (hS.write _ _ _ h))))))

theorem SimRel.sim_quote {c d : Context} (k : String) (h : S c d) : c.quote k = d.quote k := by
  unfold Context.quote Context.Output
  rw [hS.output c d h]; rfl

theorem SimRel.sim_key {c d : Context} (k : String) (h : S c d) : S (c.key k) (d.key k) := by
  unfold Context.key
  dsimp only
  rw [hS.sim_quote k h]
  exact hS.write _ _ _ (hS.write _ _ _ h)

theorem SimRel.sim_writeTypeMaybe {c d : Context} (v : Value) (h : S c d) :
    S (c.writeTypeMaybe v) (d.writeTypeMaybe v) := by
  unfold Context.writeTypeMaybe Context.writeType
  rw [hS.printTypes c d h]
  split
  · cases v <;> exact hS.write _ _ _ (hS.write _ _ _ h)
  · exact h

theorem SimRel.sim_jsonWriteEndOfItem {c d : Context} (i len : Int) (h : S c d) :
    S (c.jsonWriteEndOfItem i len) (d.jsonWriteEndOfItem i len) := by
  unfold Context.jsonWriteEndOfItem
  split
  · exact hS.sim_newline _ h
  · exact hS.sim_newline _ (hS.levelDown _ _ h)

theorem SimRel.sim_yamlWriteEndOfItem {c d : Context} (i len : Int) (h : S c d) :
    S (c.yamlWriteEndOfItem i len) (d.yamlWriteEndOfItem i len) := by
  unfold Context.yamlWriteEndOfItem
  split
  · exact hS.sim_newline _ h
  · exact hS.levelDown _ _ h

theorem SimRel.sim_writeEndOfItem {c d : Context} (i len : Int) (h : S c d) :
    S (c.writeEndOfItem i len) (d.writeEndOfItem i len) := by
  unfold Context.writeEndOfItem Context.Output
  rw [hS.output c d h]
  split
  · exact hS.sim_jsonWriteEndOfItem _ _ h
  · split
    · exact hS.sim_yamlWriteEndOfItem _ _ h
    · exact h

theorem SimRel.sim_writeStartListItem {c d : Context} (h : S c d) :
    S c.writeStartListItem d.writeStartListItem := by
  unfold Context.writeStartListItem jsonWriteStartListItem yamlWriteStartListItem Context.Output
  rw [hS.output c d h]
  split
  · exact h
  · split
    · exact hS.write _ _ _ h
    · exact h

theorem SimRel.sim_writeListItem {c d : Context} (i len : Int) (wv : Context → Context)
    (hw : ∀ c d, S c d → S (wv c) (wv d)) (h : S c d) :
    S (c.writeListItem i wv len) (d.writeListItem i wv len) := by
  unfold Context.writeListItem jsonWriteListItem yamlWriteListItem Context.Output
  rw [hS.output c d h]
  split
  · exact hS.sim_jsonWriteEndOfItem _ _ (hw _ _ h)
  · split
    · dsimp only
      split
      · exact hS.sim_newline _ (hw _ _ (hS.write _ _ _ h))
      · exact hS.levelDown _ _ (hw _ _ (hS.write _ _ _ h))
    · exact h

theorem SimRel.sim_writeMapItem {c d : Context} (i len : Int) (k : String) (wv : Context → Context)
    (hw : ∀ c d, S c d → S (wv c) (wv d)) (h : S c d) :
    S (c.writeMapItem i k wv len) (d.writeMapItem i k wv len) := by
  unfold Context.writeMapItem jsonWriteMapItem yamlWriteMapItem Context.Output
  rw [hS.output c d h]
  split
  · exact hS.sim_jsonWriteEndOfItem _ _ (hw _ _ (hS.sim_key _ h))
  · split
    · dsimp only
      split
      · exact hS.sim_newline _ (hw _ _ (hS.sim_key _ h))
      · exact hw _ _ (hS.sim_key _ h)
    · exact h

theorem SimRel.sim_writeStartList {c d : Context} (h : S c d) :
    S c.writeStartList d.writeStartList := by
  unfold Context.writeStartList jsonWriteStartList yamlWriteStartList Context.Output
  rw [hS.output c d h]
  split
  · exact hS.sim_newline _ (hS.levelUp _ _ h)
  · split
    · exact hS.sim_newline _ h
    · exact h

theorem SimRel.sim_writeEndList {c d : Context} (h : S c d) : S c.writeEndList d.writeEndList := by
  unfold Context.writeEndList jsonWriteEndList yamlWriteEndList Context.Output
  rw [hS.output c d h]
  split
  · exact hS.write _ _ _ h
  · split <;> exact h

theorem SimRel.sim_writeStartMap {c d : Context} (h : S c d) :
    S c.writeStartMap d.writeStartMap := by
  unfold Context.writeStartMap jsonWriteStartMap yamlWriteStartMap Context.Output
  rw [hS.output c d h]
  split
  · exact hS.sim_newline _ (hS.levelUp _ _ h)
  · split
    · exact hS.sim_newline _ (hS.levelUp _ _ h)
    · exact h

theorem SimRel.sim_writeEndMap {c d : Context} (h : S c d) : S c.writeEndMap d.writeEndMap := by
  unfold Context.writeEndMap jsonWriteEndMap yamlWriteEndMap Context.Output
  rw [hS.output c d h]
  split
  · exact hS.write _ _ _ h
  · split <;> exact h

mutual
theorem SimRel.sim_writeValue : ∀ (v : Value) (full : Bool) (c d : Context), S c d →
    S (writeValue v full c) (writeValue v full d)
  | .null, _, c, d, h => by
    rw [Context.writeValue, Context.writeValue]
    exact hS.sim_writeTypeMaybe _ (hS.write _ _ _ h)
  | .bool b, _, c, d, h => by
    rw [Context.writeValue, Context.writeValue]
    exact hS.sim_writeTypeMaybe _ (hS.write _ _ _ h)
  | .number b, _, c, d, h => by
    rw [Context.writeValue, Context.writeValue]
    exact hS.sim_writeTypeMaybe _ (hS.write _ _ _ h)
  | .string b, _, c, d, h => by
    rw [Context.writeValue, Context.writeValue]
    rw [hS.sim_quote b h]
    exact hS.sim_writeTypeMaybe _ (hS.write _ _ _ h)
  | .array vv, full, c, d, h => by
    rw [Context.writeValue, Context.writeValue]
    refine hS.sim_writeTypeMaybe _ ?_
    split
    · split
      · exact hS.write _ _ _ h
      · exact hS.sim_writeEndList (SimRel.sim_writeListItems vv 0 _ _ _ (hS.sim_writeStartList h))
    · exact hS.write _ _ _ h
  | .object vv, full, c, d, h => by
    rw [Context.writeValue, Context.writeValue]
    refine hS.sim_writeTypeMaybe _ ?_
    split
    · split
      · exact hS.write _ _ _ h
      · exact hS.sim_writeEndMap (SimRel.sim_writeMapItems vv 0 _ _ _ (hS.sim_writeStartMap h))
    · exact hS.write _ _ _ h
theorem SimRel.sim_writeListItems : ∀ (vv : List Value) (i len : Int) (c d : Context), S c d →
    S (writeListItems vv i len c) (writeListItems vv i len d)
  | [], _, _, c, d, h => by rw [Context.writeListItems, Context.writeListItems]; exact h
  | v :: rest, i, len, c, d, h => by
    rw [Context.writeListItems, Context.writeListItems]
    exact SimRel.sim_writeListItems rest _ _ _ _
      (hS.sim_writeListItem i len _ (fun c d hcd => SimRel.sim_writeValue v true c d hcd) h)
theorem SimRel.sim_writeMapItems : ∀ (vv : List (String × Value)) (i len : Int) (c d : Context),
    S c d → S (writeMapItems vv i len c) (writeMapItems vv i len d)
  | [], _, _, c, d, h => by rw [Context.writeMapItems, Context.writeMapItems]; exact h
  | (k, v) :: rest, i, len, c, d, h => by
    rw [Context.writeMapItems, Context.writeMapItems]
    exact SimRel.sim_writeMapItems rest _ _ _ _
      (hS.sim_writeMapItem i len k _ (fun c d hcd => SimRel.sim_writeValue v true c d hcd) h)
end

theorem SimRel.sim_leaf (a b : Value) (c d : Context) (h : S c d)
    (harr : ∀ sa sb, a = .array sa → b ≠ .array sb)
    (hobj : ∀ ma mb, a = .object ma → b ≠ .object mb) :
    S (printDiff a b c) (printDiff a b d) := by
  rw [printDiff_leaf a b c harr hobj, printDiff_leaf a b d harr hobj]
  split
  · exact hS.result _ _ _ (hS.sim_writeValue a true _ _ (hS.tag _ _ _ h))
  · unfold printMismatch writeMismatch
    exact hS.result _ _ _ (hS.sim_writeValue b false _ _ (hS.write _ _ _
      (hS.sim_writeValue a false _ _ (hS.tag _ _ _ h))))

theorem SimRel.sim_printRemovedItems : ∀ (sa : List Value) (i max : Int) (c d : Context), S c d →
    S (printRemovedItems sa i max c) (printRemovedItems sa i max d)
  | [], _, _, c, d, h => by rw [Context.printRemovedItems, Context.printRemovedItems]; exact h
  | x :: sa, i, max, c, d, h => by
    rw [Context.printRemovedItems, Context.printRemovedItems]
    exact SimRel.sim_printRemovedItems sa (i + 1) max _ _ (hS.sim_writeEndOfItem _ _
      (hS.tag _ _ _ (hS.result _ _ _ (hS.sim_writeValue x true _ _
        (hS.tag _ _ _ (hS.sim_writeStartListItem h))))))

theorem SimRel.sim_printAddedItems : ∀ (sb : List Value) (i max : Int) (c d : Context), S c d →
    S (printAddedItems sb i max c) (printAddedItems sb i max d)
  | [], _, _, c, d, h => by rw [Context.printAddedItems, Context.printAddedItems]; exact h
  | y :: sb, i, max, c, d, h => by
    rw [Context.printAddedItems, Context.printAddedItems]
    exact SimRel.sim_printAddedItems sb (i + 1) max _ _ (hS.sim_writeEndOfItem _ _
      (hS.tag _ _ _ (hS.result _ _ _ (hS.sim_writeValue y true _ _
        (hS.tag _ _ _ (hS.sim_writeStartListItem h))))))

theorem SimRel.sim_forKeys (body : Int → String → Context → Context)
    (hbody : ∀ i k c d, S c d → S (body i k c) (body i k d)) :
    ∀ (keys : List String) (i : Int) (c d : Context), S c d →
      S (forKeys body keys i c) (forKeys body keys i d)
  | [], _, c, d, h => by rw [Context.forKeys, Context.forKeys]; exact h
  | k :: keys, i, c, d, h => by
    rw [Context.forKeys, Context.forKeys]
    exact SimRel.sim_forKeys body hbody keys (i + 1) _ _ (hbody i k c d h)

mutual

theorem SimRel.sim_printDiff : ∀ (a b : Value) (c d : Context), S c d →
    S (printDiff a b c) (printDiff a b d)
  | .array sa, b, c, d, h => by
    cases b with
    | array sb =>
      rw [printDiff_array, printDiff_array]
      split
      · exact hS.sim_writeTypeMaybe _ (hS.write _ _ _ (hS.tag _ _ _ h))
      · exact hS.sim_writeTypeMaybe _ (hS.sim_writeEndList (SimRel.sim_printSliceItems sa sb 0 _ _ _
          (hS.sim_writeStartList (hS.tag _ _ _ h))))
    | _ => exact hS.sim_leaf _ _ c d h (by simp) (by simp)
  | .object ma, b, c, d, h => by
    cases b with
    | object mb =>
      rw [printDiff_object, printDiff_object]
      split
      · exact hS.sim_writeTypeMaybe _ (hS.write _ _ _ (hS.tag _ _ _ h))
      · refine hS.sim_writeTypeMaybe _ (hS.sim_writeEndMap (hS.sim_forKeys
          (printMapItem ma mb (unionKeys ma mb).length) ?_ (unionKeys ma mb) 0 _ _
          (hS.sim_writeStartMap (hS.tag _ _ _ h))))
        intro i k c1 d1 h1
        unfold printMapItem
        refine hS.sim_writeEndOfItem _ _ (hS.tag _ _ _ ?_)
        cases ha : ma.lookup k with
        | none =>
          cases hb : mb.lookup k with
          | none => exact h1
          | some vb =>
            exact hS.result _ _ _ (hS.sim_writeValue vb true _ _ (hS.sim_key k (hS.tag _ _ _ h1)))
        | some va =>
          cases hb : mb.lookup k with
          | none =>
            exact hS.result _ _ _ (hS.sim_writeValue va true _ _ (hS.sim_key k (hS.tag _ _ _ h1)))
          | some vb => exact SimRel.sim_printDiffAt ma k vb _ _ (hS.sim_key k h1)
    | _ => exact hS.sim_leaf _ _ c d h (by simp) (by simp)
  | .null, b, c, d, h => hS.sim_leaf _ _ c d h (by simp) (by simp)
  | .bool _, b, c, d, h => hS.sim_leaf _ _ c d h (by simp) (by simp)
  | .number _, b, c, d, h => hS.sim_leaf _ _ c d h (by simp) (by simp)
  | .string _, b, c, d, h => hS.sim_leaf _ _ c d h (by simp) (by simp)

theorem SimRel.sim_printSliceItems : ∀ (sa sb : List Value) (i max : Int) (c d : Context), S c d →
    S (printSliceItems sa sb i max c) (printSliceItems sa sb i max d)
  | x :: sa, y :: sb, i, max, c, d, h => by
    rw [Context.printSliceItems, Context.printSliceItems]
    exact SimRel.sim_printSliceItems sa sb (i + 1) max _ _ (hS.sim_writeEndOfItem _ _
      (hS.tag _ _ _ (SimRel.sim_printDiff x y _ _ (hS.sim_writeStartListItem h))))
  | x :: sa, [], i, max, c, d, h => by
    rw [Context.printSliceItems, Context.printSliceItems]
    exact hS.sim_printRemovedItems (x :: sa) i max c d h
  | [], sb, i, max, c, d, h => by
    rw [Context.printSliceItems, Context.printSliceItems]
    exact hS.sim_printAddedItems sb i max c d h

theorem SimRel.sim_printDiffAt : ∀ (ma : List (String × Value)) (k : String) (vb : Value)
    (c d : Context), S c d → S (printDiffAt ma k vb c) (printDiffAt ma k vb d)
  | [], k, vb, c, d, h => by rw [Context.printDiffAt, Context.printDiffAt]; exact h
  | (k1, v) :: ma, k, vb, c, d, h => by
    rw [Context.printDiffAt, Context.printDiffAt]
    split
    · exact SimRel.sim_printDiff v vb c d h
    · exact SimRel.sim_printDiffAt ma k vb c d h

end

end SimRel

end Context

/-! ## Independence of the markers of unopened spans -/

namespace Context

theorem opensOther_of_mem {c : Context} {t : Span} (ht : t ≠ Span.Normal)
    (h : Event.opened t ∈ c.trace) : opensOther c := ⟨t, ht, h⟩

theorem tagOf_eq_of_same {o p : Options} (h : SameButOther o p) :
    o.tagOf .Normal = p.tagOf .Normal := h.2.1

theorem normalSim_lastEnd (c d : Context) (h : NormalSim c d) :
    NormalSim c.writeLastTagEnd d.writeLastTagEnd := by
  obtain ⟨ho, hl, ht, hd, htr, hinv, hb⟩ := h
  unfold writeLastTagEnd
  rw [← ht]
  cases hc : c.lastTag with
  | none => exact ⟨ho, hl, ht, hd, htr, hinv, hb⟩
  | some t =>
    refine ⟨ho, hl, ht, hd, by simp [log, htr], fun s hs => ?_, fun hno => ?_⟩
    · have := hinv s hs; simp [log, this]
    · have hno1 : ¬ opensOther c := fun ⟨s, hs, hm⟩ => hno ⟨s, hs, by simp [log, hm]⟩
      have htn : t = .Normal := by
        by_contra hne; exact hno1 (opensOther_of_mem hne (hinv t hc))
      subst htn
      simp [log, hb hno1, tagOf_eq_of_same ho]

theorem normalSim_lastBegin (c d : Context) (h : NormalSim c d) :
    NormalSim c.writeLastTagBegin d.writeLastTagBegin := by
  obtain ⟨ho, hl, ht, hd, htr, hinv, hb⟩ := h
  unfold writeLastTagBegin
  rw [← ht]
  cases hc : c.lastTag with
  | none => exact ⟨ho, hl, ht, hd, htr, hinv, hb⟩
  | some t =>
    refine ⟨ho, hl, ht, hd, by simp [log, htr], fun s hs => ?_, fun hno => ?_⟩
    · have := hinv s hs; simp [log, this]
    · have hno1 : ¬ opensOther c := fun ⟨s, hs, hm⟩ => hno ⟨s, hs, by simp [log, hm]⟩
      have htn : t = .Normal := by
        by_contra hne; exact hno1 (opensOther_of_mem hne (hinv t hc))
      subst htn
      simp [log, hb hno1, tagOf_eq_of_same ho]

theorem normalSim_write (c d : Context) (s : String) (h : NormalSim c d) :
    NormalSim (c.writeString s) (d.writeString s) := by
  obtain ⟨ho, hl, ht, hd, htr, hinv, hb⟩ := h
  exact ⟨ho, hl, ht, hd, htr, hinv, fun hno => by
    have := hb hno
    simp [this]⟩

theorem normalSim_tag (c d : Context) (t : Span) (h : NormalSim c d) :
    NormalSim (c.tag t) (d.tag t) := by
  have h1 := normalSim_lastEnd c d h
  obtain ⟨ho, hl, ht, hd, htr, hinv, hb⟩ := h
  unfold Context.tag
  rw [← ht]
  by_cases hc : c.lastTag = some t
  · rw [if_pos hc, if_pos hc]
    exact ⟨ho, hl, ht, hd, htr, hinv, hb⟩
  · rw [if_neg hc, if_neg hc]
    obtain ⟨ho1, hl1, ht1, hd1, htr1, hinv1, hb1⟩ := h1
    refine ⟨ho1, hl1, rfl, hd1, by simp [log, htr1], fun s hs => ?_, fun hno => ?_⟩
    · simp only [Option.some.injEq] at hs
      subst hs; simp [log]
    · have htn : t = .Normal := by
        by_contra hne; exact hno ⟨t, hne, by simp [log]⟩
      subst htn
      have hno1 : ¬ opensOther c.writeLastTagEnd :=
        fun ⟨s, hs, hm⟩ => hno ⟨s, hs, by simp [log, hm]⟩
      have hoo : c.opts.tagOf .Normal = d.opts.tagOf .Normal := tagOf_eq_of_same ho
      simp [log, hb1 hno1, hoo]

theorem normalSim_simRel : SimRel NormalSim where
  output := fun _ _ h => h.1.1
  printTypes := fun _ _ h => h.1.2.2.2.2
  write := normalSim_write
  writePrefix := fun c d h => by
    have := normalSim_write c d c.opts.Prefix h
    rw [show d.opts.Prefix = c.opts.Prefix from h.1.2.2.1.symm]
    exact this
  indent := fun c d h => by
    unfold writeIndent
    have := normalSim_write c d (String.join (List.replicate c.level.toNat c.opts.Indent)) h
    rw [show d.opts.Indent = c.opts.Indent from h.1.2.2.2.1.symm,
      show d.level = c.level from h.2.1.symm]
    exact this
  levelUp := fun c d h => by
    obtain ⟨ho, hl, ht, hd, htr, hinv, hb⟩ := h
    exact ⟨ho, by simp [hl], ht, hd, htr, hinv, hb⟩
  levelDown := fun c d h => by
    obtain ⟨ho, hl, ht, hd, htr, hinv, hb⟩ := h
    exact ⟨ho, by simp [hl], ht, hd, htr, hinv, hb⟩
  lastEnd := normalSim_lastEnd
  lastBegin := normalSim_lastBegin
  lineBreak := fun c d h => by
    obtain ⟨ho, hl, ht, hd, htr, hinv, hb⟩ := h
    refine ⟨ho, hl, ht, hd, by simp [log, htr], fun s hs => ?_, fun hno => ?_⟩
    · have := hinv s hs; simp [log, this]
    · exact hb (fun ⟨s, hs, hm⟩ => hno ⟨s, hs, by simp [log, hm]⟩)
  tag := normalSim_tag
  result := fun c d r h => by
    obtain ⟨ho, hl, ht, hd, htr, hinv, hb⟩ := h
    refine ⟨by simpa using ho, by simpa using hl, by simpa using ht, ?_, by simpa using htr,
      by simpa using hinv, ?_⟩
    · unfold Context.result; rw [hd]; split_ifs <;> first | rfl | exact hd
    · intro hno
      simp only [result_buf]
      exact hb (fun ⟨s, hs, hm⟩ => hno ⟨s, hs, by simpa using hm⟩)

theorem normalSim_newContext (o p : Options) (h : SameButOther o p) :
    NormalSim (newContext o) (newContext p) :=
  ⟨h, rfl, rfl, rfl, rfl, fun t ht => by simp [newContext] at ht, fun _ => rfl⟩

end Context

theorem sameButOther_defaultOutput (o p : Options) (h : SameButOther o p) :
    SameButOther (defaultOutput o) (defaultOutput p) := by
  obtain ⟨h1, h2, h3, h4, h5⟩ := h
  unfold defaultOutput
  rw [← h1]
  split
  · exact ⟨rfl, h2, h3, h4, h5⟩
  · exact ⟨h1, h2, h3, h4, h5⟩

/-- When the traversal of `a` and `b` ends with `FullMatch`, the rendering that
`Compare` returns is the same under options that differ at most in the Added,
Removed and Changed markers. -/
theorem compare_rendering_of_fullMatch (a b : Value) (o p : Options) (h : SameButOther o p)
    (hfull : (Compare (some a) (some b) o).1 = FullMatch) :
    (Compare (some a) (some b) o).2 = (Compare (some a) (some b) p).2 := by
  rw [compare_some] at hfull ⊢
  rw [compare_some]
  dsimp only at hfull ⊢
  have hsim := Context.normalSim_simRel.lastEnd _ _ (Context.normalSim_simRel.sim_printDiff a b _ _
    (Context.normalSim_newContext _ _ (sameButOther_defaultOutput o p h)))
  apply hsim.2.2.2.2.2.2
  rintro ⟨t, ht, hm⟩
  have hsync := Context.syncInv_writes _ _ (Context.syncInv_traversal a b (defaultOutput o))
    (Context.Writes.lastTagEnd _ _ (Context.Writes.refl _))
  have := hsync.2.2.1 ⟨t, ht, hm⟩
  rw [Context.writeLastTagEnd_diff] at this
  exact this hfull

/-! ## The buffer is append-only; the loops reach every entry -/

namespace Context

theorem Ext.ext_refl (c : Context) : Ext c c := ⟨"", by simp⟩

theorem Ext.ext_trans {a b c : Context} (h1 : Ext a b) (h2 : Ext b c) : Ext a c := by
  obtain ⟨s, hs⟩ := h1
  obtain ⟨t, ht⟩ := h2
  exact ⟨s ++ t, by rw [ht, hs, String.append_assoc]⟩

theorem ext_writeRel : WriteRel Ext where
  refl := Ext.ext_refl
  trans := fun _ _ _ h1 h2 => h1.ext_trans h2
  primWrite := fun c s => ⟨s, rfl⟩
  primLevel := fun c _ => Ext.ext_refl c
  primEnd := fun c => by
    unfold writeLastTagEnd; split
    · exact ⟨_, rfl⟩
    · exact Ext.ext_refl c
  primBegin := fun c => by
    unfold writeLastTagBegin; split
    · exact ⟨_, rfl⟩
    · exact Ext.ext_refl c
  primBreak := fun c => Ext.ext_refl c

theorem ext_tag (c : Context) (t : Span) : Ext c (c.tag t) := by
  unfold Context.tag
  split
  · exact Ext.ext_refl c
  · exact (ext_writeRel.primEnd c).ext_trans ⟨_, rfl⟩

theorem ext_result (c : Context) (r : Difference) : Ext c (c.result r) :=
  ⟨"", by simp⟩

theorem ext_travInv (c0 : Context) : TravInv (Ext c0) where
  writes := fun _ _ h hw => h.ext_trans (hw.rel ext_writeRel)
  normal := fun c h => h.ext_trans (ext_tag c _)
  matched := fun c h => h.ext_trans (ext_result c _)
  changed := fun c d h hw => (h.ext_trans (ext_tag c _)).ext_trans ((hw.rel ext_writeRel).ext_trans
    (ext_result d _))
  removed := fun c d h hw => (h.ext_trans (ext_tag c _)).ext_trans ((hw.rel ext_writeRel).ext_trans
    (ext_result d _))
  added := fun c d h hw => (h.ext_trans (ext_tag c _)).ext_trans ((hw.rel ext_writeRel).ext_trans
    (ext_result d _))

theorem ext_printDiff (a b : Value) (c : Context) : Ext c (printDiff a b c) :=
  (ext_travInv c).inv_printDiff a b c (Ext.ext_refl c)

theorem ext_printSliceItems (sa sb : List Value) (i max : Int) (c : Context) :
    Ext c (printSliceItems sa sb i max c) :=
  (ext_travInv c).inv_printSliceItems sa sb i max c (Ext.ext_refl c)

theorem ext_printAddedItems (sb : List Value) (i max : Int) (c : Context) :
    Ext c (printAddedItems sb i max c) :=
  (ext_travInv c).inv_printAddedItems sb i max c (Ext.ext_refl c)

theorem ext_printDiffAt (ma : List (String × Value)) (k : String) (vb : Value) (c : Context) :
    Ext c (printDiffAt ma k vb c) :=
  (ext_travInv c).inv_printDiffAt ma k vb c (Ext.ext_refl c)

theorem ext_writeEndOfItem (c : Context) (i len : Int) : Ext c (c.writeEndOfItem i len) :=
  ext_writeRel.writeEndOfItem i len (Ext.ext_refl c)

theorem ext_writeTypeMaybe (c : Context) (v : Value) : Ext c (c.writeTypeMaybe v) :=
  ext_writeRel.writeTypeMaybe v (Ext.ext_refl c)

theorem ext_writeEndList (c : Context) : Ext c c.writeEndList :=
  ext_writeRel.writeEndList (Ext.ext_refl c)

theorem ext_writeEndMap (c : Context) : Ext c c.writeEndMap :=
  ext_writeRel.writeEndMap (Ext.ext_refl c)

/-- The traversal keeps the options. -/
theorem opts_travInv (o : Options) : TravInv (fun c => c.opts = o) where
  writes := fun c d h hw => by rw [(hw.rel keeps_writeRel).1]; exact h
  normal := fun c h => by rw [tag_opts]; exact h
  matched := fun c h => by rw [result_opts]; exact h
  changed := fun c d h hw => by rw [result_opts, (hw.rel keeps_writeRel).1, tag_opts]; exact h
  removed := fun c d h hw => by rw [result_opts, (hw.rel keeps_writeRel).1, tag_opts]; exact h
  added := fun c d h hw => by rw [result_opts, (hw.rel keeps_writeRel).1, tag_opts]; exact h

@[simp] theorem printDiff_opts (a b : Value) (c : Context) : (printDiff a b c).opts = c.opts :=
  (opts_travInv c.opts).inv_printDiff a b c rfl

@[simp] theorem printDiffAt_opts (ma : List (String × Value)) (k : String) (vb : Value)
    (c : Context) : (printDiffAt ma k vb c).opts = c.opts :=
  (opts_travInv c.opts).inv_printDiffAt ma k vb c rfl

theorem printDiffAt_eq (ma : List (String × Value)) (k : String) (va vb : Value) (c : Context)
    (h : ma.lookup k = some va) : printDiffAt ma k vb c = printDiff va vb c := by
  induction ma with
  | nil => simp at h
  | cons e ma ih =>
    obtain ⟨k1, v⟩ := e
    rw [printDiffAt]
    by_cases hk : k = k1
    · subst hk
      rw [lookup_cons_eq] at h
      cases h
      rw [if_pos rfl]
    · rw [lookup_cons_ne k k1 v ma hk] at h
      rw [if_neg hk]
      exact ih h

theorem atHead_printMapItem (ma mb : List (String × Value)) (len i : Int) (k : String)
    (o : Options) (c : Context) (h : AtHead o c) : AtHead o (printMapItem ma mb len i k c) := by
  unfold printMapItem
  refine ⟨?_, by simp⟩
  simp only [writeEndOfItem_opts, tag_opts]
  cases ma.lookup k <;> cases mb.lookup k <;> simp [h.1]

/-- Every key of the loop `for i, k := range keys` is handled: the buffer after
the loop extends the buffer after the iteration for that key, which starts at a
loop head. -/
theorem forKeys_visit (o : Options) (body : Int → String → Context → Context)
    (hhead : ∀ i k c, AtHead o c → AtHead o (body i k c))
    (hext : ∀ i k c, Ext c (body i k c)) :
    ∀ (keys : List String) (i : Int) (c : Context) (k : String), AtHead o c → k ∈ keys →
      ∃ j ck, AtHead o ck ∧ Ext (body j k ck) (forKeys body keys i c)
  | [], _, _, _, _, hk => by simp at hk
  | k1 :: keys, i, c, k, hc, hk => by
    rw [forKeys]
    have hrest : ∀ (keys : List String) (i : Int) (c : Context),
        Ext c (forKeys body keys i c) := by
      intro keys
      induction keys with
      | nil => intro i c; rw [forKeys]; exact Ext.ext_refl c
      | cons k2 keys ih => intro i c; rw [forKeys]; exact (hext i k2 c).ext_trans (ih _ _)
    by_cases h1 : k = k1
    · subst h1
      exact ⟨i, c, hc, hrest keys _ _⟩
    · have hk2 : k ∈ keys := by
        rcases List.mem_cons.1 hk with h | h
        · exact absurd h h1
        · exact h
      exact forKeys_visit o body hhead hext keys (i + 1) _ k (hhead i k1 c hc) hk2

theorem tag_buf_congr (c d : Context) (t : Span) (h1 : c.lastTag = d.lastTag)
    (h2 : c.opts = d.opts) (h3 : c.buf = d.buf) : (c.tag t).buf = (d.tag t).buf := by
  unfold Context.tag writeLastTagEnd
  rw [← h1, ← h2]
  cases hc : c.lastTag with
  | none => simp [log, h3, h2]
  | some s =>
    by_cases hs : s = t
    · simp [hs, h3]
    · simp [hs, log, h3, h2]

theorem tag_result_buf (c : Context) (r : Difference) (t : Span) :
    ((c.result r).tag t).buf = (c.tag t).buf :=
  tag_buf_congr _ _ t (result_lastTag c r) (result_opts c r) (result_buf c r)

theorem ext_tag_result (c : Context) (r : Difference) (t : Span) :
    Ext (c.tag t) ((c.result r).tag t) :=
  ⟨"", by rw [tag_result_buf]; simp⟩

theorem atHead_endItem (o : Options) (c : Context) (i max : Int) (h : c.opts = o) :
    AtHead o ((c.tag .Normal).writeEndOfItem i max) :=
  ⟨by simp [h], by simp⟩

/-- Every index of `sb` is handled by the tail of the loop of `printSliceDiff`
that writes the added items. -/
theorem printAddedItems_visit (o : Options) : ∀ (sb : List Value) (i max : Int) (c : Context)
    (j : Nat) (v : Value), AtHead o c → sb[j]? = some v →
      ∃ ck, AtHead o ck ∧
        Ext ((writeValue v true (ck.writeStartListItem.tag .Added)).tag .Normal)
          (printAddedItems sb i max c)
  | [], _, _, _, j, v, _, hj => by simp at hj
  | y :: sb, i, max, c, 0, v, hc, hj => by
    simp only [List.getElem?_cons_zero, Option.some.injEq] at hj
    subst hj
    rw [printAddedItems]
    refine ⟨c, hc, ?_⟩
    refine Ext.ext_trans ?_ (ext_printAddedItems sb (i + 1) max _)
    refine Ext.ext_trans ?_ (ext_writeEndOfItem _ i max)
    exact ext_tag_result _ _ _
  | y :: sb, i, max, c, j + 1, v, hc, hj => by
    rw [printAddedItems]
    exact printAddedItems_visit o sb (i + 1) max _ j v
      (atHead_endItem o _ i max (by simp [hc.1])) (by simpa using hj)

end Context

/-! ## The traversal reaches every common position -/

namespace Context

/-- Every index valid in both slices is handled by the loop of `printSliceDiff`:
the two items are compared. -/
theorem printSliceItems_visit_pair (o : Options) : ∀ (sa sb : List Value) (i max : Int)
    (c : Context) (j : Nat) (va vb : Value), AtHead o c → sa[j]? = some va → sb[j]? = some vb →
      ∃ ck, ck.opts = o ∧ Ext (printDiff va vb ck) (printSliceItems sa sb i max c)
  | [], _, _, _, _, j, va, vb, _, ha, _ => by simp at ha
  | _ :: _, [], _, _, _, j, va, vb, _, _, hb => by simp at hb
  | x :: sa, y :: sb, i, max, c, 0, va, vb, hc, ha, hb => by
    simp only [List.getElem?_cons_zero, Option.some.injEq] at ha hb
    subst ha; subst hb
    rw [printSliceItems]
    refine ⟨c.writeStartListItem, by simp [hc.1], ?_⟩
    exact (ext_tag _ _).ext_trans ((ext_writeEndOfItem _ i max).ext_trans
      (ext_printSliceItems sa sb (i + 1) max _))
  | x :: sa, y :: sb, i, max, c, j + 1, va, vb, hc, ha, hb => by
    rw [printSliceItems]
    exact printSliceItems_visit_pair o sa sb (i + 1) max _ j va vb
      (atHead_endItem o _ i max (by simp [hc.1])) (by simpa using ha) (by simpa using hb)

/-- Every index beyond the end of `sa` is handled by the loop of `printSliceDiff`:
the item of `sb` is written in full in the Added span. -/
theorem printSliceItems_visit_added (o : Options) : ∀ (sa sb : List Value) (i max : Int)
    (c : Context) (j : Nat) (v : Value), AtHead o c → sa.length ≤ j → sb[j]? = some v →
      ∃ ck, AtHead o ck ∧
        Ext ((writeValue v true (ck.writeStartListItem.tag .Added)).tag .Normal)
          (printSliceItems sa sb i max c)
  | [], sb, i, max, c, j, v, hc, _, hb => by
    rw [printSliceItems]
    exact printAddedItems_visit o sb i max c j v hc hb
  | _ :: _, [], _, _, _, j, v, _, _, hb => by simp at hb
  | x :: sa, y :: sb, i, max, c, 0, v, hc, ha, hb => by simp at ha
  | x :: sa, y :: sb, i, max, c, j + 1, v, hc, ha, hb => by
    rw [printSliceItems]
    exact printSliceItems_visit_added o sa sb (i + 1) max _ j v
      (atHead_endItem o _ i max (by simp [hc.1])) (by simpa using ha) (by simpa using hb)

theorem unionKeys_ne_nil_of_mem {ma mb : List (String × Value)} {k : String}
    (h : k ∈ unionKeys ma mb) : ¬ (unionKeys ma mb).length = 0 := by
  intro h0
  rw [List.eq_nil_of_length_eq_zero h0] at h
  simp at h

theorem ext_printMapItem (ma mb : List (String × Value)) (len i : Int) (k : String)
    (c : Context) : Ext c (printMapItem ma mb len i k c) := by
  unfold printMapItem
  refine Ext.ext_trans ?_ ((ext_tag _ _).ext_trans (ext_writeEndOfItem _ i len))
  cases ma.lookup k <;> cases mb.lookup k
  · exact Ext.ext_refl c
  · exact (ext_tag _ _).ext_trans ((ext_writeRel.writeValue _ true _ _
      (ext_writeRel.key k (Ext.ext_refl _))).ext_trans (ext_result _ _))
  · exact (ext_tag _ _).ext_trans ((ext_writeRel.writeValue _ true _ _
      (ext_writeRel.key k (Ext.ext_refl _))).ext_trans (ext_result _ _))
  · exact (ext_writeRel.key k (Ext.ext_refl c)).ext_trans (ext_printDiffAt _ _ _ _)

/-- Every key of the union is handled by `printMapDiff`. -/
theorem printDiff_object_visit (ma mb : List (String × Value)) (k : String) (c : Context)
    (hk : k ∈ unionKeys ma mb) :
    ∃ j ck, AtHead c.opts ck ∧
      Ext (printMapItem ma mb (unionKeys ma mb).length j k ck)
        (printDiff (.object ma) (.object mb) c) := by
  rw [printDiff_object, if_neg (unionKeys_ne_nil_of_mem hk)]
  obtain ⟨j, ck, hck, hext⟩ := forKeys_visit c.opts (printMapItem ma mb (unionKeys ma mb).length)
    (fun i k c h => atHead_printMapItem ma mb _ i k _ c h)
    (fun i k c => ext_printMapItem ma mb _ i k c) (unionKeys ma mb) 0
    (c.tag .Normal).writeStartMap k ⟨by simp, by simp⟩ hk
  exact ⟨j, ck, hck, hext.ext_trans ((ext_writeEndMap _).ext_trans (ext_writeTypeMaybe _ _))⟩

theorem maxLen_ne_zero_of_getElem? {sa sb : List Value} {j : Nat} {v : Value}
    (h : sb[j]? = some v) : ¬ maxLen sa sb = 0 := by
  intro h0
  rw [((maxLen_eq_zero sa sb).1 h0).2] at h
  simp at h

/-- The traversal of two documents reaches every position present in both: it
compares the two values found there. -/
theorem printDiff_reach : ∀ (p : List PathStep) (a b x y : Value) (c : Context),
    a.at p = some x → b.at p = some y →
    ∃ c1, c1.opts = c.opts ∧ Ext (printDiff x y c1) (printDiff a b c)
  | [], a, b, x, y, c, ha, hb => by
    simp only [Value.at, Option.some.injEq] at ha hb
    subst ha; subst hb
    exact ⟨c, rfl, Ext.ext_refl _⟩
  | .key k :: p, a, b, x, y, c, ha, hb => by
    cases a <;> cases b <;> simp only [Value.at, reduceCtorEq] at ha hb
    rename_i ma mb
    cases hla : ma.lookup k with
    | none => simp [hla] at ha
    | some va =>
      cases hlb : mb.lookup k with
      | none => simp [hlb] at hb
      | some vb =>
        simp only [hla] at ha
        simp only [hlb] at hb
        obtain ⟨j, ck, hck, hext⟩ := printDiff_object_visit ma mb k c
          ((mem_unionKeys ma mb k).2 (Or.inl (by simp [hla])))
        obtain ⟨c1, hc1, hext1⟩ := printDiff_reach p va vb x y (ck.key k) ha hb
        refine ⟨c1, by rw [hc1, key_opts, hck.1], hext1.ext_trans (Ext.ext_trans ?_ hext)⟩
        unfold printMapItem
        simp only [hla, hlb]
        rw [printDiffAt_eq ma k va vb _ hla]
        exact (ext_tag _ _).ext_trans (ext_writeEndOfItem _ _ _)
  | .index i :: p, a, b, x, y, c, ha, hb => by
    cases a <;> cases b <;> simp only [Value.at, reduceCtorEq] at ha hb
    rename_i sa sb
    cases hla : sa[i]? with
    | none => simp [hla] at ha
    | some va =>
      cases hlb : sb[i]? with
      | none => simp [hlb] at hb
      | some vb =>
        simp only [hla] at ha
        simp only [hlb] at hb
        rw [printDiff_array, if_neg (maxLen_ne_zero_of_getElem? hlb)]
        obtain ⟨ck, hck, hext⟩ := printSliceItems_visit_pair c.opts sa sb 0 (maxLen sa sb)
          (c.tag .Normal).writeStartList i va vb ⟨by simp, by simp⟩ hla hlb
        obtain ⟨c1, hc1, hext1⟩ := printDiff_reach p va vb x y ck ha hb
        exact ⟨c1, by rw [hc1, hck], hext1.ext_trans (hext.ext_trans
          ((ext_writeEndList _).ext_trans (ext_writeTypeMaybe _ _)))⟩

theorem tag_buf_of_lastTag (c : Context) (s t : Span) (h : c.lastTag = some s) (hne : s ≠ t) :
    (c.tag t).buf = c.buf ++ (c.opts.tagOf s).End ++ (c.opts.tagOf t).Begin := by
  unfold Context.tag writeLastTagEnd
  rw [h]
  have : ¬ some s = some t := by simpa using hne
  simp [this, log]

end Context

/-! ## Entries written in the Added span -/

namespace Context

theorem inAddedSpan_of_ext (o : Options) (write : Context → Context) (ck d : Context)
    (hw : ∀ c, Keeps c (write c)) (hck : AtHead o ck)
    (hext : Ext ((write (ck.tag .Added)).tag .Normal) d) : InAddedSpan o write d.buf := by
  obtain ⟨s, hs⟩ := hext
  have hk := hw (ck.tag .Added)
  have hlast : (write (ck.tag .Added)).lastTag = some .Added := by rw [hk.2.1, tag_lastTag]
  have hopts : (write (ck.tag .Added)).opts = o := by rw [hk.1, tag_opts, hck.1]
  refine ⟨ck.tag .Added, ck.buf ++ (o.tagOf .Normal).End, (o.tagOf .Normal).Begin ++ s,
    by rw [tag_opts, hck.1], tag_lastTag _ _, ?_, ?_⟩
  · rw [tag_buf_of_lastTag ck .Normal .Added hck.2 (by decide), hck.1]; rfl
  · rw [hs, tag_buf_of_lastTag _ .Added .Normal hlast (by decide), hopts]
    simp [Options.tagOf, String.append_assoc]

theorem inAddedSpan_ext (o : Options) (write : Context → Context) (d e : Context)
    (h : InAddedSpan o write d.buf) (hext : Ext d e) : InAddedSpan o write e.buf := by
  obtain ⟨c, pre, rest, h1, h2, h3, h4⟩ := h
  obtain ⟨s, hs⟩ := hext
  exact ⟨c, pre, rest ++ s, h1, h2, h3, by rw [hs, h4, String.append_assoc]⟩

theorem added_key_inAddedSpan (a b : Value) (c : Context) (p : List PathStep)
    (ma mb : List (String × Value)) (k : String) (vb : Value)
    (ha : a.at p = some (.object ma)) (hb : b.at p = some (.object mb))
    (hka : ma.lookup k = none) (hkb : mb.lookup k = some vb) :
    InAddedSpan c.opts (fun d => writeValue vb true (d.key k)) (printDiff a b c).buf := by
  obtain ⟨c1, hc1, hext1⟩ := printDiff_reach p a b _ _ c ha hb
  obtain ⟨j, ck, hck, hext⟩ := printDiff_object_visit ma mb k c1
    ((mem_unionKeys ma mb k).2 (Or.inr (by simp [hkb])))
  rw [hc1] at hck
  refine inAddedSpan_ext _ _ _ _ ?_ (hext.ext_trans hext1)
  refine inAddedSpan_of_ext c.opts _ ck _
    (fun d => keeps_writeRel.writeValue vb true d _ (keeps_writeRel.key k (keeps_writeRel.refl d)))
    hck ?_
  unfold printMapItem
  simp only [hka, hkb]
  exact (ext_tag_result _ _ _).ext_trans (ext_writeEndOfItem _ _ _)

theorem added_index_inAddedSpan (a b : Value) (c : Context) (p : List PathStep)
    (sa sb : List Value) (i : Nat) (vb : Value)
    (ha : a.at p = some (.array sa)) (hb : b.at p = some (.array sb))
    (hia : sa.length ≤ i) (hib : sb[i]? = some vb) :
    InAddedSpan c.opts (fun d => writeValue vb true d) (printDiff a b c).buf := by
  obtain ⟨c1, hc1, hext1⟩ := printDiff_reach p a b _ _ c ha hb
  have hext1 : Ext (printDiff (.array sa) (.array sb) c1) (printDiff a b c) := hext1
  rw [printDiff_array, if_neg (maxLen_ne_zero_of_getElem? hib)] at hext1
  obtain ⟨ck, hck, hext⟩ := printSliceItems_visit_added c1.opts sa sb 0 (maxLen sa sb)
    (c1.tag .Normal).writeStartList i vb ⟨by simp, by simp⟩ hia hib
  rw [hc1] at hck
  refine inAddedSpan_ext _ _ _ _ ?_
    (((ext_writeEndList _).ext_trans (ext_writeTypeMaybe _ _)).ext_trans hext1)
  have hhead : AtHead c.opts ck.writeStartListItem := ⟨by simp [hck.1], by simp [hck.2]⟩
  exact inAddedSpan_ext _ _ _ _ (inAddedSpan_of_ext c.opts _ ck.writeStartListItem _
    (fun d => keeps_writeValue vb true d) hhead (Ext.ext_refl _)) hext

end Context

theorem traversal_diff_opts (a b : Value) (o p : Options) :
    (printDiff a b (newContext o)).diff = (printDiff a b (newContext p)).diff := by
  have h1 := traversal_agg a b o
  have h2 := traversal_agg a b p
  have e1 := traversal_fullMatch_iff a b o
  have e2 := traversal_fullMatch_iff a b p
  have n1 := traversal_noMatch_iff a b o
  have n2 := traversal_noMatch_iff a b p
  rcases h1.ok with h | h | h
  · rw [h]; exact (e2.2 (e1.1 h)).symm
  · rcases h2.ok with g | g | g
    · rw [e1.2 (e2.1 g)] at h; exact absurd h (by decide)
    · rw [h, g]
    · rw [n1.2 (n2.1 g)] at h; exact absurd h (by decide)
  · rw [h]; exact (n2.2 (n1.1 h)).symm

theorem compare_fst (a b : Value) (o : Options) :
    (Compare (some a) (some b) o).1 = (printDiff a b (newContext o)).diff := by
  rw [compare_some]
  exact traversal_diff_opts a b _ _

theorem unionKeys_scenario :
    unionKeys [("a", .number "123"), ("b", .number "456"),
      ("c", .array [.number "7", .number "8", .number "9"])]
      [("a", .number "123"), ("c", .array [.number "7", .number "8"])] = ["a", "b", "c"] := by
  decide

theorem strconvQuote_a : strconvQuote "a" = "\"a\"" := by decide
theorem strconvQuote_b : strconvQuote "b" = "\"b\"" := by decide
theorem strconvQuote_c : strconvQuote "c" = "\"c\"" := by decide
theorem strconvQuote_x : strconvQuote "x" = "\"x\"" := by decide

set_option maxRecDepth 100000 in
set_option maxHeartbeats 4000000 in
theorem scenario_rendering_json (n ad rm ch : Tag) (pre ind : String) :
    (Compare (some supersetDoc) (some subsetDoc) ⟨JSON, n, ad, rm, ch, pre, ind, false⟩).2 =
      n.wrap "\x7b" ++ ("\n" ++ pre ++ String.join [ind]) ++
      n.wrap "\"a\": 123," ++ ("\n" ++ pre ++ String.join [ind]) ++
      n.wrap "" ++ rm.wrap "\"b\": 456" ++ n.wrap "," ++ ("\n" ++ pre ++ String.join [ind]) ++
      n.wrap "\"c\": [" ++ ("\n" ++ pre ++ String.join [ind, ind]) ++
      n.wrap "7," ++ ("\n" ++ pre ++ String.join [ind, ind]) ++
      n.wrap "8," ++ ("\n" ++ pre ++ String.join [ind, ind]) ++
      n.wrap "" ++ rm.wrap "9" ++ n.wrap "" ++ ("\n" ++ pre ++ String.join [ind]) ++
      n.wrap "]" ++ ("\n" ++ pre ++ String.join []) ++
      n.wrap "\x7d" := by
  simp only [Compare, supersetDoc, subsetDoc, newContext, printDiff_object, unionKeys_scenario]
  simp [forKeys, printMapItem, printDiffAt, printDiff_array, maxLen, printSliceItems,
    printRemovedItems, printDiff_leaf, sameLeaf, writeValue, Context.tag, Context.newline,
    Context.key, Context.quote, Context.Output, JSON, YAML, Context.writeString, Context.log,
    writeLastTagEnd, writeLastTagBegin, writeIndent, Options.tagOf, writeStartMap,
    jsonWriteStartMap, writeEndMap, jsonWriteEndMap, writeStartList, jsonWriteStartList,
    writeEndList, jsonWriteEndList, writeEndOfItem, jsonWriteEndOfItem, writeStartListItem,
    jsonWriteStartListItem, writeTypeMaybe, Context.result, jsonQuote, strconvQuote_a,
    strconvQuote_b, strconvQuote_c, FullMatch, SupersetMatch, NoMatch, List.lookup,
    String.append_assoc, Tag.wrap]

theorem compare_default_output (a b : Value) (o : Options) (h : o.Output = "") :
    Compare (some a) (some b) o = Compare (some a) (some b) { o with Output := JSON } := by
  simp [Compare, h, JSON]

theorem scenario_rendering (o : Options) (hout : o.Output = JSON ∨ o.Output = "")
    (ht : o.PrintTypes = false) :
    (Compare (some supersetDoc) (some subsetDoc) o).2 =
      o.Normal.wrap "\x7b" ++ o.lineBreak 1 ++
      o.Normal.wrap "\"a\": 123," ++ o.lineBreak 1 ++
      o.Normal.wrap "" ++ o.Removed.wrap "\"b\": 456" ++ o.Normal.wrap "," ++ o.lineBreak 1 ++
      o.Normal.wrap "\"c\": [" ++ o.lineBreak 2 ++
      o.Normal.wrap "7," ++ o.lineBreak 2 ++
      o.Normal.wrap "8," ++ o.lineBreak 2 ++
      o.Normal.wrap "" ++ o.Removed.wrap "9" ++ o.Normal.wrap "" ++ o.lineBreak 1 ++
      o.Normal.wrap "]" ++ o.lineBreak 0 ++
      o.Normal.wrap "\x7d" := by
  obtain ⟨out, n, ad, rm, ch, pre, ind, pt⟩ := o
  simp only at hout ht
  subst ht
  have key := scenario_rendering_json n ad rm ch pre ind
  rcases hout with h | h
  · subst h
    rw [key]; rfl
  · rw [compare_default_output _ _ _ h, key]; rfl

set_option maxRecDepth 100000 in
set_option maxHeartbeats 4000000 in
theorem added_scenario_json (n ad rm ch : Tag) (pre ind : String) :
    Compare (some (.object [])) (some (.object [("x", .number "1")]))
      ⟨JSON, n, ad, rm, ch, pre, ind, false⟩ =
      (NoMatch, n.wrap "\x7b" ++ ("\n" ++ pre ++ String.join [ind]) ++ n.wrap "" ++
        ad.wrap "\"x\": 1" ++ n.wrap "" ++ ("\n" ++ pre ++ String.join []) ++ n.wrap "\x7d") := by
  have hk : unionKeys [] [("x", Value.number "1")] = ["x"] := by decide
  simp only [Compare, newContext, printDiff_object, hk]
  simp [forKeys, printMapItem, writeValue, Context.tag, Context.newline,
    Context.key, Context.quote, Context.Output, JSON, YAML, Context.writeString, Context.log,
    writeLastTagEnd, writeLastTagBegin, writeIndent, Options.tagOf, writeStartMap,
    jsonWriteStartMap, writeEndMap, jsonWriteEndMap, writeEndOfItem, jsonWriteEndOfItem,
    writeTypeMaybe, Context.result, jsonQuote, strconvQuote_x, FullMatch, SupersetMatch,
    NoMatch, List.lookup, String.append_assoc, Tag.wrap]

theorem empty_arrays_rendering (o : Options) (ht : o.PrintTypes = false) :
    Compare (some (.array [])) (some (.array [])) o = (FullMatch, o.Normal.wrap "[]") := by
  rw [compare_some, printDiff_array, if_pos ((maxLen_eq_zero [] []).2 ⟨rfl, rfl⟩)]
  have hp : (defaultOutput o).PrintTypes = false := by
    unfold defaultOutput; split <;> simp [ht]
  have hn : (defaultOutput o).Normal = o.Normal := by
    unfold defaultOutput; split <;> rfl
  simp [Context.writeTypeMaybe, hp, Context.tag, newContext, writeLastTagEnd, Context.log,
    Context.writeString, Options.tagOf, hn, Tag.wrap, FullMatch]

/-! ## Properties of `Compare` -/

/-- C1: the traversal that `Compare` starts from a fresh state ends with
`FullMatch` exactly when the two decoded values are deeply equal (same kind at
every position, equal booleans and strings, numbers with equal literal text,
arrays of equal length with deeply equal items in order, objects with the same
keys and deeply equal values per key); so does the classification returned by
`Compare`, and comparing a value with itself gives `FullMatch`. -/
theorem compare_fullMatch_iff_deepEqual (a b : Value) (opts : Options) :
    ((printDiff a b (newContext opts)).diff = FullMatch ↔ DeepEqual a b) ∧
    ((Compare (some a) (some b) opts).1 = FullMatch ↔ DeepEqual a b) ∧
    (Compare (some a) (some a) opts).1 = FullMatch := by
  refine ⟨traversal_fullMatch_iff a b opts, ?_, ?_⟩
  · rw [compare_fst]; exact traversal_fullMatch_iff a b opts
  · rw [compare_fst]; exact (traversal_fullMatch_iff a a opts).2 (deepEqual_refl a)

/-- C2: the classification of `Compare` is `SupersetMatch` exactly when the first
value is a superset of the second (scalars and null equal, an array at least as
long with each item in the index range of the second equal to or a superset of
the item there, an object with every key of the second and at each such key a
value equal to or a superset of the value there) and the two are not deeply
equal; the classification is then neither `FullMatch` nor `NoMatch`. -/
theorem compare_supersetMatch_iff_superset (a b : Value) (opts : Options) :
    ((printDiff a b (newContext opts)).diff = SupersetMatch ↔
      Superset a b ∧ ¬ DeepEqual a b) ∧
    ((Compare (some a) (some b) opts).1 = SupersetMatch ↔ Superset a b ∧ ¬ DeepEqual a b) ∧
    (Superset a b ∧ ¬ DeepEqual a b →
      (Compare (some a) (some b) opts).1 ≠ FullMatch ∧
      (Compare (some a) (some b) opts).1 ≠ NoMatch) := by
  refine ⟨traversal_supersetMatch_iff a b opts, ?_, ?_⟩
  · rw [compare_fst]; exact traversal_supersetMatch_iff a b opts
  · intro h
    rw [compare_fst, (traversal_supersetMatch_iff a b opts).2 h]
    decide

/-- C3: when at a position present in both documents the two values are scalars
or null and differ (in kind or in value, numbers by their literal text), the
classification of `Compare` is `NoMatch`, whatever else the documents hold. -/
theorem compare_noMatch_of_scalar_difference (a b : Value) (opts : Options)
    (p : List PathStep) (x y : Value) (ha : a.at p = some x) (hb : b.at p = some y)
    (hx : x.isScalar = true) (_hy : y.isScalar = true) (hne : x ≠ y) :
    (Compare (some a) (some b) opts).1 = NoMatch := by
  rw [compare_fst, traversal_noMatch_iff]
  intro hs
  exact hne (superset_scalar_eq x y (superset_at p a b x y hs ha hb) hx)

/-- Witness of C3: `{"a":1.0}` against `{"a":1}` is `NoMatch`, the two literal
texts differ at the position of key `a`. -/
theorem compare_noMatch_of_scalar_difference_witness :
    (Compare (some (.object [("a", .number "1.0")])) (some (.object [("a", .number "1")]))
      DefaultConsoleOptions).1 = NoMatch :=
  compare_noMatch_of_scalar_difference _ _ _ [.key "a"] (.number "1.0") (.number "1")
    rfl rfl rfl rfl (by simp)

/-- C4: when at a position reached in both documents the object of the second has
a key that the object of the first lacks, or the array of the second has an index
beyond the end of the array of the first, the classification is `NoMatch` and the
rendering holds that entry written in full inside an Added span: the Added
begin-marker, the key (for an object entry), `writeValue` of the value in full,
the Added end-marker. For `{}` against `{"x":1}` in the structured-bracket
dialect without type tags the result is `NoMatch` and the rendering is the
opening brace, a line break, the entry `"x": 1` in the Added span, a line break
and the closing brace. -/
theorem added_entry_in_added_span :
    (∀ (a b : Value) (opts : Options) (p : List PathStep) (ma mb : List (String × Value))
      (k : String) (vb : Value), a.at p = some (.object ma) → b.at p = some (.object mb) →
      ma.lookup k = none → mb.lookup k = some vb →
      (Compare (some a) (some b) opts).1 = NoMatch ∧
      InAddedSpan (defaultOutput opts) (fun c => writeValue vb true (c.key k))
        (Compare (some a) (some b) opts).2) ∧
    (∀ (a b : Value) (opts : Options) (p : List PathStep) (sa sb : List Value)
      (i : Nat) (vb : Value), a.at p = some (.array sa) → b.at p = some (.array sb) →
      sa.length ≤ i → sb[i]? = some vb →
      (Compare (some a) (some b) opts).1 = NoMatch ∧
      InAddedSpan (defaultOutput opts) (fun c => writeValue vb true c)
        (Compare (some a) (some b) opts).2) ∧
    (∀ opts : Options, (opts.Output = JSON ∨ opts.Output = "") → opts.PrintTypes = false →
      Compare (some (.object [])) (some (.object [("x", .number "1")])) opts =
        (NoMatch, opts.Normal.wrap "\x7b" ++ opts.lineBreak 1 ++ opts.Normal.wrap "" ++
          opts.Added.wrap "\"x\": 1" ++ opts.Normal.wrap "" ++ opts.lineBreak 0 ++
          opts.Normal.wrap "\x7d")) ∧
    (∀ opts : Options, (opts.Output = JSON ∨ opts.Output = "") → opts.PrintTypes = false →
      opts.Normal = ⟨"", ""⟩ → opts.Prefix = "" → opts.Indent = "    " →
      Compare (some (.object [])) (some (.object [("x", .number "1")])) opts =
        (NoMatch, "\x7b\n    " ++ opts.Added.Begin ++ "\"x\": 1" ++ opts.Added.End ++
          "\n\x7d")) := by
  have hgen : ∀ opts : Options, (opts.Output = JSON ∨ opts.Output = "") →
      opts.PrintTypes = false →
      Compare (some (.object [])) (some (.object [("x", .number "1")])) opts =
        (NoMatch, opts.Normal.wrap "\x7b" ++ opts.lineBreak 1 ++ opts.Normal.wrap "" ++
          opts.Added.wrap "\"x\": 1" ++ opts.Normal.wrap "" ++ opts.lineBreak 0 ++
          opts.Normal.wrap "\x7d") := by
    intro o hout ht
    obtain ⟨out, n, ad, rm, ch, pre, ind, pt⟩ := o
    simp only at hout ht
    subst ht
    have key := added_scenario_json n ad rm ch pre ind
    rcases hout with h | h
    · subst h; rw [key]; rfl
    · rw [compare_default_output _ _ _ h, key]; rfl
  refine ⟨?_, ?_, hgen, ?_⟩
  · intro a b opts p ma mb k vb ha hb hka hkb
    constructor
    · rw [compare_fst, traversal_noMatch_iff]
      intro hs
      have h1 := ((superset_object_iff ma mb).1 (superset_at p a b _ _ hs ha hb)).1 k
        (by simp [hkb])
      simp [hka] at h1
    · rw [compare_some]
      exact inAddedSpan_ext _ _ _ _
        (added_key_inAddedSpan a b (newContext (defaultOutput opts)) p ma mb k vb ha hb hka hkb)
        (ext_writeRel.primEnd _)
  · intro a b opts p sa sb i vb ha hb hia hib
    constructor
    · rw [compare_fst, traversal_noMatch_iff]
      intro hs
      have h1 := ((superset_array_iff sa sb).1 (superset_at p a b _ _ hs ha hb)).1
      have h2 : i < sb.length := by
        by_contra hlt
        rw [List.getElem?_eq_none (by omega)] at hib
        exact absurd hib (by simp)
      omega
    · rw [compare_some]
      exact inAddedSpan_ext _ _ _ _
        (added_index_inAddedSpan a b (newContext (defaultOutput opts)) p sa sb i vb ha hb hia
          hib) (ext_writeRel.primEnd _)
  · intro o hout ht hn hp hi
    rw [hgen o hout ht]
    obtain ⟨out, n, ad, rm, ch, pre, ind, pt⟩ := o
    simp only at hn hp hi
    subst hn; subst hp; subst hi
    simp only [Tag.wrap, Options.lineBreak, List.replicate, String.join, List.foldl,
      String.append_assoc, Prod.mk.injEq, true_and]
    rfl

/-- Witness of C4: `{}` against `{"x":1}` under the console options, where key `x`
is only in the second document. -/
theorem added_entry_in_added_span_witness :
    (Compare (some (.object [])) (some (.object [("x", .number "1")]))
      DefaultConsoleOptions).1 = NoMatch ∧
    InAddedSpan (defaultOutput DefaultConsoleOptions)
      (fun c => writeValue (.number "1") true (c.key "x"))
      (Compare (some (.object [])) (some (.object [("x", .number "1")]))
        DefaultConsoleOptions).2 :=
  added_entry_in_added_span.1 (.object []) (.object [("x", .number "1")]) DefaultConsoleOptions
    [] [] [("x", .number "1")] "x" (.number "1") rfl rfl rfl rfl

/-- C5: given the outcomes of the two decodings, `Compare` returns the fixed pair
for two invalid inputs, for an invalid first input and for an invalid second
input, whatever the options and the other input are; when both inputs decode the
classification is `FullMatch`, `SupersetMatch` or `NoMatch` and none of the
three invalid values. -/
theorem compare_invalid_json (a b : Value) (opts : Options) :
    Compare none none opts = (BothArgsAreInvalidJson, "both arguments are invalid json") ∧
    Compare none (some b) opts = (FirstArgIsInvalidJson, "first argument is invalid json") ∧
    Compare (some a) none opts =
      (SecondArgIsInvalidJson, "second argument is invalid json") ∧
    ((Compare (some a) (some b) opts).1 = FullMatch ∨
      (Compare (some a) (some b) opts).1 = SupersetMatch ∨
      (Compare (some a) (some b) opts).1 = NoMatch) ∧
    (Compare (some a) (some b) opts).1 ≠ FirstArgIsInvalidJson ∧
    (Compare (some a) (some b) opts).1 ≠ SecondArgIsInvalidJson ∧
    (Compare (some a) (some b) opts).1 ≠ BothArgsAreInvalidJson := by
  refine ⟨rfl, rfl, rfl, ?_⟩
  have h : okDiff (Compare (some a) (some b) opts).1 := by
    rw [compare_fst]; exact (traversal_agg a b opts).ok
  refine ⟨h, ?_, ?_, ?_⟩ <;>
    · rcases h with h | h | h <;> rw [h] <;> decide

/-- C6: for `{"a":123,"b":456,"c":[7,8,9]}` against `{"a":123,"c":[7,8]}` the
classification is `SupersetMatch`; in the structured-bracket dialect without
type tags the rendering has the entry of key `b` and the third element `9` of `c`
each inside a Removed span and everything else inside the Normal span; with
empty Normal markers, empty prefix and an indent of four spaces it is exactly
the text of the scenario. -/
theorem superset_scenario_rendering (opts : Options) :
    (Compare (some supersetDoc) (some subsetDoc) opts).1 = SupersetMatch ∧
    ((opts.Output = JSON ∨ opts.Output = "") → opts.PrintTypes = false →
      (Compare (some supersetDoc) (some subsetDoc) opts).2 =
        opts.Normal.wrap "\x7b" ++ opts.lineBreak 1 ++
        opts.Normal.wrap "\"a\": 123," ++ opts.lineBreak 1 ++
        opts.Normal.wrap "" ++ opts.Removed.wrap "\"b\": 456" ++ opts.Normal.wrap "," ++
          opts.lineBreak 1 ++
        opts.Normal.wrap "\"c\": [" ++ opts.lineBreak 2 ++
        opts.Normal.wrap "7," ++ opts.lineBreak 2 ++
        opts.Normal.wrap "8," ++ opts.lineBreak 2 ++
        opts.Normal.wrap "" ++ opts.Removed.wrap "9" ++ opts.Normal.wrap "" ++
          opts.lineBreak 1 ++
        opts.Normal.wrap "]" ++ opts.lineBreak 0 ++
        opts.Normal.wrap "\x7d") ∧
    ((opts.Output = JSON ∨ opts.Output = "") → opts.PrintTypes = false →
      opts.Normal = ⟨"", ""⟩ → opts.Prefix = "" → opts.Indent = "    " →
      (Compare (some supersetDoc) (some subsetDoc) opts).2 =
        "\x7b\n    \"a\": 123,\n    " ++ opts.Removed.Begin ++ "\"b\": 456" ++
          opts.Removed.End ++ ",\n    \"c\": [\n        7,\n        8,\n        " ++
          opts.Removed.Begin ++ "9" ++ opts.Removed.End ++ "\n    ]\n\x7d") := by
  refine ⟨?_, scenario_rendering opts, ?_⟩
  · rw [compare_fst, traversal_diff_opts _ _ opts DefaultConsoleOptions]
    set_option maxRecDepth 100000 in decide
  · intro hout ht hn hp hi
    rw [scenario_rendering opts hout ht]
    obtain ⟨out, n, ad, rm, ch, pre, ind, pt⟩ := opts
    simp only at hn hp hi
    subst hn; subst hp; subst hi
    simp only [Tag.wrap, Options.lineBreak, List.replicate, String.join, List.foldl,
      String.append_assoc]
    rfl

/-- Witness of C6: the rendering under the console options. -/
theorem superset_scenario_rendering_witness :
    (Compare (some supersetDoc) (some subsetDoc) DefaultConsoleOptions).2 =
      "\x7b\n    \"a\": 123,\n    " ++ DefaultConsoleOptions.Removed.Begin ++ "\"b\": 456" ++
        DefaultConsoleOptions.Removed.End ++
        ",\n    \"c\": [\n        7,\n        8,\n        " ++
        DefaultConsoleOptions.Removed.Begin ++ "9" ++ DefaultConsoleOptions.Removed.End ++
        "\n    ]\n\x7d" :=
  (superset_scenario_rendering DefaultConsoleOptions).2.2 (Or.inl rfl) rfl rfl rfl rfl

/-- C7, evaluated: an object written in full inside an Added region has its keys
in the order in which `writeMap` visits the map, not in ascending order, and two
inputs that differ only in the order of the entries of that object give two
different renderings. -/
theorem writeMap_keys_in_visiting_order :
    (Compare (some (.array []))
      (some (.array [.object [("b", .number "1"), ("a", .number "2")]]))
      DefaultConsoleOptions).2 =
      "[\n    \x1b[0;32m\x7b\x1b[0m\n        \x1b[0;32m\"b\": 1,\x1b[0m\n        " ++
        "\x1b[0;32m\"a\": 2\x1b[0m\n    \x1b[0;32m\x7d\x1b[0m\n]" ∧
    (Compare (some (.array []))
      (some (.array [.object [("b", .number "1"), ("a", .number "2")]]))
      DefaultConsoleOptions).2 ≠
    (Compare (some (.array []))
      (some (.array [.object [("a", .number "2"), ("b", .number "1")]]))
      DefaultConsoleOptions).2 := by
  set_option maxRecDepth 100000 in decide

/-- C8: the traversal opens an Added, Removed or Changed span exactly when the
classification that `Compare` returns is not `FullMatch`; comparing a value with
itself opens no such span, and the rendering that `Compare` then returns is the
same under any two options values that differ only in these three marker pairs. -/
theorem spans_in_sync_with_classification (a b : Value) (opts : Options) :
    (opensOther (printDiff a b (newContext (defaultOutput opts))) ↔
      (Compare (some a) (some b) opts).1 ≠ FullMatch) ∧
    ¬ opensOther (printDiff a a (newContext (defaultOutput opts))) ∧
    (∀ opts2 : Options, SameButOther opts opts2 →
      (Compare (some a) (some a) opts).2 = (Compare (some a) (some a) opts2).2) := by
  refine ⟨?_, ?_, ?_⟩
  · rw [compare_some]
    exact (syncInv_traversal a b (defaultOutput opts)).2.2
  · rw [(syncInv_traversal a a (defaultOutput opts)).2.2]
    intro h
    exact h ((traversal_fullMatch_iff a a _).2 (deepEqual_refl a))
  · intro opts2 h
    apply compare_rendering_of_fullMatch a a opts opts2 h
    rw [compare_fst]
    exact (traversal_fullMatch_iff a a _).2 (deepEqual_refl a)

/-- C9: comparing two empty arrays without type tags gives `FullMatch` and the
token `[]` inside the Normal span, in every dialect; with empty Normal markers
the rendering is exactly `[]`. -/
theorem compare_empty_arrays (opts : Options) (hn : opts.Normal = ⟨"", ""⟩)
    (ht : opts.PrintTypes = false) :
    Compare (some (.array [])) (some (.array [])) opts = (FullMatch, "[]") := by
  rw [empty_arrays_rendering opts ht, hn]
  rfl

/-- Witness of C9: the console options, in both dialects. -/
theorem compare_empty_arrays_witness :
    Compare (some (.array [])) (some (.array [])) DefaultConsoleOptions = (FullMatch, "[]") ∧
    Compare (some (.array [])) (some (.array [])) DefaultConsoleOptions.WithYAMLOutput =
      (FullMatch, "[]") :=
  ⟨compare_empty_arrays DefaultConsoleOptions rfl rfl,
    compare_empty_arrays DefaultConsoleOptions.WithYAMLOutput rfl rfl⟩

/-- C10, evaluated: with `Output = YAML` the rendering that `Compare` returns for
`1` against `1` is the text `1`, and for `{"a":1}` against itself it starts with a
line feed: the traversal of `Compare` writes no `---`. -/
theorem compare_yaml_without_document_start :
    Compare (some (.number "1")) (some (.number "1")) DefaultConsoleOptions.WithYAMLOutput =
      (FullMatch, "1") ∧
    Compare (some (.object [("a", .number "1")])) (some (.object [("a", .number "1")]))
      DefaultConsoleOptions.WithYAMLOutput = (FullMatch, "\n  a: 1") := by
  set_option maxRecDepth 100000 in decide

/-! ## The operations of the renderer as equations -/

namespace Context

theorem writeValue_eq_writeBare (v : Value) (full : Bool) (c : Context) :
    writeValue v full c = (c.writeBare v full).writeTypeMaybe v := by
  cases v <;> rw [writeValue] <;> rfl

theorem writeBare_opts (v : Value) (full : Bool) (c : Context) :
    (c.writeBare v full).opts = c.opts := by
  have h := writeValue_opts v full c
  rw [writeValue_eq_writeBare, writeTypeMaybe_opts] at h
  exact h

theorem writeTypeMaybe_buf (c : Context) (v : Value) :
    (c.writeTypeMaybe v).buf = c.buf ++ c.typeSuffix v := by
  unfold Context.writeTypeMaybe Context.writeType typeSuffix
  split
  · cases v <;> simp [Value.typeTag, String.append_assoc]
  · simp

theorem writeTypeMaybe_off (c : Context) (v : Value) (h : c.opts.PrintTypes = false) :
    c.writeTypeMaybe v = c := by
  unfold Context.writeTypeMaybe
  simp [h]

theorem writeTypeMaybe_eq (c : Context) (v : Value) :
    c.writeTypeMaybe v = c.writeString (c.typeSuffix v) := by
  unfold Context.writeTypeMaybe Context.writeType typeSuffix
  split
  · cases v <;> simp [Value.typeTag, Context.writeString, String.append_assoc]
  · simp [Context.writeString]

theorem writeString_writeString (c : Context) (s t : String) :
    (c.writeString s).writeString t = c.writeString (s ++ t) := by
  simp [Context.writeString, String.append_assoc]

theorem writeValue_compact (v : Value) (c : Context) :
    writeValue v false c = c.writeString (c.compact v ++ c.typeSuffix v) := by
  rw [writeValue_eq_writeBare, writeTypeMaybe_eq]
  have h : c.writeBare v false = c.writeString (c.compact v) := by
    cases v <;> rfl
  have h2 : (c.writeBare v false).typeSuffix v = c.typeSuffix v := by
    unfold typeSuffix; rw [writeBare_opts]
  rw [h2, h, writeString_writeString]

theorem newline_eq (c : Context) (s : String) :
    c.newline s =
      { c with
        buf := c.buf ++ s ++ c.lastEnd ++ "\n" ++ c.opts.Prefix ++ c.indentation ++ c.lastBegin
        trace := c.trace ++ (match c.lastTag with
          | some t => [Event.closed t, Event.lineBreak, Event.opened t]
          | none => [Event.lineBreak]) } := by
  unfold Context.newline writeIndent writeLastTagBegin writeLastTagEnd lastEnd lastBegin
    indentation
  cases h : c.lastTag <;> simp [Context.writeString, Context.log, h]

theorem tag_of_open (c : Context) (t : Span) (h : c.lastTag = some t) : c.tag t = c := by
  unfold Context.tag; rw [if_pos h]

theorem tag_eq_of_ne (c : Context) (t : Span) (h : c.lastTag ≠ some t) :
    c.tag t =
      { c with
        buf := c.buf ++ c.lastEnd ++ (c.opts.tagOf t).Begin
        lastTag := some t
        trace := c.trace ++ (match c.lastTag with
          | some s => [Event.closed s, Event.opened t]
          | none => [Event.opened t]) } := by
  unfold Context.tag writeLastTagEnd lastEnd
  rw [if_neg h]
  cases h1 : c.lastTag <;> simp [Context.writeString, Context.log]

theorem tag_tag (c : Context) (t : Span) : (c.tag t).tag t = c.tag t :=
  tag_of_open _ _ (tag_lastTag c t)

theorem result_eq_max (c : Context) (d : Difference) (hc : okDiff c.diff) (hd : okDiff d) :
    (c.result d).diff = max c.diff d := by
  unfold okDiff at hc hd
  unfold Context.result
  simp only [FullMatch, SupersetMatch, NoMatch] at *
  rcases hc with h | h | h <;> rcases hd with g | g | g <;> simp [h, g]

end Context

/-! ## The rendering of a mismatch -/

theorem sameLeaf_false_of_mismatch (a b : Value) (h : Mismatch a b) : sameLeaf a b = false := by
  rcases h with h | ⟨_, _, h⟩
  · cases a <;> cases b <;> simp_all [sameLeaf, Value.jsonKind]
  · cases a <;> cases b <;> simp_all [sameLeaf]

theorem not_both_array_of_mismatch (a b : Value) (h : Mismatch a b) :
    ∀ sa sb, a = .array sa → b ≠ .array sb := by
  intro sa sb ha hb
  subst ha; subst hb
  rcases h with h | ⟨h, _, _⟩
  · exact h rfl
  · simp [Value.isScalar] at h

theorem not_both_object_of_mismatch (a b : Value) (h : Mismatch a b) :
    ∀ ma mb, a = .object ma → b ≠ .object mb := by
  intro ma mb ha hb
  subst ha; subst hb
  rcases h with h | ⟨h, _, _⟩
  · exact h rfl
  · simp [Value.isScalar] at h

namespace Context

theorem typeSuffix_of_opts (c d : Context) (v : Value) (h : d.opts = c.opts) :
    d.typeSuffix v = c.typeSuffix v := by
  unfold typeSuffix; rw [h]

theorem compact_of_opts (c d : Context) (v : Value) (h : d.opts = c.opts) :
    d.compact v = c.compact v := by
  cases v <;> simp [compact, Context.quote, Context.Output, h, jsonQuote, yamlQuote]

theorem printMismatch_eq (c : Context) (a b : Value) :
    c.printMismatch a b = (c.tag .Changed).writeString
      (c.compact a ++ c.typeSuffix a ++ " => " ++ c.compact b ++ c.typeSuffix b) := by
  unfold printMismatch writeMismatch
  simp only [writeValue_compact, writeString_writeString]
  rw [compact_of_opts c ((c.tag .Changed).writeString _) b (by simp),
    typeSuffix_of_opts c ((c.tag .Changed).writeString _) b (by simp),
    compact_of_opts c (c.tag .Changed) a (by simp),
    typeSuffix_of_opts c (c.tag .Changed) a (by simp)]
  simp [String.append_assoc]

theorem printDiff_of_mismatch (a b : Value) (c : Context) (h : Mismatch a b) :
    printDiff a b c = ((c.tag .Changed).writeString
      (c.compact a ++ c.typeSuffix a ++ " => " ++ c.compact b ++ c.typeSuffix b)).result
        NoMatch := by
  rw [printDiff_leaf a b c (not_both_array_of_mismatch a b h)
    (not_both_object_of_mismatch a b h), sameLeaf_false_of_mismatch a b h, printMismatch_eq]
  simp

theorem printDiff_null_null (c : Context) :
    printDiff .null .null c =
      ((c.tag .Normal).writeString ("null" ++ c.typeSuffix .null)).result FullMatch := by
  rw [printDiff_leaf .null .null c (by simp) (by simp)]
  simp only [sameLeaf, if_true]
  rw [writeValue_eq_writeBare, writeTypeMaybe_eq]
  simp only [writeBare, writeString_writeString]
  rw [typeSuffix_of_opts c ((c.tag .Normal).writeString "null") .null (by simp)]

theorem result_noMatch_diff (c : Context) : (c.result NoMatch).diff = NoMatch := by
  unfold Context.result; simp

theorem tag_trace_lineBreak (c : Context) (t : Span) :
    Event.lineBreak ∈ (c.tag t).trace ↔ Event.lineBreak ∈ c.trace := by
  unfold Context.tag writeLastTagEnd
  split
  · rfl
  · split <;> simp [Context.log]

end Context

/-! ## The key union is in ascending order -/

theorem stringLess_iff (a b : String) : stringLess a b = true ↔ a < b := by
  unfold stringLess
  rw [decide_eq_true_iff, String.lt_iff_toList_lt]
  rfl

theorem insertString_eq_orderedInsert (k : String) (l : List String) :
    insertString k l = List.orderedInsert (· ≤ ·) k l := by
  induction l with
  | nil => rfl
  | cons x xs ih =>
    simp only [insertString, List.orderedInsert]
    by_cases h : stringLess x k = true
    · have h1 : ¬ k ≤ x := not_le.2 ((stringLess_iff x k).1 h)
      rw [if_pos h, if_neg h1, ih]
    · have h1 : k ≤ x := not_lt.1 (fun hlt => h ((stringLess_iff x k).2 hlt))
      rw [if_neg h, if_pos h1]

theorem sortStrings_eq_insertionSort (l : List String) :
    sortStrings l = List.insertionSort (· ≤ ·) l := by
  induction l with
  | nil => rfl
  | cons x xs ih =>
    have : sortStrings (x :: xs) = insertString x (sortStrings xs) := rfl
    rw [this, ih, insertString_eq_orderedInsert]
    rfl

theorem ascending_unionKeys (ma mb : List (String × Value)) : Ascending (unionKeys ma mb) := by
  unfold Ascending unionKeys
  rw [sortStrings_eq_insertionSort]
  have hs : List.Sorted (· ≤ ·) (List.insertionSort (· ≤ ·)
      ((ma.map Prod.fst ++ mb.map Prod.fst).dedup)) := List.sorted_insertionSort _ _
  have hn : (List.insertionSort (· ≤ ·) ((ma.map Prod.fst ++ mb.map Prod.fst).dedup)).Nodup :=
    (List.perm_insertionSort _ _).nodup_iff.2 (List.nodup_dedup _)
  have hlt := hs.lt_of_le hn
  exact List.Pairwise.imp (fun h => (stringLess_iff _ _).2 h) hlt

theorem nodup_unionKeys (ma mb : List (String × Value)) : (unionKeys ma mb).Nodup := by
  unfold unionKeys
  rw [sortStrings_eq_insertionSort]
  exact (List.perm_insertionSort _ _).nodup_iff.2 (List.nodup_dedup _)

/-! ## Invariants kept by every step of the traversal -/

theorem entriesOK_lookup {A : String → Prop} {o : Options} :
    ∀ (m : List (String × Value)) (k : String) (v : Value), entriesOK A o m →
      m.lookup k = some v → v.TextsOK A o ∧ A (o.quote k)
  | [], k, v, _, h => by simp at h
  | (k1, v1) :: m, k, v, hm, h => by
    rw [entriesOK] at hm
    by_cases hk : k = k1
    · subst hk
      rw [Context.lookup_cons_eq] at h
      cases h
      exact ⟨hm.2.1, hm.1⟩
    · rw [Context.lookup_cons_ne k k1 v1 m hk] at h
      exact entriesOK_lookup m k v hm.2.2 h

theorem itemsOK_cons {A : String → Prop} {o : Options} (v : Value) (vv : List Value) :
    itemsOK A o (v :: vv) ↔ v.TextsOK A o ∧ itemsOK A o vv := by
  rw [itemsOK]

namespace Context

theorem quote_eq (c : Context) (s : String) : c.quote s = c.opts.quote s := rfl

section StepInv

set_option linter.unusedSectionVars false

variable {o : Options} {A : String → Prop} {J : Context → Prop} (hJ : StepInv o A J)
  (hA : ∀ s ∈ tokens, A s)
include hJ hA

theorem StepInv.step_key {c : Context} (k : String) (hk : A (o.quote k)) (h : J c) :
    J (c.key k) := by
  unfold Context.key
  refine hJ.write _ _ (hA _ (by decide)) (hJ.write _ _ ?_ h)
  rw [quote_eq, hJ.opts c h]; exact hk

theorem StepInv.step_writeTypeMaybe {c : Context} (v : Value) (h : J c) :
    J (c.writeTypeMaybe v) := by
  unfold Context.writeTypeMaybe Context.writeType
  split
  · cases v <;>
      exact hJ.write _ _ (hA _ (by decide)) (hJ.write _ _ (hA _ (by decide)) h)
  · exact h

theorem StepInv.step_jsonWriteEndOfItem {c : Context} (i len : Int) (h : J c) :
    J (c.jsonWriteEndOfItem i len) := by
  unfold Context.jsonWriteEndOfItem
  split
  · exact hJ.newline _ _ (hA _ (by decide)) h
  · exact hJ.newline _ _ (hA _ (by decide)) (hJ.level _ _ h)

theorem StepInv.step_yamlWriteEndOfItem {c : Context} (i len : Int) (h : J c) :
    J (c.yamlWriteEndOfItem i len) := by
  unfold Context.yamlWriteEndOfItem
  split
  · exact hJ.newline _ _ (hA _ (by decide)) h
  · exact hJ.level _ _ h

theorem StepInv.step_writeEndOfItem {c : Context} (i len : Int) (h : J c) :
    J (c.writeEndOfItem i len) := by
  unfold Context.writeEndOfItem
  split
  · exact hJ.step_jsonWriteEndOfItem hA _ _ h
  · split
    · exact hJ.step_yamlWriteEndOfItem hA _ _ h
    · exact h

theorem StepInv.step_writeStartListItem {c : Context} (h : J c) : J c.writeStartListItem := by
  unfold Context.writeStartListItem jsonWriteStartListItem yamlWriteStartListItem
  split
  · exact h
  · split
    · exact hJ.write _ _ (hA _ (by decide)) h
    · exact h

theorem StepInv.step_writeListItem {c : Context} (i len : Int) (wv : Context → Context)
    (hw : ∀ e, J e → J (wv e)) (h : J c) : J (c.writeListItem i wv len) := by
  unfold Context.writeListItem jsonWriteListItem yamlWriteListItem
  split
  · exact hJ.step_jsonWriteEndOfItem hA _ _ (hw _ h)
  · split
    · dsimp only
      split
      · exact hJ.newline _ _ (hA _ (by decide)) (hw _ (hJ.write _ _ (hA _ (by decide)) h))
      · exact hJ.level _ _ (hw _ (hJ.write _ _ (hA _ (by decide)) h))
    · exact h

theorem StepInv.step_writeMapItem {c : Context} (i len : Int) (k : String)
    (wv : Context → Context) (hk : A (o.quote k)) (hw : ∀ e, J e → J (wv e)) (h : J c) :
    J (c.writeMapItem i k wv len) := by
  unfold Context.writeMapItem jsonWriteMapItem yamlWriteMapItem
  split
  · exact hJ.step_jsonWriteEndOfItem hA _ _ (hw _ (hJ.step_key hA k hk h))
  · split
    · dsimp only
      split
      · exact hJ.newline _ _ (hA _ (by decide)) (hw _ (hJ.step_key hA k hk h))
      · exact hw _ (hJ.step_key hA k hk h)
    · exact h

theorem StepInv.step_writeStartList {c : Context} (h : J c) : J c.writeStartList := by
  unfold Context.writeStartList jsonWriteStartList yamlWriteStartList
  split
  · exact hJ.newline _ _ (hA _ (by decide)) (hJ.level _ _ h)
  · split
    · exact hJ.newline _ _ (hA _ (by decide)) h
    · exact h

theorem StepInv.step_writeEndList {c : Context} (h : J c) : J c.writeEndList := by
  unfold Context.writeEndList jsonWriteEndList yamlWriteEndList
  split
  · exact hJ.write _ _ (hA _ (by decide)) h
  · split <;> exact h

theorem StepInv.step_writeStartMap {c : Context} (h : J c) : J c.writeStartMap := by
  unfold Context.writeStartMap jsonWriteStartMap yamlWriteStartMap
  split
  · exact hJ.newline _ _ (hA _ (by decide)) (hJ.level _ _ h)
  · split
    · exact hJ.newline _ _ (hA _ (by decide)) (hJ.level _ _ h)
    · exact h

theorem StepInv.step_writeEndMap {c : Context} (h : J c) : J c.writeEndMap := by
  unfold Context.writeEndMap jsonWriteEndMap yamlWriteEndMap
  split
  · exact hJ.write _ _ (hA _ (by decide)) h
  · split <;> exact h

theorem StepInv.step_formatBool (b : Bool) : A (formatBool b) := by
  cases b
  · exact hA _ (by decide)
  · exact hA _ (by decide)

mutual
theorem StepInv.step_writeValue : ∀ (v : Value) (full : Bool) (c : Context),
    v.TextsOK A o → J c → J (writeValue v full c)
  | .null, _, c, _, h => by
    rw [Context.writeValue]
    exact hJ.step_writeTypeMaybe hA _ (hJ.write _ _ (hA _ (by decide)) h)
  | .bool b, _, c, _, h => by
    rw [Context.writeValue]
    exact hJ.step_writeTypeMaybe hA _ (hJ.write _ _ (hJ.step_formatBool hA b) h)
  | .number t, _, c, ht, h => by
    rw [Context.writeValue]
    rw [Value.TextsOK] at ht
    exact hJ.step_writeTypeMaybe hA _ (hJ.write _ _ ht h)
  | .string s, _, c, hs, h => by
    rw [Context.writeValue]
    rw [Value.TextsOK] at hs
    refine hJ.step_writeTypeMaybe hA _ (hJ.write _ _ ?_ h)
    rw [quote_eq, hJ.opts c h]; exact hs
  | .array vv, full, c, hv, h => by
    rw [Context.writeValue]
    rw [Value.TextsOK] at hv
    refine hJ.step_writeTypeMaybe hA _ ?_
    split
    · split
      · exact hJ.write _ _ (hA _ (by decide)) h
      · exact hJ.step_writeEndList hA
          (StepInv.step_writeListItems vv 0 _ _ hv (hJ.step_writeStartList hA h))
    · exact hJ.write _ _ (hA _ (by decide)) h
  | .object vv, full, c, hv, h => by
    rw [Context.writeValue]
    rw [Value.TextsOK] at hv
    refine hJ.step_writeTypeMaybe hA _ ?_
    split
    · split
      · exact hJ.write _ _ (hA _ (by decide)) h
      · exact hJ.step_writeEndMap hA
          (StepInv.step_writeMapItems vv 0 _ _ hv (hJ.step_writeStartMap hA h))
    · exact hJ.write _ _ (hA _ (by decide)) h
theorem StepInv.step_writeListItems : ∀ (vv : List Value) (i len : Int) (c : Context),
    itemsOK A o vv → J c → J (writeListItems vv i len c)
  | [], _, _, c, _, h => by rw [Context.writeListItems]; exact h
  | v :: rest, i, len, c, hv, h => by
    rw [Context.writeListItems]
    rw [itemsOK] at hv
    exact StepInv.step_writeListItems rest _ _ _ hv.2
      (hJ.step_writeListItem hA i len _ (fun e he => StepInv.step_writeValue v true e hv.1 he) h)
theorem StepInv.step_writeMapItems : ∀ (vv : List (String × Value)) (i len : Int)
    (c : Context), entriesOK A o vv → J c → J (writeMapItems vv i len c)
  | [], _, _, c, _, h => by rw [Context.writeMapItems]; exact h
  | (k, v) :: rest, i, len, c, hv, h => by
    rw [Context.writeMapItems]
    rw [entriesOK] at hv
    exact StepInv.step_writeMapItems rest _ _ _ hv.2.2
      (hJ.step_writeMapItem hA i len k _ hv.1
        (fun e he => StepInv.step_writeValue v true e hv.2.1 he) h)
end

theorem StepInv.step_same (a : Value) (full : Bool) (c : Context) (ha : a.TextsOK A o)
    (h : J c) : J ((writeValue a full (c.tag .Normal)).result FullMatch) :=
  hJ.result _ _ (hJ.step_writeValue hA a full _ ha (hJ.tag _ _ h))

theorem StepInv.step_mismatch (a b : Value) (c : Context) (ha : a.TextsOK A o)
    (hb : b.TextsOK A o) (h : J c) : J ((c.printMismatch a b).result NoMatch) := by
  unfold printMismatch writeMismatch
  exact hJ.result _ _ (hJ.step_writeValue hA b false _ hb (hJ.write _ _ (hA _ (by decide))
    (hJ.step_writeValue hA a false _ ha (hJ.tag _ _ h))))

theorem StepInv.step_leaf (a b : Value) (c : Context) (ha : a.TextsOK A o)
    (hb : b.TextsOK A o) (h : J c)
    (harr : ∀ sa sb, a = .array sa → b ≠ .array sb)
    (hobj : ∀ ma mb, a = .object ma → b ≠ .object mb) : J (printDiff a b c) := by
  rw [printDiff_leaf a b c harr hobj]
  split
  · exact hJ.step_same hA a true c ha h
  · exact hJ.step_mismatch hA a b c ha hb h

theorem StepInv.step_endItem (c : Context) (i len : Int) (h : J c) :
    J ((c.tag .Normal).writeEndOfItem i len) :=
  hJ.step_writeEndOfItem hA i len (hJ.tag _ _ h)

theorem StepInv.step_printRemovedItems : ∀ (sa : List Value) (i max : Int) (c : Context),
    itemsOK A o sa → J c → J (printRemovedItems sa i max c)
  | [], _, _, c, _, h => by rw [Context.printRemovedItems]; exact h
  | x :: sa, i, max, c, hs, h => by
    rw [Context.printRemovedItems]
    rw [itemsOK] at hs
    exact StepInv.step_printRemovedItems sa (i + 1) max _ hs.2 (hJ.step_endItem hA _ i max
      (hJ.result _ _ (hJ.step_writeValue hA x true _ hs.1
        (hJ.tag _ _ (hJ.step_writeStartListItem hA h)))))

theorem StepInv.step_printAddedItems : ∀ (sb : List Value) (i max : Int) (c : Context),
    itemsOK A o sb → J c → J (printAddedItems sb i max c)
  | [], _, _, c, _, h => by rw [Context.printAddedItems]; exact h
  | y :: sb, i, max, c, hs, h => by
    rw [Context.printAddedItems]
    rw [itemsOK] at hs
    exact StepInv.step_printAddedItems sb (i + 1) max _ hs.2 (hJ.step_endItem hA _ i max
      (hJ.result _ _ (hJ.step_writeValue hA y true _ hs.1
        (hJ.tag _ _ (hJ.step_writeStartListItem hA h)))))

mutual

theorem StepInv.step_printDiff : ∀ (a b : Value) (c : Context), a.TextsOK A o →
    b.TextsOK A o → J c → J (printDiff a b c)
  | .array sa, b, c, ha, hb, h => by
    cases b with
    | array sb =>
      rw [printDiff_array]
      rw [Value.TextsOK] at ha hb
      split
      · exact hJ.step_writeTypeMaybe hA _ (hJ.write _ _ (hA _ (by decide)) (hJ.tag _ _ h))
      · exact hJ.step_writeTypeMaybe hA _ (hJ.step_writeEndList hA
          (StepInv.step_printSliceItems sa sb 0 (maxLen sa sb) _ ha hb
            (hJ.step_writeStartList hA (hJ.tag _ _ h))))
    | _ => exact hJ.step_leaf hA _ _ c ha hb h (by simp) (by simp)
  | .object ma, b, c, ha, hb, h => by
    cases b with
    | object mb =>
      rw [printDiff_object]
      rw [Value.TextsOK] at ha hb
      split
      · exact hJ.step_writeTypeMaybe hA _ (hJ.write _ _ (hA _ (by decide)) (hJ.tag _ _ h))
      · refine hJ.step_writeTypeMaybe hA _ (hJ.step_writeEndMap hA
          (forKeys_inv (printMapItem ma mb (unionKeys ma mb).length) ?_ (unionKeys ma mb) 0 _
            (hJ.step_writeStartMap hA (hJ.tag _ _ h))))
        intro i k d hd
        unfold printMapItem
        refine hJ.step_endItem hA _ _ _ ?_
        cases hla : ma.lookup k with
        | none =>
          cases hlb : mb.lookup k with
          | none => exact hd
          | some vb =>
            have hk := entriesOK_lookup mb k vb hb hlb
            exact hJ.result _ _ (hJ.step_writeValue hA vb true _ hk.1
              (hJ.step_key hA k hk.2 (hJ.tag _ _ hd)))
        | some va =>
          have hk := entriesOK_lookup ma k va ha hla
          cases hlb : mb.lookup k with
          | none =>
            exact hJ.result _ _ (hJ.step_writeValue hA va true _ hk.1
              (hJ.step_key hA k hk.2 (hJ.tag _ _ hd)))
          | some vb =>
            exact StepInv.step_printDiffAt ma k vb _ ha (entriesOK_lookup mb k vb hb hlb).1
              (hJ.step_key hA k hk.2 hd)
    | _ => exact hJ.step_leaf hA _ _ c ha hb h (by simp) (by simp)
  | .null, b, c, ha, hb, h => hJ.step_leaf hA _ _ c ha hb h (by simp) (by simp)
  | .bool _, b, c, ha, hb, h => hJ.step_leaf hA _ _ c ha hb h (by simp) (by simp)
  | .number _, b, c, ha, hb, h => hJ.step_leaf hA _ _ c ha hb h (by simp) (by simp)
  | .string _, b, c, ha, hb, h => hJ.step_leaf hA _ _ c ha hb h (by simp) (by simp)

theorem StepInv.step_printSliceItems : ∀ (sa sb : List Value) (i max : Int) (c : Context),
    itemsOK A o sa → itemsOK A o sb → J c → J (printSliceItems sa sb i max c)
  | x :: sa, y :: sb, i, max, c, ha, hb, h => by
    rw [Context.printSliceItems]
    rw [itemsOK] at ha hb
    exact StepInv.step_printSliceItems sa sb (i + 1) max _ ha.2 hb.2 (hJ.step_endItem hA _ i max
      (StepInv.step_printDiff x y _ ha.1 hb.1 (hJ.step_writeStartListItem hA h)))
  | x :: sa, [], i, max, c, ha, _, h => by
    rw [Context.printSliceItems]
    exact hJ.step_printRemovedItems hA (x :: sa) i max c ha h
  | [], sb, i, max, c, _, hb, h => by
    rw [Context.printSliceItems]
    exact hJ.step_printAddedItems hA sb i max c hb h

theorem StepInv.step_printDiffAt : ∀ (ma : List (String × Value)) (k : String) (vb : Value)
    (c : Context), entriesOK A o ma → vb.TextsOK A o → J c → J (printDiffAt ma k vb c)
  | [], k, vb, c, _, _, h => by rw [Context.printDiffAt]; exact h
  | (k1, v) :: ma, k, vb, c, ha, hb, h => by
    rw [Context.printDiffAt]
    rw [entriesOK] at ha
    split
    · exact StepInv.step_printDiff v vb c ha.2.1 hb h
    · exact StepInv.step_printDiffAt ma k vb c ha.2.2 hb h

end

end StepInv

end Context

/-! ## Every line after the first starts with the prefix -/

theorem noLineFeed_append {s t : String} (hs : NoLineFeed s) (ht : NoLineFeed t) :
    NoLineFeed (s ++ t) := by
  unfold NoLineFeed at *
  simp only [String.data_append, List.mem_append, not_or]
  exact ⟨hs, ht⟩

theorem noLineFeed_empty : NoLineFeed "" := by decide

theorem noLineFeed_join_replicate (n : Nat) {s : String} (hs : NoLineFeed s) :
    NoLineFeed (String.join (List.replicate n s)) := by
  have key : ∀ (l : List String) (acc : String), (∀ x ∈ l, NoLineFeed x) → NoLineFeed acc →
      NoLineFeed (l.foldl (fun r x => r ++ x) acc) := by
    intro l
    induction l with
    | nil => intro acc _ h; exact h
    | cons x xs ih =>
      intro acc hx h
      exact ih _ (fun y hy => hx y (List.mem_cons_of_mem _ hy))
        (noLineFeed_append h (hx x (List.mem_cons_self _ _)))
  exact key _ _ (fun x hx => by rw [List.eq_of_mem_replicate hx]; exact hs) noLineFeed_empty

theorem lineStarts_empty (p : String) : LineStarts p "" := by
  intro l r h
  simp at h

theorem lineStarts_append {p s t : String} (hs : LineStarts p s) (ht : NoLineFeed t) :
    LineStarts p (s ++ t) := by
  intro l r h
  rw [String.data_append, List.append_eq_append_iff] at h
  rcases h with ⟨a, _, h2⟩ | ⟨c, h1, h2⟩
  · exfalso
    apply ht
    rw [h2]
    simp
  · cases c with
    | nil =>
      exfalso
      apply ht
      simp only [List.nil_append] at h2
      rw [← h2]; simp
    | cons x xs =>
      simp only [List.cons_append, List.cons.injEq] at h2
      obtain ⟨hx, h3⟩ := h2
      subst hx
      have := hs l xs h1
      rw [h3]
      exact this.trans (List.prefix_append _ _)

theorem lineStarts_break {p s t : String} (hs : LineStarts p s) (hp : NoLineFeed p)
    (ht : NoLineFeed t) : LineStarts p (s ++ "\n" ++ p ++ t) := by
  intro l r h
  have hpt : NoLineFeed (p ++ t) := noLineFeed_append hp ht
  have hd : (s ++ "\n" ++ p ++ t).data = s.data ++ '\n' :: (p.data ++ t.data) := by
    simp [String.data_append]
  rw [hd, List.append_eq_append_iff] at h
  rcases h with ⟨a, h1, h2⟩ | ⟨c, h1, h2⟩
  · cases a with
    | nil =>
      simp only [List.nil_append, List.cons.injEq, true_and] at h2
      rw [← h2]
      exact List.prefix_append _ _
    | cons x xs =>
      exfalso
      simp only [List.cons_append, List.cons.injEq] at h2
      apply hpt
      rw [String.data_append, h2.2]
      simp
  · cases c with
    | nil =>
      simp only [List.nil_append, List.cons.injEq, true_and] at h2
      rw [h2]
      exact List.prefix_append _ _
    | cons x xs =>
      simp only [List.cons_append, List.cons.injEq] at h2
      obtain ⟨hx, h3⟩ := h2
      subst hx
      have := hs l xs h1
      rw [h3]
      exact this.trans (List.prefix_append _ _)

namespace Context

theorem noLineFeed_lastEnd (c : Context) (h : c.opts.NoLineFeeds) : NoLineFeed c.lastEnd := by
  unfold lastEnd
  split
  · exact (h.2.2 _).2
  · exact noLineFeed_empty

theorem noLineFeed_lastBegin (c : Context) (h : c.opts.NoLineFeeds) :
    NoLineFeed c.lastBegin := by
  unfold lastBegin
  split
  · exact (h.2.2 _).1
  · exact noLineFeed_empty

theorem linesInv_stepInv (o : Options) (ho : o.NoLineFeeds) :
    StepInv o NoLineFeed (LinesInv o) where
  opts := fun _ h => h.1
  write := fun c s hs h => ⟨h.1, lineStarts_append h.2 hs⟩
  newline := fun c s hs h => by
    refine ⟨by rw [newline_opts]; exact h.1, ?_⟩
    have ho1 : c.opts.NoLineFeeds := by rw [h.1]; exact ho
    rw [newline_eq]
    have e : c.buf ++ s ++ c.lastEnd ++ "\n" ++ c.opts.Prefix ++ c.indentation ++ c.lastBegin =
        (c.buf ++ (s ++ c.lastEnd)) ++ "\n" ++ o.Prefix ++ (c.indentation ++ c.lastBegin) := by
      rw [h.1]; simp [String.append_assoc]
    show LineStarts o.Prefix (c.buf ++ s ++ c.lastEnd ++ "\n" ++ c.opts.Prefix ++
      c.indentation ++ c.lastBegin)
    rw [e]
    refine lineStarts_break (lineStarts_append h.2 (noLineFeed_append hs
      (noLineFeed_lastEnd c ho1))) ho.1 (noLineFeed_append ?_ (noLineFeed_lastBegin c ho1))
    unfold indentation
    exact noLineFeed_join_replicate _ ho1.2.1
  level := fun c l h => h
  tag := fun c t h => by
    by_cases hc : c.lastTag = some t
    · rw [tag_of_open c t hc]; exact h
    · refine ⟨by rw [tag_opts]; exact h.1, ?_⟩
      have ho1 : c.opts.NoLineFeeds := by rw [h.1]; exact ho
      rw [tag_eq_of_ne c t hc]
      exact lineStarts_append (lineStarts_append h.2 (noLineFeed_lastEnd c ho1)) (ho1.2.2 t).1
  result := fun c d h => ⟨by rw [result_opts]; exact h.1, by rw [result_buf]; exact h.2⟩

theorem noLineFeed_tokens : ∀ s ∈ tokens, NoLineFeed s := by decide

theorem linesInv_printDiff (a b : Value) (o : Options) (ho : o.NoLineFeeds)
    (ha : a.TextsOK NoLineFeed o) (hb : b.TextsOK NoLineFeed o) :
    LinesInv o (printDiff a b (newContext o)) :=
  (linesInv_stepInv o ho).step_printDiff noLineFeed_tokens a b _ ha hb
    ⟨rfl, lineStarts_empty _⟩

end Context

theorem lineStarts_compare (a b : Value) (o : Options) (ho : o.NoLineFeeds)
    (ha : a.TextsOK NoLineFeed (defaultOutput o)) (hb : b.TextsOK NoLineFeed (defaultOutput o)) :
    LineStarts o.Prefix (Compare (some a) (some b) o).2 := by
  have hd : (defaultOutput o).NoLineFeeds := by
    unfold defaultOutput; split
    · exact ho
    · exact ho
  have hp : (defaultOutput o).Prefix = o.Prefix := by
    unfold defaultOutput; split <;> rfl
  rw [compare_some]
  have h := Context.linesInv_printDiff a b (defaultOutput o) hd ha hb
  have h2 : (printDiff a b (newContext (defaultOutput o))).opts.NoLineFeeds := by
    rw [h.1]; exact hd
  rw [← hp]
  show LineStarts _ (printDiff a b (newContext (defaultOutput o))).writeLastTagEnd.buf
  unfold Context.writeLastTagEnd
  split
  · exact lineStarts_append h.2 (h2.2.2 _).2
  · exact h.2

theorem ofNat_ne_lineFeed (m : Nat) (h : m ≠ 10) : Char.ofNat m ≠ '\n' := by
  intro e
  have h1 : (Char.ofNat m).toNat = 10 := by rw [e]; rfl
  by_cases hv : m.isValidChar
  · rw [Char.ofNat, dif_pos hv] at h1
    exact h h1
  · rw [Char.ofNat, dif_neg hv] at h1
    exact absurd h1 (by decide)

theorem hexDigit_ne_lineFeed (n : Nat) : hexDigit n ≠ '\n' := by
  unfold hexDigit
  split
  · exact ofNat_ne_lineFeed _ (by omega)
  · exact ofNat_ne_lineFeed _ (by omega)

theorem noLineFeed_singleton {c : Char} (h : c ≠ '\n') : NoLineFeed (String.singleton c) := by
  unfold NoLineFeed
  simp [String.singleton, String.push]
  exact fun e => h e.symm

theorem noLineFeed_quoteRune (c : Char) : NoLineFeed (quoteRune c) := by
  unfold quoteRune
  split
  · decide
  split
  · decide
  split
  · rename_i h
    apply noLineFeed_singleton
    intro e
    rw [e] at h
    exact absurd h.1 (by decide)
  split
  · decide
  split
  · decide
  split
  · decide
  split
  · decide
  split
  · decide
  split
  · decide
  split
  · decide
  exact noLineFeed_append (noLineFeed_append (by decide)
    (noLineFeed_singleton (hexDigit_ne_lineFeed _))) (noLineFeed_singleton (hexDigit_ne_lineFeed _))

theorem noLineFeed_join (l : List String) (h : ∀ x ∈ l, NoLineFeed x) :
    NoLineFeed (String.join l) := by
  have key : ∀ (l : List String) (acc : String), (∀ x ∈ l, NoLineFeed x) → NoLineFeed acc →
      NoLineFeed (l.foldl (fun r x => r ++ x) acc) := by
    intro l
    induction l with
    | nil => intro acc _ h; exact h
    | cons x xs ih =>
      intro acc hx h
      exact ih _ (fun y hy => hx y (List.mem_cons_of_mem _ hy))
        (noLineFeed_append h (hx x (List.mem_cons_self _ _)))
  exact key l _ h noLineFeed_empty

theorem noLineFeed_strconvQuote (s : String) : NoLineFeed (strconvQuote s) := by
  unfold strconvQuote
  refine noLineFeed_append (noLineFeed_append (by decide) (noLineFeed_join _ ?_)) (by decide)
  intro x hx
  obtain ⟨c, _, rfl⟩ := List.mem_map.1 hx
  exact noLineFeed_quoteRune c

/-! ## The outcomes recorded by the traversal -/

theorem outcomes_array (sa sb : List Value) :
    outcomes (.array sa) (.array sb) = outcomesItems sa sb := by
  rw [outcomes]

theorem outcomes_object (ma mb : List (String × Value)) :
    outcomes (.object ma) (.object mb) =
      outcomesKeys (outcomesEntry ma mb) (unionKeys ma mb) := by
  rw [outcomes]; rfl

theorem outcomes_leaf (a b : Value)
    (harr : ∀ sa sb, a = .array sa → b ≠ .array sb)
    (hobj : ∀ ma mb, a = .object ma → b ≠ .object mb) :
    outcomes a b = if sameLeaf a b then [FullMatch] else [NoMatch] := by
  cases a with
  | array sa =>
    cases b with
    | array sb => exact absurd rfl (harr sa sb rfl)
    | _ => simp [outcomes, sameLeaf]
  | object ma =>
    cases b with
    | object mb => exact absurd rfl (hobj ma mb rfl)
    | _ => simp [outcomes, sameLeaf]
  | _ => simp [outcomes]

theorem resultDiff_eq_max (c d : Difference) (hc : okDiff c) (hd : okDiff d) :
    resultDiff c d = max c d := by
  unfold okDiff at hc hd
  unfold resultDiff
  simp only [FullMatch, SupersetMatch, NoMatch] at *
  rcases hc with h | h | h <;> rcases hd with g | g | g <;> simp [h, g]

theorem okDiff_max (c d : Difference) (hc : okDiff c) (hd : okDiff d) : okDiff (max c d) := by
  rcases max_choice c d with h | h <;> rw [h] <;> assumption

theorem foldl_resultDiff_eq_max (l : List Difference) (hl : ∀ d ∈ l, okDiff d) :
    ∀ c, okDiff c → l.foldl resultDiff c = l.foldl max c := by
  induction l with
  | nil => intro c _; rfl
  | cons d l ih =>
    intro c hc
    have hd := hl d (List.mem_cons_self _ _)
    simp only [List.foldl_cons]
    rw [resultDiff_eq_max c d hc hd]
    exact ih (fun x hx => hl x (List.mem_cons_of_mem _ hx)) _ (okDiff_max c d hc hd)

theorem okDiff_outcomes_leaf (a b : Value)
    (harr : ∀ sa sb, a = .array sa → b ≠ .array sb)
    (hobj : ∀ ma mb, a = .object ma → b ≠ .object mb) :
    ∀ d ∈ outcomes a b, okDiff d := by
  intro d hd
  rw [outcomes_leaf a b harr hobj] at hd
  by_cases h : sameLeaf a b = true
  · rw [if_pos h] at hd
    simp at hd
    rw [hd]; exact Or.inl rfl
  · rw [if_neg h] at hd
    simp at hd
    rw [hd]; exact Or.inr (Or.inr rfl)

theorem okDiff_outcomesKeys (f : String → List Difference) (keys : List String)
    (h : ∀ k, ∀ d ∈ f k, okDiff d) : ∀ d ∈ outcomesKeys f keys, okDiff d := by
  induction keys with
  | nil => intro d hd; simp [outcomesKeys] at hd
  | cons k keys ih =>
    intro d hd
    rw [outcomesKeys, List.mem_append] at hd
    rcases hd with hd | hd
    · exact h k d hd
    · exact ih d hd

mutual

theorem okDiff_outcomes : ∀ (a b : Value), ∀ d ∈ outcomes a b, okDiff d
  | .array sa, b => by
    cases b with
    | array sb => rw [outcomes_array]; exact okDiff_outcomesItems sa sb
    | _ => exact okDiff_outcomes_leaf _ _ (by simp) (by simp)
  | .object ma, b => by
    cases b with
    | object mb =>
      rw [outcomes_object]
      apply okDiff_outcomesKeys
      intro k d hd
      unfold outcomesEntry at hd
      cases ha : ma.lookup k with
      | none =>
        cases hb : mb.lookup k with
        | none => simp [ha, hb] at hd
        | some vb =>
          simp [ha, hb] at hd
          rw [hd]; exact Or.inr (Or.inr rfl)
      | some va =>
        cases hb : mb.lookup k with
        | none =>
          simp [ha, hb] at hd
          rw [hd]; exact Or.inr (Or.inl rfl)
        | some vb =>
          simp only [ha, hb] at hd
          exact okDiff_outcomesAt ma k vb d hd
    | _ => exact okDiff_outcomes_leaf _ _ (by simp) (by simp)
  | .null, b => okDiff_outcomes_leaf _ _ (by simp) (by simp)
  | .bool _, b => okDiff_outcomes_leaf _ _ (by simp) (by simp)
  | .number _, b => okDiff_outcomes_leaf _ _ (by simp) (by simp)
  | .string _, b => okDiff_outcomes_leaf _ _ (by simp) (by simp)

theorem okDiff_outcomesItems : ∀ (sa sb : List Value), ∀ d ∈ outcomesItems sa sb, okDiff d
  | x :: sa, y :: sb => by
    intro d hd
    rw [outcomesItems, List.mem_append] at hd
    rcases hd with hd | hd
    · exact okDiff_outcomes x y d hd
    · exact okDiff_outcomesItems sa sb d hd
  | x :: sa, [] => by
    intro d hd
    rw [outcomesItems] at hd
    obtain ⟨_, _, rfl⟩ := List.mem_map.1 hd
    exact Or.inr (Or.inl rfl)
  | [], sb => by
    intro d hd
    rw [outcomesItems] at hd
    obtain ⟨_, _, rfl⟩ := List.mem_map.1 hd
    exact Or.inr (Or.inr rfl)

theorem okDiff_outcomesAt : ∀ (ma : List (String × Value)) (k : String) (vb : Value),
    ∀ d ∈ outcomesAt ma k vb, okDiff d
  | [], _, _ => by intro d hd; simp [outcomesAt] at hd
  | (k1, va) :: ma, k, vb => by
    intro d hd
    rw [outcomesAt] at hd
    by_cases hk : k = k1
    · rw [if_pos hk] at hd; exact okDiff_outcomes va vb d hd
    · rw [if_neg hk] at hd; exact okDiff_outcomesAt ma k vb d hd

end

namespace Context

theorem result_diff (c : Context) (d : Difference) :
    (c.result d).diff = resultDiff c.diff d := by
  unfold Context.result resultDiff
  split
  · rfl
  split
  · rfl
  split
  · rfl
  · rfl

theorem printRemovedItems_outcomes : ∀ (sa : List Value) (i max : Int) (c : Context),
    (printRemovedItems sa i max c).diff =
      (sa.map (fun _ => SupersetMatch)).foldl resultDiff c.diff
  | [], _, _, _ => rfl
  | x :: sa, i, max, c => by
    rw [printRemovedItems, printRemovedItems_outcomes sa]
    simp [result_diff]

theorem printAddedItems_outcomes : ∀ (sb : List Value) (i max : Int) (c : Context),
    (printAddedItems sb i max c).diff =
      (sb.map (fun _ => NoMatch)).foldl resultDiff c.diff
  | [], _, _, _ => rfl
  | y :: sb, i, max, c => by
    rw [printAddedItems, printAddedItems_outcomes sb]
    simp [result_diff]

theorem forKeys_outcomes (body : Int → String → Context → Context)
    (f : String → List Difference)
    (h : ∀ i k c, (body i k c).diff = (f k).foldl resultDiff c.diff) :
    ∀ (keys : List String) (i : Int) (c : Context),
      (forKeys body keys i c).diff = (outcomesKeys f keys).foldl resultDiff c.diff
  | [], _, _ => rfl
  | k :: keys, i, c => by
    rw [forKeys, forKeys_outcomes body f h keys, h, outcomesKeys, List.foldl_append]

theorem printDiff_outcomes_leaf (a b : Value) (c : Context)
    (harr : ∀ sa sb, a = .array sa → b ≠ .array sb)
    (hobj : ∀ ma mb, a = .object ma → b ≠ .object mb) :
    (printDiff a b c).diff = (outcomes a b).foldl resultDiff c.diff := by
  rw [printDiff_leaf a b c harr hobj, outcomes_leaf a b harr hobj]
  by_cases h : sameLeaf a b = true
  · rw [if_pos h, if_pos h]
    simp [result_diff]
  · rw [if_neg h, if_neg h]
    simp [result_diff]

mutual

theorem printDiff_outcomes : ∀ (a b : Value) (c : Context),
    (printDiff a b c).diff = (outcomes a b).foldl resultDiff c.diff
  | .array sa, b, c => by
    cases b with
    | array sb =>
      rw [printDiff_array, outcomes_array]
      by_cases h0 : maxLen sa sb = 0
      · rw [if_pos h0]
        obtain ⟨rfl, rfl⟩ := (maxLen_eq_zero sa sb).1 h0
        simp [outcomesItems]
      · rw [if_neg h0]
        simp only [writeTypeMaybe_diff, writeEndList_diff]
        rw [printSliceItems_outcomes sa sb]
        simp
    | _ => exact printDiff_outcomes_leaf _ _ c (by simp) (by simp)
  | .object ma, b, c => by
    cases b with
    | object mb =>
      rw [printDiff_object, outcomes_object]
      by_cases h0 : (unionKeys ma mb).length = 0
      · rw [if_pos h0]
        have hk : unionKeys ma mb = [] := List.eq_nil_of_length_eq_zero h0
        rw [hk]
        simp [outcomesKeys]
      · rw [if_neg h0]
        simp only [writeTypeMaybe_diff, writeEndMap_diff]
        rw [forKeys_outcomes _ (outcomesEntry ma mb)]
        · simp
        · intro i k d
          unfold printMapItem outcomesEntry
          simp only [writeEndOfItem_diff, tag_diff]
          cases ha : ma.lookup k with
          | none =>
            cases hb : mb.lookup k with
            | none => rfl
            | some vb => simp [result_diff]
          | some va =>
            cases hb : mb.lookup k with
            | none => simp [result_diff]
            | some vb =>
              simp only []
              rw [printDiffAt_outcomes ma k vb]
              simp
    | _ => exact printDiff_outcomes_leaf _ _ c (by simp) (by simp)
  | .null, b, c => printDiff_outcomes_leaf _ _ c (by simp) (by simp)
  | .bool _, b, c => printDiff_outcomes_leaf _ _ c (by simp) (by simp)
  | .number _, b, c => printDiff_outcomes_leaf _ _ c (by simp) (by simp)
  | .string _, b, c => printDiff_outcomes_leaf _ _ c (by simp) (by simp)

theorem printSliceItems_outcomes : ∀ (sa sb : List Value) (i max : Int) (c : Context),
    (printSliceItems sa sb i max c).diff = (outcomesItems sa sb).foldl resultDiff c.diff
  | x :: sa, y :: sb, i, max, c => by
    rw [printSliceItems, outcomesItems, printSliceItems_outcomes sa sb, List.foldl_append]
    simp only [writeEndOfItem_diff, tag_diff]
    rw [printDiff_outcomes x y]
    simp
  | x :: sa, [], i, max, c => by
    rw [printSliceItems, outcomesItems]
    exact printRemovedItems_outcomes _ _ _ _
  | [], sb, i, max, c => by
    rw [printSliceItems, outcomesItems]
    exact printAddedItems_outcomes _ _ _ _

theorem printDiffAt_outcomes : ∀ (ma : List (String × Value)) (k : String) (vb : Value)
    (c : Context),
    (printDiffAt ma k vb c).diff = (outcomesAt ma k vb).foldl resultDiff c.diff
  | [], _, _, _ => by rw [printDiffAt, outcomesAt]; rfl
  | (k1, va) :: ma, k, vb, c => by
    rw [printDiffAt, outcomesAt]
    by_cases hk : k = k1
    · rw [if_pos hk, if_pos hk]; exact printDiff_outcomes va vb c
    · rw [if_neg hk, if_neg hk]; exact printDiffAt_outcomes ma k vb c

end

theorem traversal_outcomes (a b : Value) (c : Context) (hc : okDiff c.diff) :
    (printDiff a b c).diff = (outcomes a b).foldl max c.diff := by
  rw [printDiff_outcomes]
  exact foldl_resultDiff_eq_max _ (okDiff_outcomes a b) _ hc

end Context

/-! ## The entries written by the map-diff -/

namespace Context

theorem key_eq_keyWritten (d : Context) (k : String) : d.key k = d.keyWritten k := by
  unfold key keyWritten
  simp [Context.writeString, quote_eq]

theorem tag_key_eq_keyInSpan (d : Context) (t : Span) (k : String)
    (h : d.lastTag = some .Normal) (ht : t ≠ .Normal) :
    (d.tag t).key k = d.keyInSpan t k := by
  have hne : d.lastTag ≠ some t := by rw [h]; intro e; exact ht (Option.some.inj e).symm
  rw [tag_eq_of_ne d t hne, key_eq_keyWritten]
  unfold keyWritten keyInSpan lastEnd
  simp [h, Options.tagOf]

theorem result_eq (c : Context) (d : Difference) :
    c.result d = { c with diff := resultDiff c.diff d } := by
  unfold Context.result resultDiff
  split
  · rfl
  split
  · rfl
  split
  · rfl
  · rfl

theorem resultDiff_supersetMatch (x : Difference) :
    resultDiff x SupersetMatch = if x = NoMatch then NoMatch else SupersetMatch := by
  unfold resultDiff
  by_cases h : x = NoMatch
  · rw [if_neg (by decide), if_neg (fun e => e.2 h), if_neg (fun e => e.1 h), if_pos h]
    exact h
  · rw [if_neg (by decide), if_pos ⟨rfl, h⟩, if_neg h]

theorem resultDiff_noMatch (x : Difference) : resultDiff x NoMatch = NoMatch := by
  unfold resultDiff; simp

end Context

theorem keysInOrder_shift (o : Options) (ks : List String) (s x out : String)
    (h : KeysInOrder o ks (s ++ x) out) : KeysInOrder o ks s out := by
  cases ks with
  | nil =>
    obtain ⟨rest, hr⟩ := h
    exact ⟨x ++ rest, by rw [hr, String.append_assoc]⟩
  | cons k ks =>
    obtain ⟨pre, entry, hr⟩ := h
    refine ⟨x ++ pre, entry, ?_⟩
    have e : s ++ (x ++ pre) ++ o.quote k ++ ": " ++ entry =
        s ++ x ++ pre ++ o.quote k ++ ": " ++ entry := by
      simp [String.append_assoc]
    rw [e]; exact hr

theorem keysInOrder_extend (o : Options) : ∀ (ks : List String) (s out t : String),
    KeysInOrder o ks s out → KeysInOrder o ks s (out ++ t)
  | [], s, out, t, h => by
    obtain ⟨rest, hr⟩ := h
    exact ⟨rest ++ t, by rw [hr, String.append_assoc]⟩
  | k :: ks, s, out, t, h => by
    obtain ⟨pre, entry, hr⟩ := h
    exact ⟨pre, entry, keysInOrder_extend o ks _ out t hr⟩

theorem keysInOrder_ext (o : Options) (ks : List String) (s : String) (c d : Context)
    (h : KeysInOrder o ks s c.buf) (he : Ext c d) : KeysInOrder o ks s d.buf := by
  obtain ⟨t, ht⟩ := he
  rw [ht]
  exact keysInOrder_extend o ks s c.buf t h

namespace Context

theorem forKeys_keysInOrder (o : Options) (P : String → Prop)
    (body : Int → String → Context → Context)
    (hhead : ∀ i k c, AtHead o c → AtHead o (body i k c))
    (hbody : ∀ i k c, AtHead o c → P k →
      ∃ pre entry, (body i k c).buf = c.buf ++ pre ++ o.quote k ++ ": " ++ entry) :
    ∀ (keys : List String) (i : Int) (c : Context), AtHead o c → (∀ k ∈ keys, P k) →
      KeysInOrder o keys c.buf (forKeys body keys i c).buf
  | [], _, c, _, _ => by rw [forKeys]; exact ⟨"", by simp⟩
  | k :: keys, i, c, hc, hk => by
    rw [forKeys]
    obtain ⟨pre, entry, hb⟩ := hbody i k c hc (hk k (List.mem_cons_self _ _))
    have ih := forKeys_keysInOrder o P body hhead hbody keys (i + 1) (body i k c)
      (hhead i k c hc) (fun x hx => hk x (List.mem_cons_of_mem _ hx))
    rw [hb] at ih
    exact ⟨pre, entry, ih⟩

theorem printMapItem_both (ma mb : List (String × Value)) (len i : Int) (k : String)
    (d : Context) (va vb : Value) (ha : ma.lookup k = some va) (hb : mb.lookup k = some vb) :
    printMapItem ma mb len i k d =
      ((printDiff va vb (d.keyWritten k)).tag .Normal).writeEndOfItem i len := by
  unfold printMapItem
  simp only [ha, hb]
  rw [printDiffAt_eq ma k va vb _ ha, key_eq_keyWritten]

theorem printMapItem_removed (ma mb : List (String × Value)) (len i : Int) (k : String)
    (d : Context) (va : Value) (hd : d.lastTag = some .Normal)
    (ha : ma.lookup k = some va) (hb : mb.lookup k = none) :
    printMapItem ma mb len i k d =
      (({ writeValue va true (d.keyInSpan .Removed k) with
          diff := if d.diff = NoMatch then NoMatch else SupersetMatch } : Context).tag
        .Normal).writeEndOfItem i len := by
  unfold printMapItem
  simp only [ha, hb]
  rw [tag_key_eq_keyInSpan d .Removed k hd (by decide), result_eq, writeValue_diff,
    resultDiff_supersetMatch]
  rfl

theorem printMapItem_added (ma mb : List (String × Value)) (len i : Int) (k : String)
    (d : Context) (vb : Value) (hd : d.lastTag = some .Normal)
    (ha : ma.lookup k = none) (hb : mb.lookup k = some vb) :
    printMapItem ma mb len i k d =
      (({ writeValue vb true (d.keyInSpan .Added k) with diff := NoMatch } : Context).tag
        .Normal).writeEndOfItem i len := by
  unfold printMapItem
  simp only [ha, hb]
  rw [tag_key_eq_keyInSpan d .Added k hd (by decide), result_eq, resultDiff_noMatch]

/-- The buffer when the entry written in the span `t` is closed: the value in
full, the end-marker of `t` and the Normal begin-marker follow the key, then the
end of the item. -/
theorem entry_in_span_buf (d : Context) (t : Span) (k : String) (v : Value) (r : Difference)
    (i len : Int) (ht : t ≠ .Normal) :
    ∃ sep, ((({ writeValue v true (d.keyInSpan t k) with diff := r } : Context).tag
        .Normal).writeEndOfItem i len).buf =
      (writeValue v true (d.keyInSpan t k)).buf ++ (d.opts.tagOf t).End ++
        d.opts.Normal.Begin ++ sep := by
  have hl : ({ writeValue v true (d.keyInSpan t k) with diff := r } : Context).lastTag =
      some t := by
    show (writeValue v true (d.keyInSpan t k)).lastTag = some t
    rw [writeValue_lastTag]; rfl
  have ho : (writeValue v true (d.keyInSpan t k)).opts = d.opts := by
    rw [writeValue_opts]; rfl
  obtain ⟨sep, hs⟩ := ext_writeEndOfItem
    (({ writeValue v true (d.keyInSpan t k) with diff := r } : Context).tag .Normal) i len
  refine ⟨sep, ?_⟩
  rw [hs, tag_buf_of_lastTag _ t .Normal hl ht]
  show (writeValue v true (d.keyInSpan t k)).buf ++
    ((writeValue v true (d.keyInSpan t k)).opts.tagOf t).End ++
    ((writeValue v true (d.keyInSpan t k)).opts.tagOf .Normal).Begin ++ sep = _
  rw [ho]
  rfl

theorem printMapItem_key_buf (ma mb : List (String × Value)) (len i : Int) (k : String)
    (d : Context) (hd : d.lastTag = some .Normal)
    (hk : (ma.lookup k).isSome ∨ (mb.lookup k).isSome) :
    ∃ pre entry, (printMapItem ma mb len i k d).buf =
      d.buf ++ pre ++ d.opts.quote k ++ ": " ++ entry := by
  cases ha : ma.lookup k with
  | some va =>
    cases hb : mb.lookup k with
    | some vb =>
      rw [printMapItem_both ma mb len i k d va vb ha hb]
      obtain ⟨s, hs⟩ := (ext_printDiff va vb (d.keyWritten k)).ext_trans
        ((ext_tag _ .Normal).ext_trans (ext_writeEndOfItem _ i len))
      refine ⟨"", s, ?_⟩
      rw [hs]
      simp [keyWritten]
    | none =>
      rw [printMapItem_removed ma mb len i k d va hd ha hb]
      obtain ⟨s1, h1⟩ := ext_writeRel.writeValue va true (d.keyInSpan .Removed k) _
        (Ext.ext_refl _)
      obtain ⟨sep, h2⟩ := entry_in_span_buf d .Removed k va
        (if d.diff = NoMatch then NoMatch else SupersetMatch) i len (by decide)
      refine ⟨d.opts.Normal.End ++ d.opts.Removed.Begin,
        s1 ++ d.opts.Removed.End ++ d.opts.Normal.Begin ++ sep, ?_⟩
      rw [h2, h1]
      simp [keyInSpan, Options.tagOf, String.append_assoc]
  | none =>
    cases hb : mb.lookup k with
    | some vb =>
      rw [printMapItem_added ma mb len i k d vb hd ha hb]
      obtain ⟨s1, h1⟩ := ext_writeRel.writeValue vb true (d.keyInSpan .Added k) _
        (Ext.ext_refl _)
      obtain ⟨sep, h2⟩ := entry_in_span_buf d .Added k vb NoMatch i len (by decide)
      refine ⟨d.opts.Normal.End ++ d.opts.Added.Begin,
        s1 ++ d.opts.Added.End ++ d.opts.Normal.Begin ++ sep, ?_⟩
      rw [h2, h1]
      simp [keyInSpan, Options.tagOf, String.append_assoc]
    | none => simp [ha, hb] at hk

theorem printMapDiff_keysInOrder (ma mb : List (String × Value)) (c : Context) :
    KeysInOrder c.opts (unionKeys ma mb) c.buf
      (c.printMapDiff (.object ma) (.object mb)).buf := by
  rw [← printDiff_eq_printMapDiff, printDiff_object]
  by_cases h0 : (unionKeys ma mb).length = 0
  · rw [if_pos h0, List.eq_nil_of_length_eq_zero h0]
    exact (ext_tag c .Normal).ext_trans ((ext_writeRel.primWrite _ _).ext_trans
      (ext_writeTypeMaybe _ _))
  · rw [if_neg h0]
    have hloop := forKeys_keysInOrder c.opts
      (fun k => (ma.lookup k).isSome ∨ (mb.lookup k).isSome)
      (printMapItem ma mb (unionKeys ma mb).length)
      (fun i k d h => atHead_printMapItem ma mb _ i k _ d h)
      (fun i k d h hk => by
        have := printMapItem_key_buf ma mb (unionKeys ma mb).length i k d h.2 hk
        rw [h.1] at this
        exact this)
      (unionKeys ma mb) 0 (c.tag .Normal).writeStartMap ⟨by simp, by simp⟩
      (fun k hk => (mem_unionKeys ma mb k).1 hk)
    obtain ⟨x, hx⟩ := (ext_tag c .Normal).ext_trans
      (ext_writeRel.writeStartMap (Ext.ext_refl (c.tag .Normal)))
    rw [hx] at hloop
    exact keysInOrder_ext _ _ _ _ _ (keysInOrder_shift _ _ _ _ _ hloop)
      ((ext_writeEndMap _).ext_trans (ext_writeTypeMaybe _ _))

end Context

theorem mismatch_of_isNil_ne (a b : Value) (h : a.isNil ≠ b.isNil) : Mismatch a b := by
  left
  cases a <;> cases b <;> simp_all [Value.isNil, Value.jsonKind]

theorem typeSuffix_on (c : Context) (v : Value) (h : c.opts.PrintTypes = true) :
    c.typeSuffix v = " " ++ v.typeTag := by
  unfold typeSuffix; rw [if_pos h]

theorem typeSuffix_off (c : Context) (v : Value) (h : c.opts.PrintTypes = false) :
    c.typeSuffix v = "" := by
  unfold typeSuffix; simp [h]

theorem string_of_out_of_range (x : Int) (h : x < 0 ∨ 5 < x) :
    Difference.String x = "Invalid" := by
  unfold Difference.String
  simp only [FullMatch, SupersetMatch, NoMatch, FirstArgIsInvalidJson, SecondArgIsInvalidJson,
    BothArgsAreInvalidJson]
  have h0 : x ≠ 0 := by omega
  have h1 : x ≠ 1 := by omega
  have h2 : x ≠ 2 := by omega
  have h3 : x ≠ 3 := by omega
  have h4 : x ≠ 4 := by omega
  have h5 : x ≠ 5 := by omega
  simp [h0, h1, h2, h3, h4, h5]

/-! ## Properties of the operations of the renderer -/

/-- C12: `writeValue(v, full)` is the value followed by `writeTypeMaybe(v)`. Its
buffer is the buffer after the bare value followed by the type suffix; with
`PrintTypes` on the suffix is a space and the tag of the kind of `v` (boolean,
number, string, array, object, null), for a collection written in full after
`writeList` or `writeMap` has returned; with `PrintTypes` off nothing follows the
value. -/
theorem writeValue_type_suffix (v : Value) (full : Bool) (c : Context) :
    writeValue v full c = (c.writeBare v full).writeTypeMaybe v ∧
    (writeValue v full c).buf = (c.writeBare v full).buf ++ c.typeSuffix v ∧
    (c.opts.PrintTypes = true → c.typeSuffix v = " " ++ v.typeTag) ∧
    (c.opts.PrintTypes = false → writeValue v full c = c.writeBare v full) ∧
    (∀ x, (Value.bool x).typeTag = "(boolean)") ∧
    (∀ x, (Value.number x).typeTag = "(number)") ∧
    (∀ x, (Value.string x).typeTag = "(string)") ∧
    (∀ x, (Value.array x).typeTag = "(array)") ∧
    (∀ x, (Value.object x).typeTag = "(object)") ∧
    Value.null.typeTag = "(null)" ∧
    (∀ vv, c.writeBare (.array vv) true = c.writeList vv) ∧
    (∀ m, c.writeBare (.object m) true = c.writeMap m) ∧
    (∀ vv, c.writeBare (.array vv) false = c.writeString "[]") ∧
    (∀ m, c.writeBare (.object m) false = c.writeString "\x7b\x7d") := by
  have ho : (c.writeBare v full).opts = c.opts := writeBare_opts v full c
  refine ⟨writeValue_eq_writeBare v full c, ?_, typeSuffix_on c v, ?_,
    fun _ => rfl, fun _ => rfl, fun _ => rfl, fun _ => rfl, fun _ => rfl, rfl,
    fun _ => rfl, fun _ => rfl, fun _ => rfl, fun _ => rfl⟩
  · rw [writeValue_eq_writeBare, writeTypeMaybe_buf,
      typeSuffix_of_opts c (c.writeBare v full) v ho]
  · intro h
    rw [writeValue_eq_writeBare]
    exact writeTypeMaybe_off _ _ (by rw [ho]; exact h)

/-- C13: `Difference.String` maps the constants `FullMatch` to
`BothArgsAreInvalidJson`, which are the integers 0 to 5, to the six names, which
are pairwise distinct, and every other integer to `Invalid`. -/
theorem difference_string_names :
    [FullMatch, SupersetMatch, NoMatch, FirstArgIsInvalidJson, SecondArgIsInvalidJson,
      BothArgsAreInvalidJson] = [0, 1, 2, 3, 4, 5] ∧
    [FullMatch, SupersetMatch, NoMatch, FirstArgIsInvalidJson, SecondArgIsInvalidJson,
      BothArgsAreInvalidJson].map Difference.String = differenceNames ∧
    differenceNames.Nodup ∧
    (∀ d : Difference, (d < 0 ∨ 5 < d) → Difference.String d = "Invalid") ∧
    "Invalid" ∉ differenceNames := by
  refine ⟨rfl, by decide, by decide, ?_, by decide⟩
  exact fun d hd => string_of_out_of_range d hd

/-- C14: `o.WithYAMLOutput()` has `Output` equal to `YAML` and `Indent` equal to two
spaces, every other field is the one of `o`, and applying it twice is applying it
once. -/
theorem withYAMLOutput_fields (o : Options) :
    o.WithYAMLOutput.Output = "YAML" ∧
    o.WithYAMLOutput.Indent = "  " ∧
    o.WithYAMLOutput.Normal = o.Normal ∧
    o.WithYAMLOutput.Added = o.Added ∧
    o.WithYAMLOutput.Removed = o.Removed ∧
    o.WithYAMLOutput.Changed = o.Changed ∧
    o.WithYAMLOutput.Prefix = o.Prefix ∧
    o.WithYAMLOutput.PrintTypes = o.PrintTypes ∧
    o.WithYAMLOutput.WithYAMLOutput = o.WithYAMLOutput :=
  ⟨rfl, rfl, rfl, rfl, rfl, rfl, rfl, rfl, rfl⟩

/-- C18: `result(d)` leaves the maximum of the accumulated classification and `d`
in the order `FullMatch < SupersetMatch < NoMatch`. `NoMatch` is absorbing, the
outcome `FullMatch` changes nothing, and the classification after a traversal is
the maximum of the outcomes passed to `result`, from the classification at the
start on: from `FullMatch` for `Compare`. -/
theorem result_is_max :
    (∀ (c : Context) (d : Difference), okDiff c.diff → okDiff d →
      (c.result d).diff = max c.diff d) ∧
    FullMatch < SupersetMatch ∧ SupersetMatch < NoMatch ∧
    (∀ (c : Context) (d : Difference), c.diff = NoMatch → (c.result d).diff = NoMatch) ∧
    (∀ c : Context, okDiff c.diff → (c.result FullMatch).diff = c.diff) ∧
    (∀ (c : Context) (d : Difference), (c.result d).diff = resultDiff c.diff d) ∧
    (∀ (a b : Value) (c : Context),
      (printDiff a b c).diff = (outcomes a b).foldl resultDiff c.diff) ∧
    (∀ (a b : Value), ∀ d ∈ outcomes a b, okDiff d) ∧
    (∀ (a b : Value) (c : Context), okDiff c.diff →
      (printDiff a b c).diff = (outcomes a b).foldl max c.diff) ∧
    (∀ (a b : Value) (opts : Options),
      (Compare (some a) (some b) opts).1 = (outcomes a b).foldl max FullMatch) := by
  refine ⟨result_eq_max, by decide, by decide, ?_, result_fullMatch_diff, result_diff,
    printDiff_outcomes, okDiff_outcomes, traversal_outcomes, ?_⟩
  · intro c d h
    unfold Context.result
    split
    · rfl
    split
    · rename_i h1; exact absurd h h1.2
    split
    · rename_i h1; exact absurd h h1.1
    · exact h
  · intro a b opts
    rw [compare_fst]
    exact traversal_outcomes a b _ (okDiff_newContext opts)

/-- C19: `tag(S)` leaves the state as it is when `S` is the open span; otherwise
it appends the end-marker of the open span, if there is one, and the begin-marker
of `S`, and `S` becomes the open span. The level and the classification are kept,
and a second `tag(S)` changes nothing. -/
theorem tag_span_transition (c : Context) (t : Span) :
    (c.lastTag = some t → c.tag t = c) ∧
    (c.lastTag ≠ some t → c.tag t =
      { c with
        buf := c.buf ++ c.lastEnd ++ (c.opts.tagOf t).Begin
        lastTag := some t
        trace := c.trace ++ (match c.lastTag with
          | some s => [Event.closed s, Event.opened t]
          | none => [Event.opened t]) }) ∧
    (c.lastTag = none → c.lastEnd = "") ∧
    (∀ s, c.lastTag = some s → c.lastEnd = (c.opts.tagOf s).End) ∧
    (c.tag t).lastTag = some t ∧
    (c.tag t).level = c.level ∧
    (c.tag t).diff = c.diff ∧
    (c.tag t).opts = c.opts ∧
    (c.tag t).tag t = c.tag t := by
  refine ⟨tag_of_open c t, tag_eq_of_ne c t, ?_, ?_, tag_lastTag c t, tag_level c t,
    tag_diff c t, tag_opts c t, tag_tag c t⟩
  · intro h; unfold lastEnd; rw [h]
  · intro s h; unfold lastEnd; rw [h]

/-- C20: `newline(s)` appends `s`, the end-marker of the open span, a line feed,
the prefix, the indent once per level and the begin-marker of the open span, the
markers being empty when no span is open. The open span, the level, the
classification and the options are kept, whatever the dialect. -/
theorem newline_line_break (c : Context) (s : String) :
    (c.newline s).buf = c.buf ++ s ++ c.lastEnd ++ "\n" ++ c.opts.Prefix ++
      String.join (List.replicate c.level.toNat c.opts.Indent) ++ c.lastBegin ∧
    (c.lastTag = none → c.lastEnd = "" ∧ c.lastBegin = "") ∧
    (∀ t, c.lastTag = some t →
      c.lastEnd = (c.opts.tagOf t).End ∧ c.lastBegin = (c.opts.tagOf t).Begin) ∧
    (c.newline s).lastTag = c.lastTag ∧
    (c.newline s).level = c.level ∧
    (c.newline s).diff = c.diff ∧
    (c.newline s).opts = c.opts := by
  refine ⟨?_, ?_, ?_, newline_lastTag c s, ?_, newline_diff c s, newline_opts c s⟩
  · rw [newline_eq]; rfl
  · intro h; unfold lastEnd lastBegin; rw [h]; exact ⟨rfl, rfl⟩
  · intro t h; unfold lastEnd lastBegin; rw [h]; exact ⟨rfl, rfl⟩
  · rw [newline_eq]

/-! ## Properties of the traversal -/

/-- C15, as the code has it: with `PrintTypes` on, the mismatch of `null` against
`1` is written with the type suffix on both sides. -/
theorem null_mismatch_with_type_suffix :
    Compare (some .null) (some (.number "1")) typedOptions =
      (NoMatch, "\x1b[0;33mnull (null) => 1 (number)\x1b[0m") := by
  set_option maxRecDepth 100000 in decide

/-- C15, amended: when exactly one of `a` and `b` is null, `printDiff` opens the
Changed span, writes the compact text of `a`, its type suffix, ` => `, the compact
text of `b` and its type suffix, and records `NoMatch`; the type suffixes are empty
exactly when `PrintTypes` is off. When both are null it opens the Normal span,
writes `null` and its type suffix and records `FullMatch`. -/
theorem null_mismatch_rendering (a b : Value) (c : Context) (h : a.isNil ≠ b.isNil) :
    printDiff a b c = ((c.tag .Changed).writeString
      (c.compact a ++ c.typeSuffix a ++ " => " ++ c.compact b ++ c.typeSuffix b)).result
        NoMatch ∧
    (printDiff a b c).diff = NoMatch ∧
    (printDiff a b c).lastTag = some .Changed ∧
    (c.opts.PrintTypes = false → c.typeSuffix a = "" ∧ c.typeSuffix b = "") ∧
    (c.opts.PrintTypes = true →
      c.typeSuffix a = " " ++ a.typeTag ∧ c.typeSuffix b = " " ++ b.typeTag) ∧
    c.compact .null = "null" ∧
    printDiff .null .null c =
      ((c.tag .Normal).writeString ("null" ++ c.typeSuffix .null)).result FullMatch ∧
    (printDiff .null .null c).lastTag = some .Normal ∧
    (okDiff c.diff → (printDiff .null .null c).diff = c.diff) ∧
    (∀ opts, (Compare (some .null) (some .null) opts).1 = FullMatch) := by
  have hm := mismatch_of_isNil_ne a b h
  have e := printDiff_of_mismatch a b c hm
  refine ⟨e, ?_, ?_, fun hp => ⟨typeSuffix_off c a hp, typeSuffix_off c b hp⟩,
    fun hp => ⟨typeSuffix_on c a hp, typeSuffix_on c b hp⟩, rfl, printDiff_null_null c, ?_, ?_, ?_⟩
  · rw [e]; exact result_noMatch_diff _
  · rw [e]; simp
  · rw [printDiff_null_null]; simp
  · intro hc
    rw [printDiff_null_null]
    have := result_fullMatch_diff ((c.tag .Normal).writeString ("null" ++ c.typeSuffix .null))
      (by simpa using hc)
    simpa using this
  · intro opts
    rw [compare_fst]
    exact (traversal_fullMatch_iff .null .null opts).2 (deepEqual_refl .null)

/-- Witness of C15: `null` against `1` from the fresh state of the console options
with `PrintTypes` on. -/
theorem null_mismatch_rendering_witness :
    Value.null.isNil ≠ (Value.number "1").isNil ∧
    (printDiff .null (.number "1") (newContext typedOptions)).diff = NoMatch ∧
    (printDiff .null (.number "1") (newContext typedOptions)).lastTag = some .Changed :=
  ⟨by decide,
    (null_mismatch_rendering .null (.number "1") (newContext typedOptions) (by decide)).2.1,
    (null_mismatch_rendering .null (.number "1") (newContext typedOptions) (by decide)).2.2.1⟩

/-- C16: for two values of different kinds, or two scalars of one kind with
different values, `printDiff` opens the Changed span, writes the compact text of
`a`, ` => ` and the compact text of `b`, each followed by its type suffix (empty
when `PrintTypes` is off), and records `NoMatch`. The compact text of an array is
`[]` and of an object `{}`, whatever they contain, and of a scalar its literal,
strings quoted by the dialect. The level is kept and no line break is made: the
only events are those of the span transition. -/
theorem mismatch_rendering (a b : Value) (c : Context) (h : Mismatch a b) :
    printDiff a b c = ((c.tag .Changed).writeString
      (c.compact a ++ c.typeSuffix a ++ " => " ++ c.compact b ++ c.typeSuffix b)).result
        NoMatch ∧
    (c.opts.PrintTypes = false →
      (printDiff a b c).buf = (c.tag .Changed).buf ++ (c.compact a ++ " => " ++ c.compact b)) ∧
    (printDiff a b c).diff = NoMatch ∧
    (printDiff a b c).lastTag = some .Changed ∧
    (printDiff a b c).level = c.level ∧
    (printDiff a b c).trace = (c.tag .Changed).trace ∧
    (Event.lineBreak ∈ (printDiff a b c).trace ↔ Event.lineBreak ∈ c.trace) ∧
    (∀ vv, c.compact (.array vv) = "[]") ∧
    (∀ m, c.compact (.object m) = "\x7b\x7d") ∧
    (∀ x, c.compact (.string x) = c.quote x) ∧
    (∀ x, c.compact (.number x) = x) ∧
    (∀ x, c.compact (.bool x) = formatBool x) ∧
    (∀ x y, Mismatch (.number x) (.string y)) := by
  have e := printDiff_of_mismatch a b c h
  refine ⟨e, ?_, ?_, ?_, ?_, ?_, ?_, fun _ => rfl, fun _ => rfl, fun _ => rfl, fun _ => rfl,
    fun _ => rfl, fun _ _ => Or.inl (by simp [Value.jsonKind])⟩
  · intro hp
    rw [e, typeSuffix_off c a hp, typeSuffix_off c b hp]
    simp
  · rw [e]; exact result_noMatch_diff _
  · rw [e]; simp
  · rw [e]; simp
  · rw [e]; simp
  · rw [e]; simp only [result_trace, writeString_trace]
    exact tag_trace_lineBreak c .Changed

/-- Witness of C16: the number `1` against the string `a`, and an array against an
object, from the fresh state of the console options. -/
theorem mismatch_rendering_witness :
    Mismatch (.number "1") (.string "a") ∧
    (printDiff (.number "1") (.string "a") (newContext DefaultConsoleOptions)).diff = NoMatch ∧
    Mismatch (.array [.number "1"]) (.object [("k", .null)]) ∧
    (printDiff (.array [.number "1"]) (.object [("k", .null)])
      (newContext DefaultConsoleOptions)).diff = NoMatch :=
  ⟨Or.inl (by decide),
    (mismatch_rendering (.number "1") (.string "a") (newContext DefaultConsoleOptions)
      (Or.inl (by decide))).2.2.1,
    Or.inl (by decide),
    (mismatch_rendering (.array [.number "1"]) (.object [("k", .null)])
      (newContext DefaultConsoleOptions) (Or.inl (by decide))).2.2.1⟩

/-- C17: `printMapDiff` on two objects runs its loop body once for each key of the
union of the keys of `a` and of `b`, each key once, in strictly ascending order,
from a state whose open span is Normal, and the Normal span is open again at the
end of each round. The buffer after it holds the quoted keys of the union, each
followed by `: `, in that order. For a key in both, the round appends the key to
the buffer in the Normal span and compares the two values from there: the
classification moves as that comparison moves it. For a key only in `a` the round
appends the Normal end-marker, the Removed begin-marker and the key, then the
value of `a` in full, the Removed end-marker and the Normal begin-marker, and the
classification becomes `SupersetMatch` unless it is `NoMatch`. For a key only in
`b` it does the same with the Added markers and the value of `b`, and the
classification becomes `NoMatch`. So an object with a key only in `b` is
classified `NoMatch`, and one with a key only in `a` is not classified
`FullMatch`. When the union is empty only `{}` and the type suffix of `a` are
appended after the transition to the Normal span, and the classification is
kept. -/
theorem printMapDiff_entries (ma mb : List (String × Value)) (c : Context) :
    (∀ k, k ∈ unionKeys ma mb ↔ (ma.lookup k).isSome ∨ (mb.lookup k).isSome) ∧
    Ascending (unionKeys ma mb) ∧
    (unionKeys ma mb).Nodup ∧
    printDiff (.object ma) (.object mb) c = c.printMapDiff (.object ma) (.object mb) ∧
    (unionKeys ma mb = [] →
      c.printMapDiff (.object ma) (.object mb) =
        ((c.tag .Normal).writeString "\x7b\x7d").writeString (c.typeSuffix (.object ma))) ∧
    (unionKeys ma mb ≠ [] →
      c.printMapDiff (.object ma) (.object mb) =
        ((forKeys (printMapItem ma mb (unionKeys ma mb).length) (unionKeys ma mb) 0
          (c.tag .Normal).writeStartMap).writeEndMap).writeTypeMaybe (.object ma)) ∧
    (∀ (body : Int → String → Context → Context) (i : Int) (d : Context),
      forKeys body [] i d = d) ∧
    (∀ (body : Int → String → Context → Context) (k : String) (ks : List String) (i : Int)
      (d : Context), forKeys body (k :: ks) i d = forKeys body ks (i + 1) (body i k d)) ∧
    ((c.tag .Normal).writeStartMap).lastTag = some .Normal ∧
    (∀ (len i : Int) (k : String) (d : Context),
      (printMapItem ma mb len i k d).lastTag = some .Normal) ∧
    (∀ (len i : Int) (k : String) (d : Context) (va vb : Value),
      ma.lookup k = some va → mb.lookup k = some vb →
      printMapItem ma mb len i k d =
        ((printDiff va vb (d.key k)).tag .Normal).writeEndOfItem i len) ∧
    (∀ (len i : Int) (k : String) (d : Context) (va : Value),
      ma.lookup k = some va → mb.lookup k = none →
      printMapItem ma mb len i k d =
        (((writeValue va true ((d.tag .Removed).key k)).result SupersetMatch).tag
          .Normal).writeEndOfItem i len) ∧
    (∀ (len i : Int) (k : String) (d : Context) (vb : Value),
      ma.lookup k = none → mb.lookup k = some vb →
      printMapItem ma mb len i k d =
        (((writeValue vb true ((d.tag .Added).key k)).result NoMatch).tag
          .Normal).writeEndOfItem i len) ∧
    (unionKeys ma mb = [] →
      (c.printMapDiff (.object ma) (.object mb)).buf =
        (c.tag .Normal).buf ++ "\x7b\x7d" ++ c.typeSuffix (.object ma) ∧
      (c.printMapDiff (.object ma) (.object mb)).diff = c.diff) ∧
    KeysInOrder c.opts (unionKeys ma mb) c.buf
      (c.printMapDiff (.object ma) (.object mb)).buf ∧
    (∀ (d : Context) (k : String), (d.key k).buf = d.buf ++ d.opts.quote k ++ ": ") ∧
    (∀ (d : Context), (d.result SupersetMatch).diff =
      (if d.diff = NoMatch then NoMatch else SupersetMatch)) ∧
    (∀ (d : Context), (d.result NoMatch).diff = NoMatch) ∧
    (∀ (d : Context) (v : Value),
      writeValue v true d = (d.writeBare v true).writeTypeMaybe v) ∧
    (∀ (len i : Int) (k : String) (d : Context) (va vb : Value),
      ma.lookup k = some va → mb.lookup k = some vb →
      printMapItem ma mb len i k d =
        ((printDiff va vb { d with buf := d.buf ++ d.opts.quote k ++ ": " }).tag
          .Normal).writeEndOfItem i len ∧
      (printMapItem ma mb len i k d).diff = (outcomes va vb).foldl resultDiff d.diff ∧
      (okDiff d.diff →
        Agg d.diff (printMapItem ma mb len i k d).diff (DeepEqual va vb) (Superset va vb))) ∧
    (∀ (len i : Int) (k : String) (d : Context) (va : Value), d.lastTag = some .Normal →
      ma.lookup k = some va → mb.lookup k = none →
      d.keyInSpan .Removed k =
        { d with
          buf := d.buf ++ d.opts.Normal.End ++ d.opts.Removed.Begin ++ d.opts.quote k ++ ": "
          lastTag := some .Removed
          trace := d.trace ++ [Event.closed .Normal, Event.opened .Removed] } ∧
      printMapItem ma mb len i k d =
        (({ writeValue va true (d.keyInSpan .Removed k) with
            diff := if d.diff = NoMatch then NoMatch else SupersetMatch } : Context).tag
          .Normal).writeEndOfItem i len ∧
      (∃ sep, (printMapItem ma mb len i k d).buf =
        (writeValue va true (d.keyInSpan .Removed k)).buf ++ d.opts.Removed.End ++
          d.opts.Normal.Begin ++ sep) ∧
      (printMapItem ma mb len i k d).diff =
        (if d.diff = NoMatch then NoMatch else SupersetMatch)) ∧
    (∀ (len i : Int) (k : String) (d : Context) (vb : Value), d.lastTag = some .Normal →
      ma.lookup k = none → mb.lookup k = some vb →
      d.keyInSpan .Added k =
        { d with
          buf := d.buf ++ d.opts.Normal.End ++ d.opts.Added.Begin ++ d.opts.quote k ++ ": "
          lastTag := some .Added
          trace := d.trace ++ [Event.closed .Normal, Event.opened .Added] } ∧
      printMapItem ma mb len i k d =
        (({ writeValue vb true (d.keyInSpan .Added k) with diff := NoMatch } : Context).tag
          .Normal).writeEndOfItem i len ∧
      (∃ sep, (printMapItem ma mb len i k d).buf =
        (writeValue vb true (d.keyInSpan .Added k)).buf ++ d.opts.Added.End ++
          d.opts.Normal.Begin ++ sep) ∧
      (printMapItem ma mb len i k d).diff = NoMatch) ∧
    (c.printMapDiff (.object ma) (.object mb)).diff =
      (outcomesKeys (outcomesEntry ma mb) (unionKeys ma mb)).foldl resultDiff c.diff ∧
    (∀ (k : String) (va : Value), ma.lookup k = some va → mb.lookup k = none →
      outcomesEntry ma mb k = [SupersetMatch]) ∧
    (∀ (k : String) (vb : Value), ma.lookup k = none → mb.lookup k = some vb →
      outcomesEntry ma mb k = [NoMatch]) ∧
    (∀ (k : String) (va vb : Value), ma.lookup k = some va → mb.lookup k = some vb →
      outcomesEntry ma mb k = outcomes va vb) ∧
    (okDiff c.diff → (∃ k, ma.lookup k = none ∧ (mb.lookup k).isSome) →
      (c.printMapDiff (.object ma) (.object mb)).diff = NoMatch) ∧
    (okDiff c.diff → (∃ k, (ma.lookup k).isSome ∧ mb.lookup k = none) →
      (c.printMapDiff (.object ma) (.object mb)).diff ≠ FullMatch) ∧
    (okDiff c.diff → (∀ k, (ma.lookup k).isSome ∧ (mb.lookup k).isSome) →
      Agg c.diff (c.printMapDiff (.object ma) (.object mb)).diff
        (∀ k x y, ma.lookup k = some x → mb.lookup k = some y → DeepEqual x y)
        (∀ k x y, ma.lookup k = some x → mb.lookup k = some y → Superset x y)) := by
  have hagg : okDiff c.diff → Agg c.diff (c.printMapDiff (.object ma) (.object mb)).diff
      (DeepEqual (.object ma) (.object mb)) (Superset (.object ma) (.object mb)) := by
    intro hc
    rw [← printDiff_eq_printMapDiff]
    exact printDiff_agg _ _ c hc
  have hkey : ∀ (d : Context) (k : String), d.key k = d.keyWritten k := by
    intro d k
    unfold Context.key keyWritten
    simp [Context.writeString, quote_eq]
  have htag : ∀ (d : Context) (t : Span) (k : String), d.lastTag = some .Normal →
      t ≠ .Normal → (d.tag t).key k = d.keyInSpan t k := by
    intro d t k h ht
    have hne : ¬ d.lastTag = some t := by
      rw [h]; intro e; exact ht (Option.some.inj e).symm
    unfold Context.tag Context.key keyInSpan writeLastTagEnd
    rw [if_neg hne]
    simp [h, Context.writeString, Context.log, quote_eq, Options.tagOf, String.append_assoc]
  have hres : ∀ (d : Context) (r : Difference),
      d.result r = { d with diff := resultDiff d.diff r } := by
    intro d r
    unfold Context.result resultDiff
    split
    · rfl
    split
    · rfl
    split
    · rfl
    · rfl
  refine ⟨mem_unionKeys ma mb, ascending_unionKeys ma mb, nodup_unionKeys ma mb,
    printDiff_eq_printMapDiff ma mb c, ?_, ?_, fun _ _ _ => rfl, fun _ _ _ _ _ => rfl, ?_, ?_,
    ?_, ?_, ?_, ?_, printMapDiff_keysInOrder ma mb c, ?_, ?_, ?_, ?_, ?_, ?_, ?_, ?_, ?_, ?_,
    ?_, ?_, ?_, ?_⟩
  · intro h
    rw [← printDiff_eq_printMapDiff, printDiff_object, if_pos (by rw [h]; rfl), writeTypeMaybe_eq]
    rw [typeSuffix_of_opts c ((c.tag .Normal).writeString "\x7b\x7d") _ (by simp)]
  · intro h
    rw [← printDiff_eq_printMapDiff, printDiff_object, if_neg]
    intro h0
    exact h (List.eq_nil_of_length_eq_zero h0)
  · simp
  · intro len i k d
    unfold printMapItem
    simp
  · intro len i k d va vb ha hb
    unfold printMapItem
    simp only [ha, hb]
    rw [printDiffAt_eq ma k va vb _ ha]
  · intro len i k d va ha hb
    unfold printMapItem
    simp only [ha, hb]
  · intro len i k d vb ha hb
    unfold printMapItem
    simp only [ha, hb]
  · intro h
    rw [← printDiff_eq_printMapDiff, printDiff_object, if_pos (by rw [h]; rfl)]
    refine ⟨?_, by simp⟩
    rw [writeTypeMaybe_buf, typeSuffix_of_opts c ((c.tag .Normal).writeString "\x7b\x7d") _
      (by simp)]
    rfl
  · intro d k
    rw [hkey]; rfl
  · intro d
    rw [hres, resultDiff_supersetMatch]
  · intro d
    rw [hres, resultDiff_noMatch]
  · intro d v
    cases v <;> rw [writeValue] <;> rfl
  · intro len i k d va vb ha hb
    have e : printMapItem ma mb len i k d =
        ((printDiff va vb (d.keyWritten k)).tag .Normal).writeEndOfItem i len := by
      unfold printMapItem
      simp only [ha, hb]
      rw [printDiffAt_eq ma k va vb _ ha, hkey]
    have hd : (printMapItem ma mb len i k d).diff = (printDiff va vb (d.keyWritten k)).diff := by
      rw [e]; simp
    refine ⟨e, ?_, ?_⟩
    · rw [hd, printDiff_outcomes]; rfl
    · intro hok
      rw [hd]
      exact printDiff_agg va vb (d.keyWritten k) hok
  · intro len i k d va hd ha hb
    have e : printMapItem ma mb len i k d =
        (({ writeValue va true (d.keyInSpan .Removed k) with
            diff := if d.diff = NoMatch then NoMatch else SupersetMatch } : Context).tag
          .Normal).writeEndOfItem i len := by
      unfold printMapItem
      simp only [ha, hb]
      rw [htag d .Removed k hd (by decide), hres, writeValue_diff, resultDiff_supersetMatch]
      rfl
    refine ⟨rfl, e, ?_, ?_⟩
    · rw [e]
      exact entry_in_span_buf d .Removed k va _ i len (by decide)
    · rw [e]; simp
  · intro len i k d vb hd ha hb
    have e : printMapItem ma mb len i k d =
        (({ writeValue vb true (d.keyInSpan .Added k) with diff := NoMatch } : Context).tag
          .Normal).writeEndOfItem i len := by
      unfold printMapItem
      simp only [ha, hb]
      rw [htag d .Added k hd (by decide), hres, resultDiff_noMatch]
    refine ⟨rfl, e, ?_, ?_⟩
    · rw [e]
      exact entry_in_span_buf d .Added k vb _ i len (by decide)
    · rw [e]; simp
  · rw [← printDiff_eq_printMapDiff, printDiff_outcomes, outcomes_object]
  · intro k va ha hb
    simp [outcomesEntry, ha, hb]
  · intro k vb ha hb
    simp [outcomesEntry, ha, hb]
  · intro k va vb ha hb
    simp only [outcomesEntry, ha, hb]
    have : ∀ (m : List (String × Value)), m.lookup k = some va →
        outcomesAt m k vb = outcomes va vb := by
      intro m
      induction m with
      | nil => intro h; simp at h
      | cons e m ih =>
        obtain ⟨k1, v⟩ := e
        intro h
        rw [outcomesAt]
        by_cases hk : k = k1
        · subst hk
          rw [lookup_cons_eq] at h
          cases h
          rw [if_pos rfl]
        · rw [lookup_cons_ne k k1 v m hk] at h
          rw [if_neg hk]
          exact ih h
    exact this ma ha
  · rintro hc ⟨k, ha, hb⟩
    have h := hagg hc
    by_contra hne
    have hs := (h.sup.1 hne).2
    have := ((superset_object_iff ma mb).1 hs).1 k hb
    rw [ha] at this
    simp at this
  · rintro hc ⟨k, ha, hb⟩ hfull
    have h := hagg hc
    have he := (h.full.1 hfull).2
    have := ((deepEqual_object_iff ma mb).1 he).1 k
    rw [hb] at this
    rw [Option.isSome_iff_exists] at ha
    obtain ⟨v, hv⟩ := ha
    rw [hv] at this
    simp at this
  · intro hc hall
    have h := hagg hc
    refine h.congr ?_ ?_
    · rw [deepEqual_object_iff]
      constructor
      · exact fun h => h.2
      · exact fun h => ⟨fun k => by rw [Bool.eq_iff_iff]; simp [(hall k).1, (hall k).2], h⟩
    · rw [superset_object_iff]
      constructor
      · exact fun h => h.2
      · exact fun h => ⟨fun k _ => (hall k).1, h⟩

/-- C11, as the code has it: under the prefix `> ` the rendering of `1` against `1`
is `1`, and the rendering of an object opens with its brace and no prefix: the
first line does not start with the prefix. In the YAML dialect a string is written
as it is, and the line after a line feed of the string has no prefix either. -/
theorem prefix_missing_on_first_line :
    Compare (some (.number "1")) (some (.number "1")) prefixedOptions = (FullMatch, "1") ∧
    Compare (some (.object [("a", .number "1")])) (some (.object [("a", .number "1")]))
      prefixedOptions = (FullMatch, "\x7b\n>     \"a\": 1\n> \x7d") ∧
    Compare (some (.string "x\ny")) (some (.string "x\ny")) prefixedOptions.WithYAMLOutput =
      (FullMatch, "x\ny") ∧
    ¬ LineStarts prefixedOptions.Prefix
      (Compare (some (.string "x\ny")) (some (.string "x\ny"))
        prefixedOptions.WithYAMLOutput).2 := by
  refine ⟨by set_option maxRecDepth 100000 in decide,
    by set_option maxRecDepth 100000 in decide,
    by set_option maxRecDepth 100000 in decide, ?_⟩
  intro h
  have e : (Compare (some (.string "x\ny")) (some (.string "x\ny"))
      prefixedOptions.WithYAMLOutput).2 = "x\ny" := by
    set_option maxRecDepth 100000 in decide
  rw [e] at h
  have := h ['x'] ['y'] rfl
  revert this
  decide

/-- C11, amended: when no marker, prefix or indent holds a line feed, and no
number, string or key is written with a line feed, every line of the rendering of
`Compare` after the first starts with the prefix: each line feed of the rendering
is followed by the prefix. A line break writes, after the line feed, the prefix,
the indent once per level and the begin-marker of the open span. In the JSON
dialect no quoted string or key holds a line feed. -/
theorem prefix_starts_later_lines (a b : Value) (opts : Options)
    (ho : opts.NoLineFeeds)
    (ha : a.TextsOK NoLineFeed (defaultOutput opts))
    (hb : b.TextsOK NoLineFeed (defaultOutput opts)) :
    LineStarts opts.Prefix (Compare (some a) (some b) opts).2 ∧
    (∀ (c : Context) (s : String),
      (c.newline s).buf = c.buf ++ s ++ c.lastEnd ++ "\n" ++ c.opts.Prefix ++
        String.join (List.replicate c.level.toNat c.opts.Indent) ++ c.lastBegin) ∧
    ((defaultOutput opts).Output = JSON → ∀ s, NoLineFeed ((defaultOutput opts).quote s)) := by
  refine ⟨lineStarts_compare a b opts ho ha hb, ?_, ?_⟩
  · intro c s
    rw [newline_eq]; rfl
  · intro h s
    unfold Options.quote
    rw [if_pos h]
    exact noLineFeed_strconvQuote s

/-- Witness of C11: an object with a string and a nested array against an object
with another string, under the prefix `> `. -/
theorem prefix_starts_later_lines_witness :
    prefixedOptions.NoLineFeeds ∧
    LineStarts prefixedOptions.Prefix
      (Compare (some (.object [("a", .string "x"), ("b", .array [.number "1"])]))
        (some (.object [("a", .string "y")])) prefixedOptions).2 :=
  ⟨⟨by decide, by decide, fun t => by cases t <;> exact ⟨by decide, by decide⟩⟩,
    (prefix_starts_later_lines
      (.object [("a", .string "x"), ("b", .array [.number "1"])])
      (.object [("a", .string "y")]) prefixedOptions
      ⟨by decide, by decide, fun t => by cases t <;> exact ⟨by decide, by decide⟩⟩
      ⟨by decide, by simp only [Value.TextsOK]; decide, by decide,
        ⟨by simp only [Value.TextsOK]; decide, trivial⟩, trivial⟩
      ⟨by decide, by simp only [Value.TextsOK]; decide, trivial⟩).1⟩

/-! ## The stream of markers and line breaks is balanced -/

theorem spanRun_append (l r : List Event) : ∀ st,
    spanRun st (l ++ r) = (spanRun st l).bind (fun s => spanRun s r) := by
  induction l with
  | nil => intro st; rfl
  | cons e l ih =>
    intro st
    simp only [List.cons_append, spanRun]
    cases spanStep st e with
    | none => rfl
    | some st2 => exact ih st2

theorem spanRun_append_of (l r : List Event) (st s : Option Span)
    (h : spanRun st l = some s) : spanRun st (l ++ r) = spanRun s r := by
  rw [spanRun_append, h]; rfl

theorem spanRun_prefix (l r : List Event) (st fin : Option Span)
    (h : spanRun st (l ++ r) = some fin) : ∃ s, spanRun st l = some s ∧ spanRun s r = some fin := by
  rw [spanRun_append] at h
  cases hl : spanRun st l with
  | none => rw [hl] at h; simp at h
  | some s => rw [hl] at h; exact ⟨s, rfl, h⟩

theorem spanRun_opened (t : Span) (r : List Event) (s fin : Option Span)
    (h : spanRun s (.opened t :: r) = some fin) :
    s = none ∧ spanRun (some t) r = some fin := by
  cases s with
  | none => exact ⟨rfl, h⟩
  | some x => simp [spanRun, spanStep] at h

theorem spanRun_lineBreak (r : List Event) (s fin : Option Span)
    (h : spanRun s (.lineBreak :: r) = some fin) : s = none := by
  cases s with
  | none => rfl
  | some x => simp [spanRun, spanStep] at h

theorem spanRun_open_next (t : Span) (r : List Event)
    (h : spanRun (some t) r = some none) : ∃ r2, r = .closed t :: r2 := by
  cases r with
  | nil => simp [spanRun] at h
  | cons e r2 =>
    cases e with
    | opened x => simp [spanRun, spanStep] at h
    | lineBreak => simp [spanRun, spanStep] at h
    | closed x =>
      by_cases hx : t = x
      · subst hx; exact ⟨r2, rfl⟩
      · simp [spanRun, spanStep, hx] at h

theorem balanced_opened_closed (es : List Event) (h : Balanced es) (l r : List Event)
    (t : Span) (he : es = l ++ .opened t :: r) : ∃ r2, r = .closed t :: r2 := by
  unfold Balanced at h
  rw [he] at h
  obtain ⟨s, _, h2⟩ := spanRun_prefix _ _ _ _ h
  exact spanRun_open_next t r (spanRun_opened t r s none h2).2

theorem balanced_lineBreak (es : List Event) (h : Balanced es) (l r : List Event)
    (he : es = l ++ .lineBreak :: r) : Balanced l := by
  unfold Balanced at h
  rw [he] at h
  obtain ⟨s, h1, h2⟩ := spanRun_prefix _ _ _ _ h
  rw [spanRun_lineBreak r s none h2] at h1
  exact h1

theorem balanced_prefix (es : List Event) (h : Balanced es) (l r : List Event)
    (he : es = l ++ r) : ∃ s, spanRun none l = some s := by
  unfold Balanced at h
  rw [he] at h
  obtain ⟨s, h1, _⟩ := spanRun_prefix _ _ _ _ h
  exact ⟨s, h1⟩

mutual

theorem textsOK_true (o : Options) : ∀ v : Value, v.TextsOK (fun _ => True) o
  | .null => by rw [Value.TextsOK]; trivial
  | .bool _ => by rw [Value.TextsOK]; trivial
  | .number _ => by rw [Value.TextsOK]; trivial
  | .string _ => by rw [Value.TextsOK]; trivial
  | .array vv => by rw [Value.TextsOK]; exact itemsOK_true o vv
  | .object m => by rw [Value.TextsOK]; exact entriesOK_true o m

theorem itemsOK_true (o : Options) : ∀ vv : List Value, itemsOK (fun _ => True) o vv
  | [] => by rw [itemsOK]; trivial
  | v :: rest => by rw [itemsOK]; exact ⟨textsOK_true o v, itemsOK_true o rest⟩

theorem entriesOK_true (o : Options) :
    ∀ m : List (String × Value), entriesOK (fun _ => True) o m
  | [] => by rw [entriesOK]; trivial
  | (k, v) :: rest => by
    rw [entriesOK]; exact ⟨trivial, textsOK_true o v, entriesOK_true o rest⟩

end

namespace Context

theorem spanInv_stepInv (o : Options) : StepInv o (fun _ => True) (SpanInv o) where
  opts := fun _ h => h.1
  write := fun c s _ h => h
  newline := fun c s _ h => by
    refine ⟨by rw [newline_opts]; exact h.1, ?_⟩
    rw [newline_lastTag, newline_eq]
    show spanRun none (c.trace ++ _) = _
    rw [spanRun_append_of _ _ _ _ h.2]
    cases c.lastTag with
    | none => rfl
    | some t => simp [spanRun, spanStep]
  level := fun c l h => h
  tag := fun c t h => by
    by_cases hc : c.lastTag = some t
    · rw [tag_of_open c t hc]; exact h
    · refine ⟨by rw [tag_opts]; exact h.1, ?_⟩
      rw [tag_lastTag, tag_eq_of_ne c t hc]
      show spanRun none (c.trace ++ _) = _
      rw [spanRun_append_of _ _ _ _ h.2]
      cases c.lastTag with
      | none => rfl
      | some s => simp [spanRun, spanStep]
  result := fun c d h => ⟨by rw [result_opts]; exact h.1, by
    rw [result_trace, result_lastTag]; exact h.2⟩

theorem spanInv_printDiff (a b : Value) (c : Context) (h : spanRun none c.trace = some c.lastTag) :
    spanRun none (printDiff a b c).trace = some (printDiff a b c).lastTag :=
  ((spanInv_stepInv c.opts).step_printDiff (fun _ _ => trivial) a b c
    (textsOK_true _ a) (textsOK_true _ b) ⟨rfl, h⟩).2

theorem balanced_writeLastTagEnd (c : Context) (h : spanRun none c.trace = some c.lastTag) :
    Balanced c.writeLastTagEnd.trace := by
  unfold Balanced writeLastTagEnd
  cases hl : c.lastTag with
  | none => rw [hl] at h; exact h
  | some t =>
    rw [hl] at h
    show spanRun none (c.trace ++ [Event.closed t]) = some none
    rw [spanRun_append_of _ _ _ _ h]
    simp [spanRun, spanStep]

end Context

theorem balanced_finalContext (a b : Value) (opts : Options) :
    Balanced (finalContext a b opts).trace :=
  balanced_writeLastTagEnd _ (spanInv_printDiff a b _ rfl)

theorem compare_eq_finalContext (a b : Value) (opts : Options) :
    Compare (some a) (some b) opts =
      ((finalContext a b opts).diff, (finalContext a b opts).buf) := by
  rw [compare_some]
  unfold finalContext
  rw [writeLastTagEnd_diff]

/-! ## The nesting level in the JSON dialect -/

namespace Context

@[simp] theorem newline_level (c : Context) (s : String) : (c.newline s).level = c.level := by
  rw [newline_eq]

@[simp] theorem key_level (c : Context) (k : String) : (c.key k).level = c.level := rfl

@[simp] theorem writeTypeMaybe_level (c : Context) (v : Value) :
    (c.writeTypeMaybe v).level = c.level := by
  rw [writeTypeMaybe_eq]; rfl

theorem json_level_writeStartList (c : Context) (h : c.opts.Output = JSON) :
    c.writeStartList.level = c.level + 1 := by
  simp [writeStartList, Context.Output, h, jsonWriteStartList]

theorem json_level_writeEndList (c : Context) (h : c.opts.Output = JSON) :
    c.writeEndList.level = c.level := by
  simp [writeEndList, Context.Output, h, jsonWriteEndList]

theorem json_level_writeStartMap (c : Context) (h : c.opts.Output = JSON) :
    c.writeStartMap.level = c.level + 1 := by
  simp [writeStartMap, Context.Output, h, jsonWriteStartMap]

theorem json_level_writeEndMap (c : Context) (h : c.opts.Output = JSON) :
    c.writeEndMap.level = c.level := by
  simp [writeEndMap, Context.Output, h, jsonWriteEndMap]

theorem json_level_writeStartListItem (c : Context) (h : c.opts.Output = JSON) :
    c.writeStartListItem.level = c.level := by
  simp [writeStartListItem, Context.Output, h, jsonWriteStartListItem]

theorem json_level_jsonWriteEndOfItem (c : Context) (i len : Int) :
    (c.jsonWriteEndOfItem i len).level = if i = len - 1 then c.level - 1 else c.level := by
  unfold jsonWriteEndOfItem
  by_cases hi : i = len - 1
  · simp [hi]
  · simp [hi]

theorem json_level_writeEndOfItem (c : Context) (i len : Int) (h : c.opts.Output = JSON) :
    (c.writeEndOfItem i len).level = if i = len - 1 then c.level - 1 else c.level := by
  have : c.writeEndOfItem i len = c.jsonWriteEndOfItem i len := by
    simp [writeEndOfItem, Context.Output, h]
  rw [this, json_level_jsonWriteEndOfItem]

theorem json_level_writeListItem (c : Context) (i len : Int) (wv : Context → Context)
    (h : c.opts.Output = JSON) (hl : (wv c).level = c.level) :
    (c.writeListItem i wv len).level = if i = len - 1 then c.level - 1 else c.level := by
  have : c.writeListItem i wv len = (wv c).jsonWriteEndOfItem i len := by
    simp [writeListItem, Context.Output, h, jsonWriteListItem]
  rw [this, json_level_jsonWriteEndOfItem, hl]

theorem json_level_writeMapItem (c : Context) (i len : Int) (k : String)
    (wv : Context → Context) (h : c.opts.Output = JSON)
    (hl : (wv (c.key k)).level = c.level) :
    (c.writeMapItem i k wv len).level = if i = len - 1 then c.level - 1 else c.level := by
  have : c.writeMapItem i k wv len = (wv (c.key k)).jsonWriteEndOfItem i len := by
    simp [writeMapItem, Context.Output, h, jsonWriteMapItem]
  rw [this, json_level_jsonWriteEndOfItem, hl]

theorem writeListItem_opts (c : Context) (i len : Int) (wv : Context → Context)
    (ho : ∀ d, (wv d).opts = d.opts) : (c.writeListItem i wv len).opts = c.opts := by
  unfold writeListItem jsonWriteListItem yamlWriteListItem jsonWriteEndOfItem
  split
  · split <;> simp [ho]
  · split
    · split <;> simp [ho]
    · rfl

theorem writeMapItem_opts (c : Context) (i len : Int) (k : String) (wv : Context → Context)
    (ho : ∀ d, (wv d).opts = d.opts) : (c.writeMapItem i k wv len).opts = c.opts := by
  unfold writeMapItem jsonWriteMapItem yamlWriteMapItem jsonWriteEndOfItem
  split
  · split <;> simp [ho]
  · split
    · split <;> simp [ho]
    · rfl

mutual

theorem json_level_writeValue : ∀ (v : Value) (full : Bool) (c : Context),
    c.opts.Output = JSON → (writeValue v full c).level = c.level
  | .null, _, c, _ => by rw [writeValue]; simp
  | .bool _, _, c, _ => by rw [writeValue]; simp
  | .number _, _, c, _ => by rw [writeValue]; simp
  | .string _, _, c, _ => by rw [writeValue]; simp
  | .array vv, full, c, h => by
    rw [writeValue]
    simp only [writeTypeMaybe_level]
    cases full
    · simp
    · by_cases h0 : vv.length = 0
      · simp [h0]
      · simp only [if_true, if_neg h0]
        have h1 : c.writeStartList.opts.Output = JSON := by rw [writeStartList_opts]; exact h
        have h2 := json_level_writeListItems vv 0 vv.length c.writeStartList h1 (by simp)
          (fun e => h0 (by rw [e]; rfl))
        rw [json_level_writeEndList _ h2.2, h2.1, json_level_writeStartList c h]
        omega
  | .object vv, full, c, h => by
    rw [writeValue]
    simp only [writeTypeMaybe_level]
    cases full
    · simp
    · by_cases h0 : vv.length = 0
      · simp [h0]
      · simp only [if_true, if_neg h0]
        have h1 : c.writeStartMap.opts.Output = JSON := by rw [writeStartMap_opts]; exact h
        have h2 := json_level_writeMapItems vv 0 vv.length c.writeStartMap h1 (by simp)
          (fun e => h0 (by rw [e]; rfl))
        rw [json_level_writeEndMap _ h2.2, h2.1, json_level_writeStartMap c h]
        omega

theorem json_level_writeListItems : ∀ (vv : List Value) (i len : Int) (c : Context),
    c.opts.Output = JSON → len = i + vv.length → vv ≠ [] →
    (writeListItems vv i len c).level = c.level - 1 ∧
      (writeListItems vv i len c).opts.Output = JSON
  | [], _, _, _, _, _, hne => absurd rfl hne
  | v :: rest, i, len, c, h, hlen, _ => by
    rw [writeListItems]
    have hl := json_level_writeListItem c i len (fun d => writeValue v true d) h
      (json_level_writeValue v true c h)
    have ho : (c.writeListItem i (fun d => writeValue v true d) len).opts.Output = JSON := by
      rw [writeListItem_opts _ _ _ _ (fun d => writeValue_opts v true d)]; exact h
    cases rest with
    | nil =>
      rw [writeListItems]
      refine ⟨?_, ho⟩
      rw [hl, if_pos]
      simp at hlen; omega
    | cons w rest2 =>
      have ih := json_level_writeListItems (w :: rest2) (i + 1) len _ ho
        (by simp at hlen ⊢; omega) (by simp)
      refine ⟨?_, ih.2⟩
      rw [ih.1, hl, if_neg]
      simp at hlen; omega

theorem json_level_writeMapItems : ∀ (vv : List (String × Value)) (i len : Int) (c : Context),
    c.opts.Output = JSON → len = i + vv.length → vv ≠ [] →
    (writeMapItems vv i len c).level = c.level - 1 ∧
      (writeMapItems vv i len c).opts.Output = JSON
  | [], _, _, _, _, _, hne => absurd rfl hne
  | (k, v) :: rest, i, len, c, h, hlen, _ => by
    rw [writeMapItems]
    have hl := json_level_writeMapItem c i len k (fun d => writeValue v true d) h
      (by rw [json_level_writeValue v true (c.key k) (by simpa using h)]; rfl)
    have ho : (c.writeMapItem i k (fun d => writeValue v true d) len).opts.Output = JSON := by
      rw [writeMapItem_opts _ _ _ _ _ (fun d => writeValue_opts v true d)]; exact h
    cases rest with
    | nil =>
      rw [writeMapItems]
      refine ⟨?_, ho⟩
      rw [hl, if_pos]
      simp at hlen; omega
    | cons w rest2 =>
      have ih := json_level_writeMapItems (w :: rest2) (i + 1) len _ ho
        (by simp at hlen ⊢; omega) (by simp)
      refine ⟨?_, ih.2⟩
      rw [ih.1, hl, if_neg]
      simp at hlen; omega

end

theorem json_level_printMismatch (a b : Value) (c : Context) (h : c.opts.Output = JSON) :
    (c.printMismatch a b).level = c.level := by
  unfold printMismatch writeMismatch
  rw [json_level_writeValue b false _ (by simpa using h)]
  simp only [writeString_level]
  rw [json_level_writeValue a false _ (by simpa using h)]
  simp

theorem json_level_leaf (a b : Value) (c : Context) (h : c.opts.Output = JSON)
    (harr : ∀ sa sb, a = .array sa → b ≠ .array sb)
    (hobj : ∀ ma mb, a = .object ma → b ≠ .object mb) :
    (printDiff a b c).level = c.level := by
  rw [printDiff_leaf a b c harr hobj]
  split
  · rw [result_level, json_level_writeValue a true _ (by simpa using h), tag_level]
  · rw [result_level, json_level_printMismatch a b c h]

theorem json_level_printRemovedItems : ∀ (sa : List Value) (i max : Int) (c : Context),
    c.opts.Output = JSON → max = i + sa.length → sa ≠ [] →
    (printRemovedItems sa i max c).level = c.level - 1
  | [], _, _, _, _, _, hne => absurd rfl hne
  | x :: sa, i, max, c, h, hlen, _ => by
    rw [printRemovedItems]
    have ho : (((writeValue x true (c.writeStartListItem.tag .Removed)).result
        SupersetMatch).tag .Normal).opts.Output = JSON := by simpa using h
    have hl : ((((writeValue x true (c.writeStartListItem.tag .Removed)).result
        SupersetMatch).tag .Normal).writeEndOfItem i max).level =
          if i = max - 1 then c.level - 1 else c.level := by
      rw [json_level_writeEndOfItem _ i max ho, tag_level, result_level,
        json_level_writeValue x true _ (by simpa using h), tag_level,
        json_level_writeStartListItem c h]
    cases sa with
    | nil =>
      rw [printRemovedItems, hl, if_pos]
      simp at hlen; omega
    | cons w rest =>
      rw [json_level_printRemovedItems (w :: rest) (i + 1) max _ (by simpa using h)
        (by simp at hlen ⊢; omega) (by simp), hl, if_neg]
      simp at hlen; omega

theorem json_level_printAddedItems : ∀ (sb : List Value) (i max : Int) (c : Context),
    c.opts.Output = JSON → max = i + sb.length → sb ≠ [] →
    (printAddedItems sb i max c).level = c.level - 1
  | [], _, _, _, _, _, hne => absurd rfl hne
  | y :: sb, i, max, c, h, hlen, _ => by
    rw [printAddedItems]
    have ho : (((writeValue y true (c.writeStartListItem.tag .Added)).result
        NoMatch).tag .Normal).opts.Output = JSON := by simpa using h
    have hl : ((((writeValue y true (c.writeStartListItem.tag .Added)).result
        NoMatch).tag .Normal).writeEndOfItem i max).level =
          if i = max - 1 then c.level - 1 else c.level := by
      rw [json_level_writeEndOfItem _ i max ho, tag_level, result_level,
        json_level_writeValue y true _ (by simpa using h), tag_level,
        json_level_writeStartListItem c h]
    cases sb with
    | nil =>
      rw [printAddedItems, hl, if_pos]
      simp at hlen; omega
    | cons w rest =>
      rw [json_level_printAddedItems (w :: rest) (i + 1) max _ (by simpa using h)
        (by simp at hlen ⊢; omega) (by simp), hl, if_neg]
      simp at hlen; omega

theorem json_level_forKeys (body : Int → String → Context → Context) (len : Int)
    (hbody : ∀ i k c, c.opts.Output = JSON →
      (body i k c).level = (if i = len - 1 then c.level - 1 else c.level) ∧
        (body i k c).opts.Output = JSON) :
    ∀ (keys : List String) (i : Int) (c : Context),
      c.opts.Output = JSON → len = i + keys.length → keys ≠ [] →
      (forKeys body keys i c).level = c.level - 1
  | [], _, _, _, _, hne => absurd rfl hne
  | k :: keys, i, c, h, hlen, _ => by
    rw [forKeys]
    have hb := hbody i k c h
    cases keys with
    | nil =>
      rw [forKeys, hb.1, if_pos]
      simp at hlen; omega
    | cons k2 rest =>
      rw [json_level_forKeys body len hbody (k2 :: rest) (i + 1) _ hb.2
        (by simp at hlen ⊢; omega) (by simp), hb.1, if_neg]
      simp at hlen; omega

theorem maxLen_cons (x y : Value) (sa sb : List Value) :
    maxLen (x :: sa) (y :: sb) = maxLen sa sb + 1 := by
  unfold maxLen
  simp only [List.length_cons]
  split <;> split <;> push_cast at * <;> omega

theorem maxLen_nil_right (sa : List Value) : maxLen sa [] = sa.length := by
  unfold maxLen
  simp

theorem maxLen_nil_left (sb : List Value) : maxLen [] sb = sb.length := by
  unfold maxLen
  split
  · rfl
  · rename_i h
    simp only [List.length_nil, Nat.cast_zero] at h ⊢
    omega

mutual

theorem json_level_printDiff : ∀ (a b : Value) (c : Context),
    c.opts.Output = JSON → (printDiff a b c).level = c.level
  | .array sa, b, c, h => by
    cases b with
    | array sb =>
      rw [printDiff_array]
      by_cases h0 : maxLen sa sb = 0
      · rw [if_pos h0]; simp
      · rw [if_neg h0]
        rw [writeTypeMaybe_level, json_level_writeEndList _ (by
          rw [(opts_travInv _).inv_printSliceItems sa sb 0 (maxLen sa sb) _ rfl]
          simpa using h)]
        rw [json_level_printSliceItems sa sb 0 (maxLen sa sb) _ (by simpa using h) (by simp)
          (fun e => h0 ((maxLen_eq_zero sa sb).2 e)),
          json_level_writeStartList _ (by simpa using h), tag_level]
        omega
    | _ => exact json_level_leaf _ _ c h (by simp) (by simp)
  | .object ma, b, c, h => by
    cases b with
    | object mb =>
      rw [printDiff_object]
      by_cases h0 : (unionKeys ma mb).length = 0
      · rw [if_pos h0]; simp
      · rw [if_neg h0]
        have hk : unionKeys ma mb ≠ [] := fun e => h0 (by rw [e]; rfl)
        rw [writeTypeMaybe_level, json_level_writeEndMap _ (by
          rw [forKeys_inv (I := fun d => d.opts.Output = JSON) _ ?_ _ _ _
            (by simpa using h)]
          intro i k d hd
          unfold printMapItem
          simp only [writeEndOfItem_opts, tag_opts]
          cases ma.lookup k <;> cases mb.lookup k <;> simpa using hd)]
        rw [json_level_forKeys _ (unionKeys ma mb).length ?_ (unionKeys ma mb) 0 _
          (by simpa using h) (by simp) hk, json_level_writeStartMap _ (by simpa using h),
          tag_level]
        · omega
        · intro i k d hd
          unfold printMapItem
          constructor
          · cases ha : ma.lookup k with
            | none =>
              cases hb : mb.lookup k with
              | none =>
                simp only []
                rw [json_level_writeEndOfItem _ _ _ (by simpa using hd), tag_level]
              | some vb =>
                simp only []
                rw [json_level_writeEndOfItem _ _ _ (by simpa using hd), tag_level,
                  result_level, json_level_writeValue vb true _ (by simpa using hd)]
                simp
            | some va =>
              cases hb : mb.lookup k with
              | none =>
                simp only []
                rw [json_level_writeEndOfItem _ _ _ (by simpa using hd), tag_level,
                  result_level, json_level_writeValue va true _ (by simpa using hd)]
                simp
              | some vb =>
                simp only []
                rw [json_level_writeEndOfItem _ _ _ (by simpa using hd), tag_level,
                  json_level_printDiffAt ma k vb _ (by simpa using hd)]
                simp
          · simp only [writeEndOfItem_opts, tag_opts]
            cases ma.lookup k <;> cases mb.lookup k <;> simpa using hd
    | _ => exact json_level_leaf _ _ c h (by simp) (by simp)
  | .null, b, c, h => json_level_leaf _ _ c h (by simp) (by simp)
  | .bool _, b, c, h => json_level_leaf _ _ c h (by simp) (by simp)
  | .number _, b, c, h => json_level_leaf _ _ c h (by simp) (by simp)
  | .string _, b, c, h => json_level_leaf _ _ c h (by simp) (by simp)

theorem json_level_printSliceItems : ∀ (sa sb : List Value) (i max : Int) (c : Context),
    c.opts.Output = JSON → max = i + maxLen sa sb → ¬ (sa = [] ∧ sb = []) →
    (printSliceItems sa sb i max c).level = c.level - 1
  | x :: sa, y :: sb, i, max, c, h, hlen, _ => by
    rw [printSliceItems]
    rw [maxLen_cons] at hlen
    have ho : ((printDiff x y c.writeStartListItem).tag .Normal).opts.Output = JSON := by
      simpa using h
    have hl : (((printDiff x y c.writeStartListItem).tag .Normal).writeEndOfItem i max).level =
        if i = max - 1 then c.level - 1 else c.level := by
      rw [json_level_writeEndOfItem _ i max ho, tag_level,
        json_level_printDiff x y _ (by simpa using h), json_level_writeStartListItem c h]
    by_cases h0 : maxLen sa sb = 0
    · obtain ⟨rfl, rfl⟩ := (maxLen_eq_zero sa sb).1 h0
      rw [printSliceItems, printAddedItems, hl, if_pos]
      omega
    · rw [json_level_printSliceItems sa sb (i + 1) max _ (by simpa using h) (by omega)
        (fun e => h0 ((maxLen_eq_zero sa sb).2 e)), hl, if_neg]
      omega
  | x :: sa, [], i, max, c, h, hlen, _ => by
    rw [printSliceItems]
    rw [maxLen_nil_right] at hlen
    exact json_level_printRemovedItems (x :: sa) i max c h hlen (by simp)
  | [], y :: sb, i, max, c, h, hlen, _ => by
    rw [printSliceItems]
    rw [maxLen_nil_left] at hlen
    exact json_level_printAddedItems (y :: sb) i max c h hlen (by simp)
  | [], [], _, _, _, _, _, hne => absurd ⟨rfl, rfl⟩ hne

theorem json_level_printDiffAt : ∀ (ma : List (String × Value)) (k : String) (vb : Value)
    (c : Context), c.opts.Output = JSON → (printDiffAt ma k vb c).level = c.level
  | [], _, _, _, _ => by rw [printDiffAt]
  | (k1, va) :: ma, k, vb, c, h => by
    rw [printDiffAt]
    by_cases hk : k = k1
    · rw [if_pos hk]; exact json_level_printDiff va vb c h
    · rw [if_neg hk]; exact json_level_printDiffAt ma k vb c h

end

end Context

/-! ## Swapping the two documents -/

theorem deepEqual_symm {a b : Value} (h : DeepEqual a b) : DeepEqual b a := by
  induction h with
  | null => exact .null
  | bool x => exact .bool x
  | number t => exact .number t
  | string s => exact .string s
  | array xs ys hl _ ih =>
    exact .array ys xs hl.symm (fun i y x hy hx => ih i x y hx hy)
  | object ma mb hk _ ih =>
    exact .object mb ma (fun k => (hk k).symm) (fun k y x hy hx => ih k x y hx hy)

theorem deepEqual_of_superset_both {a b : Value} (h1 : Superset a b) :
    Superset b a → DeepEqual a b := by
  induction h1 with
  | null => intro _; exact .null
  | bool x => intro _; exact .bool x
  | number t => intro _; exact .number t
  | string s => intro _; exact .string s
  | array xs ys hl _ ih =>
    intro h2
    cases h2 with
    | array _ _ hl2 hs2 =>
      refine .array xs ys (Nat.le_antisymm hl2 hl) ?_
      intro i x y hx hy
      by_contra hne
      exact hne (ih i x y hx hy hne
        (hs2 i y x hy hx (fun hd => hne (deepEqual_symm hd))))
  | object ma mb hk _ ih =>
    intro h2
    cases h2 with
    | object _ _ hk2 hs2 =>
      refine .object ma mb ?_ ?_
      · intro k
        have h1 := hk k
        have h2 := hk2 k
        cases ha : (ma.lookup k).isSome <;> cases hb : (mb.lookup k).isSome <;> simp_all
      · intro k x y hx hy
        by_contra hne
        exact hne (ih k x y hx hy hne
          (hs2 k y x hy hx (fun hd => hne (deepEqual_symm hd))))

theorem compare_fullMatch_swap (a b : Value) (o1 o2 : Options) :
    (Compare (some a) (some b) o1).1 = FullMatch ↔
      (Compare (some b) (some a) o2).1 = FullMatch := by
  rw [compare_fst, compare_fst, traversal_fullMatch_iff, traversal_fullMatch_iff]
  exact ⟨deepEqual_symm, deepEqual_symm⟩

theorem compare_supersetMatch_swap (a b : Value) (o1 o2 : Options)
    (h : (Compare (some a) (some b) o1).1 = SupersetMatch) :
    (Compare (some b) (some a) o2).1 = NoMatch := by
  rw [compare_fst] at *
  rw [traversal_supersetMatch_iff] at h
  rw [traversal_noMatch_iff]
  exact fun h2 => h.2 (deepEqual_of_superset_both h.1 h2)

/-! ## The traversal over a Printer records the same outcomes -/

theorem printer_ctx_onCtx (p : Printer) (f : Context → Context) : (p.onCtx f).ctx = f p.ctx := by
  cases p <;> rfl

theorem printer_diff_onCtx (p : Printer) (f : Context → Context)
    (h : ∀ c, (f c).diff = c.diff) : (p.onCtx f).Diff = p.Diff := by
  unfold Printer.Diff
  rw [printer_ctx_onCtx, h]

@[simp] theorem printer_diff_tagNormal (p : Printer) : p.PrintNormalTag.Diff = p.Diff :=
  printer_diff_onCtx p _ (fun c => tag_diff c _)

@[simp] theorem printer_diff_tagChanged (p : Printer) : p.PrintChangedTag.Diff = p.Diff :=
  printer_diff_onCtx p _ (fun c => tag_diff c _)

@[simp] theorem printer_diff_tagAdded (p : Printer) : p.PrintAddedTag.Diff = p.Diff :=
  printer_diff_onCtx p _ (fun c => tag_diff c _)

@[simp] theorem printer_diff_tagRemoved (p : Printer) : p.PrintRemovedTag.Diff = p.Diff :=
  printer_diff_onCtx p _ (fun c => tag_diff c _)

@[simp] theorem printer_diff_writeString (p : Printer) (s : String) :
    (p.WriteString s).Diff = p.Diff :=
  printer_diff_onCtx p _ (fun _ => rfl)

@[simp] theorem printer_diff_writeTypeMaybe (p : Printer) (v : Value) :
    (p.WriteTypeMaybe v).Diff = p.Diff :=
  printer_diff_onCtx p _ (fun c => writeTypeMaybe_diff c v)

@[simp] theorem printer_diff_incrementLevel (p : Printer) : p.IncrementLevel.Diff = p.Diff :=
  printer_diff_onCtx p _ (fun _ => rfl)

@[simp] theorem printer_diff_decrementLevel (p : Printer) : p.decrementLevel.Diff = p.Diff :=
  printer_diff_onCtx p _ (fun _ => rfl)

@[simp] theorem printer_diff_newline (p : Printer) (s : String) : (p.Newline s).Diff = p.Diff :=
  printer_diff_onCtx p _ (fun c => newline_diff c s)

theorem printer_diff_setResult (p : Printer) (r : Difference) :
    (p.SetResult r).Diff = resultDiff p.Diff r := by
  unfold Printer.SetResult Printer.Diff
  rw [printer_ctx_onCtx, result_diff]

@[simp] theorem printer_diff_printKey (p : Printer) (k : String) : (p.PrintKey k).Diff = p.Diff := by
  cases p <;> simp [Printer.PrintKey]

@[simp] theorem printer_diff_printFirst (p : Printer) : p.PrintFirst.Diff = p.Diff := by
  cases p <;> simp [Printer.PrintFirst]

@[simp] theorem printer_diff_startList (p : Printer) : p.PrintStartList.Diff = p.Diff := by
  cases p <;> simp [Printer.PrintStartList]

@[simp] theorem printer_diff_endList (p : Printer) : p.PrintEndList.Diff = p.Diff := by
  cases p <;> simp [Printer.PrintEndList]

@[simp] theorem printer_diff_startListItem (p : Printer) : p.PrintStartListItem.Diff = p.Diff := by
  cases p <;> simp [Printer.PrintStartListItem]

@[simp] theorem printer_diff_startMap (p : Printer) : p.PrintStartMap.Diff = p.Diff := by
  cases p <;> simp [Printer.PrintStartMap]

@[simp] theorem printer_diff_endMap (p : Printer) : p.PrintEndMap.Diff = p.Diff := by
  cases p <;> simp [Printer.PrintEndMap]

@[simp] theorem printer_diff_endOfItem (p : Printer) (last : Bool) :
    (p.PrintEndOfItem last).Diff = p.Diff := by
  cases p <;> cases last <;> simp [Printer.PrintEndOfItem]

theorem printer_diff_listItem (p : Printer) (pv : Printer → Printer) (last : Bool)
    (h : ∀ q, (pv q).Diff = q.Diff) : (p.PrintListItem pv last).Diff = p.Diff := by
  cases p <;> cases last <;> simp [Printer.PrintListItem, h]

theorem printer_diff_mapItem (p : Printer) (k : String) (pv : Printer → Printer) (last : Bool)
    (h : ∀ q, (pv q).Diff = q.Diff) : (p.PrintMapItem k pv last).Diff = p.Diff := by
  cases p <;> cases last <;> simp [Printer.PrintMapItem, h]

mutual

theorem printer_diff_printValue : ∀ (v : Value) (full : Bool) (p : Printer),
    (Printer.printValue v full p).Diff = p.Diff
  | .null, _, p => by rw [Printer.printValue]; simp
  | .bool _, _, p => by rw [Printer.printValue]; simp
  | .number _, _, p => by rw [Printer.printValue]; simp
  | .string _, _, p => by rw [Printer.printValue]; simp
  | .array vv, full, p => by
    rw [Printer.printValue]
    simp only [printer_diff_writeTypeMaybe]
    cases full
    · simp
    · by_cases h : vv.length = 0
      · simp [h]
      · simp only [if_true, if_neg h, printer_diff_endList]
        rw [printer_diff_printListItems vv]
        simp
  | .object vv, full, p => by
    rw [Printer.printValue]
    simp only [printer_diff_writeTypeMaybe]
    cases full
    · simp
    · by_cases h : vv.length = 0
      · simp [h]
      · simp only [if_true, if_neg h, printer_diff_endMap]
        rw [printer_diff_printMapItems vv]
        simp

theorem printer_diff_printListItems : ∀ (vv : List Value) (i len : Int) (p : Printer),
    (Printer.printListItems vv i len p).Diff = p.Diff
  | [], _, _, p => by rw [Printer.printListItems]
  | v :: rest, i, len, p => by
    rw [Printer.printListItems, printer_diff_printListItems rest]
    exact printer_diff_listItem _ _ _ (fun q => printer_diff_printValue v true q)

theorem printer_diff_printMapItems : ∀ (vv : List (String × Value)) (i len : Int) (p : Printer),
    (Printer.printMapItems vv i len p).Diff = p.Diff
  | [], _, _, p => by rw [Printer.printMapItems]
  | (k, v) :: rest, i, len, p => by
    rw [Printer.printMapItems, printer_diff_printMapItems rest]
    exact printer_diff_mapItem _ _ _ _ (fun q => printer_diff_printValue v true q)

end

attribute [simp] printer_diff_printValue

@[simp] theorem printer_diff_printChanged (p : Printer) (a b : Value) :
    (p.printChanged a b).Diff = p.Diff := by
  simp [Printer.printChanged, Printer.printMismatch]

theorem printDiffBody_array (sa sb : List Value) (p : Printer) :
    Printer.printDiffBody (.array sa) (.array sb) p =
      if maxLen sa sb = 0 then p.PrintNormalTag.WriteString "[]"
      else
        ((Printer.printSliceItems sa sb 0 (maxLen sa sb)
          p.PrintNormalTag.IncrementLevel.PrintStartList).PrintEndList).WriteTypeMaybe
          (.array sa) := rfl

theorem printDiffBody_object (ma mb : List (String × Value)) (p : Printer) :
    Printer.printDiffBody (.object ma) (.object mb) p =
      if (unionKeys ma mb).length = 0 then
        (p.PrintNormalTag.WriteString "\x7b\x7d").WriteTypeMaybe (.object ma)
      else
        ((Printer.forKeys (Printer.printMapItem ma mb (unionKeys ma mb).length)
          (unionKeys ma mb) 0 p.PrintNormalTag.PrintStartMap).PrintEndMap).WriteTypeMaybe
          (.object ma) := rfl

theorem printDiffBody_leaf (a b : Value) (p : Printer)
    (harr : ∀ sa sb, a = .array sa → b ≠ .array sb)
    (hobj : ∀ ma mb, a = .object ma → b ≠ .object mb) :
    Printer.printDiffBody a b p =
      if sameLeaf a b then (Printer.printValue a true p.PrintNormalTag).SetResult FullMatch
      else (p.printChanged a b).SetResult NoMatch := by
  cases a with
  | null => cases b <;> rfl
  | bool x =>
    cases b with
    | bool y =>
      rw [Printer.printDiffBody]
      by_cases h : x = y <;> simp [Value.isNil, Value.kind, sameLeaf, h]
    | _ => rfl
  | number x =>
    cases b with
    | number y =>
      rw [Printer.printDiffBody]
      by_cases h : x = y <;> simp [Value.isNil, Value.kind, sameLeaf, h]
    | _ => rfl
  | string x =>
    cases b with
    | string y =>
      rw [Printer.printDiffBody]
      by_cases h : x = y <;> simp [Value.isNil, Value.kind, sameLeaf, h]
    | _ => rfl
  | array sa =>
    cases b with
    | array sb => exact absurd rfl (harr sa sb rfl)
    | _ => rfl
  | object ma =>
    cases b with
    | object mb => exact absurd rfl (hobj ma mb rfl)
    | _ => rfl

theorem printDiffBody_outcomes_leaf (a b : Value) (p : Printer)
    (harr : ∀ sa sb, a = .array sa → b ≠ .array sb)
    (hobj : ∀ ma mb, a = .object ma → b ≠ .object mb) :
    (Printer.printDiffBody a b p).Diff = (outcomes a b).foldl resultDiff p.Diff := by
  rw [printDiffBody_leaf a b p harr hobj, outcomes_leaf a b harr hobj]
  by_cases h : sameLeaf a b = true
  · rw [if_pos h, if_pos h]
    simp [printer_diff_setResult]
  · rw [if_neg h, if_neg h]
    simp [printer_diff_setResult]

theorem printer_removedItems_outcomes : ∀ (sa : List Value) (i max : Int) (p : Printer),
    (Printer.printRemovedItems sa i max p).Diff =
      (sa.map (fun _ => SupersetMatch)).foldl resultDiff p.Diff
  | [], _, _, _ => rfl
  | x :: sa, i, max, p => by
    rw [Printer.printRemovedItems, printer_removedItems_outcomes sa]
    simp [printer_diff_setResult]

theorem printer_addedItems_outcomes : ∀ (sb : List Value) (i max : Int) (p : Printer),
    (Printer.printAddedItems sb i max p).Diff =
      (sb.map (fun _ => NoMatch)).foldl resultDiff p.Diff
  | [], _, _, _ => rfl
  | y :: sb, i, max, p => by
    rw [Printer.printAddedItems, printer_addedItems_outcomes sb]
    simp [printer_diff_setResult]

theorem printer_forKeys_outcomes (body : Int → String → Printer → Printer)
    (f : String → List Difference)
    (h : ∀ i k p, (body i k p).Diff = (f k).foldl resultDiff p.Diff) :
    ∀ (keys : List String) (i : Int) (p : Printer),
      (Printer.forKeys body keys i p).Diff = (outcomesKeys f keys).foldl resultDiff p.Diff
  | [], _, _ => rfl
  | k :: keys, i, p => by
    rw [Printer.forKeys, printer_forKeys_outcomes body f h keys, h, outcomesKeys,
      List.foldl_append]

mutual

theorem printDiffBody_outcomes : ∀ (a b : Value) (p : Printer),
    (Printer.printDiffBody a b p).Diff = (outcomes a b).foldl resultDiff p.Diff
  | .array sa, b, p => by
    cases b with
    | array sb =>
      rw [printDiffBody_array, outcomes_array]
      by_cases h0 : maxLen sa sb = 0
      · rw [if_pos h0]
        obtain ⟨rfl, rfl⟩ := (maxLen_eq_zero sa sb).1 h0
        simp [outcomesItems]
      · rw [if_neg h0]
        simp only [printer_diff_writeTypeMaybe, printer_diff_endList]
        rw [printer_sliceItems_outcomes sa sb]
        simp
    | _ => exact printDiffBody_outcomes_leaf _ _ p (by simp) (by simp)
  | .object ma, b, p => by
    cases b with
    | object mb =>
      rw [printDiffBody_object, outcomes_object]
      by_cases h0 : (unionKeys ma mb).length = 0
      · rw [if_pos h0]
        have hk : unionKeys ma mb = [] := List.eq_nil_of_length_eq_zero h0
        rw [hk]
        simp [outcomesKeys]
      · rw [if_neg h0]
        simp only [printer_diff_writeTypeMaybe, printer_diff_endMap]
        rw [printer_forKeys_outcomes _ (outcomesEntry ma mb)]
        · simp
        · intro i k d
          unfold Printer.printMapItem outcomesEntry
          simp only [printer_diff_endOfItem, printer_diff_tagNormal]
          cases ha : ma.lookup k with
          | none =>
            cases hb : mb.lookup k with
            | none => rfl
            | some vb => simp [printer_diff_setResult]
          | some va =>
            cases hb : mb.lookup k with
            | none => simp [printer_diff_setResult]
            | some vb =>
              simp only []
              rw [printDiffBodyAt_outcomes ma k vb]
              simp
    | _ => exact printDiffBody_outcomes_leaf _ _ p (by simp) (by simp)
  | .null, b, p => printDiffBody_outcomes_leaf _ _ p (by simp) (by simp)
  | .bool _, b, p => printDiffBody_outcomes_leaf _ _ p (by simp) (by simp)
  | .number _, b, p => printDiffBody_outcomes_leaf _ _ p (by simp) (by simp)
  | .string _, b, p => printDiffBody_outcomes_leaf _ _ p (by simp) (by simp)

theorem printer_sliceItems_outcomes : ∀ (sa sb : List Value) (i max : Int) (p : Printer),
    (Printer.printSliceItems sa sb i max p).Diff =
      (outcomesItems sa sb).foldl resultDiff p.Diff
  | x :: sa, y :: sb, i, max, p => by
    rw [Printer.printSliceItems, outcomesItems, printer_sliceItems_outcomes sa sb,
      List.foldl_append]
    simp only [printer_diff_endOfItem, printer_diff_tagNormal]
    rw [printDiffBody_outcomes x y]
    simp
  | x :: sa, [], i, max, p => by
    rw [Printer.printSliceItems, outcomesItems]
    exact printer_removedItems_outcomes _ _ _ _
  | [], sb, i, max, p => by
    rw [Printer.printSliceItems, outcomesItems]
    exact printer_addedItems_outcomes _ _ _ _

theorem printDiffBodyAt_outcomes : ∀ (ma : List (String × Value)) (k : String) (vb : Value)
    (p : Printer),
    (Printer.printDiffBodyAt ma k vb p).Diff = (outcomesAt ma k vb).foldl resultDiff p.Diff
  | [], _, _, _ => by rw [Printer.printDiffBodyAt, outcomesAt]; rfl
  | (k1, va) :: ma, k, vb, p => by
    rw [Printer.printDiffBodyAt, outcomesAt]
    by_cases hk : k = k1
    · rw [if_pos hk, if_pos hk]; exact printDiffBody_outcomes va vb p
    · rw [if_neg hk, if_neg hk]; exact printDiffBodyAt_outcomes ma k vb p

end

theorem printer_printDiff_outcomes (p : Printer) (a b : Value) :
    (p.printDiff a b).Diff = (outcomes a b).foldl resultDiff p.Diff := by
  unfold Printer.printDiff
  rw [printDiffBody_outcomes]
  simp

theorem newPrinter_diff (opts : Options) : (NewPrinter opts).Diff = FullMatch := by
  unfold NewPrinter
  split <;> rfl

theorem printer_traversal_diff (a b : Value) (p : Printer) (c : Context)
    (h : p.Diff = c.diff) : (p.printDiff a b).Diff = (Context.printDiff a b c).diff := by
  rw [printer_printDiff_outcomes, printDiff_outcomes, h]

/-! ## Properties of the traversal as a whole -/

/-- C21: the marker and line-break events of the rendering that `Compare` returns
are balanced. Read in order, a begin-marker is written only when no span is open,
the next event after it is the end-marker of the same span, a line break is made
only when no span is open, and no span is open at the end. -/
theorem compare_spans_balanced (a b : Value) (opts : Options) :
    Compare (some a) (some b) opts =
      ((finalContext a b opts).diff, (finalContext a b opts).buf) ∧
    Balanced (finalContext a b opts).trace ∧
    (∀ (l r : List Event) (t : Span), (finalContext a b opts).trace = l ++ .opened t :: r →
      spanRun none l = some none ∧ ∃ r2, r = .closed t :: r2) ∧
    (∀ (l r : List Event), (finalContext a b opts).trace = l ++ .lineBreak :: r →
      Balanced l) ∧
    (∀ (l r : List Event), (finalContext a b opts).trace = l ++ r →
      ∃ s, spanRun none l = some s) := by
  have hb := balanced_finalContext a b opts
  refine ⟨compare_eq_finalContext a b opts, hb, ?_, ?_, ?_⟩
  · intro l r t he
    refine ⟨?_, balanced_opened_closed _ hb l r t he⟩
    have h := hb
    unfold Balanced at h
    rw [he] at h
    obtain ⟨s, h1, h2⟩ := spanRun_prefix _ _ _ _ h
    rw [(spanRun_opened t r s none h2).1] at h1
    exact h1
  · intro l r he
    exact balanced_lineBreak _ hb l r he
  · intro l r he
    exact balanced_prefix _ hb l r he

/-- C22, as the code has it: in the YAML dialect the traversal of `[1]` against
`[1]` from level 0 ends at level -1, the full rendering of `[1]` ends at level -1
and the full rendering of `{"a": 1}` at level 1; in the rendering of
`{"a": [1], "b": 2}` against itself the key `a` is indented and the key `b`,
written at level -1, is not. In the JSON dialect `printDiff` and `writeValue`
return at the level at which they started, and `Compare` ends at level 0. -/
theorem level_restored_in_json_not_in_yaml :
    (printDiff (.array [.number "1"]) (.array [.number "1"])
      (newContext DefaultConsoleOptions.WithYAMLOutput)).level = -1 ∧
    (writeValue (.array [.number "1"]) true
      (newContext DefaultConsoleOptions.WithYAMLOutput)).level = -1 ∧
    (writeValue (.object [("a", .number "1")]) true
      (newContext DefaultConsoleOptions.WithYAMLOutput)).level = 1 ∧
    (finalContext listThenKeyDoc listThenKeyDoc DefaultConsoleOptions.WithYAMLOutput).level =
      -1 ∧
    Compare (some listThenKeyDoc) (some listThenKeyDoc) DefaultConsoleOptions.WithYAMLOutput =
      (FullMatch, "\n  a: \n  - 1\nb: 2") ∧
    (∀ (a b : Value) (c : Context), c.opts.Output = JSON →
      (printDiff a b c).level = c.level) ∧
    (∀ (v : Value) (full : Bool) (c : Context), c.opts.Output = JSON →
      (writeValue v full c).level = c.level) ∧
    (∀ (a b : Value) (opts : Options), opts.Output = JSON ∨ opts.Output = "" →
      (finalContext a b opts).level = 0) := by
  refine ⟨by set_option maxRecDepth 100000 in decide,
    by set_option maxRecDepth 100000 in decide,
    by set_option maxRecDepth 100000 in decide,
    by set_option maxRecDepth 100000 in decide,
    by set_option maxRecDepth 100000 in decide,
    json_level_printDiff, json_level_writeValue, ?_⟩
  intro a b opts h
  have hj : (defaultOutput opts).Output = JSON := by
    unfold defaultOutput
    rcases h with h | h
    · rw [if_neg (by rw [h]; decide)]; exact h
    · rw [if_pos h]
  unfold finalContext
  have hl : ∀ c : Context, c.writeLastTagEnd.level = c.level := by
    intro c; unfold writeLastTagEnd; split <;> rfl
  rw [hl, json_level_printDiff a b _ hj]
  rfl

/-- C23: the classification does not depend on the options. Two traversals of the
same pair of values that start with the same classification end with the same
classification, whatever their options; so do two runs of `Compare`. -/
theorem classification_independent_of_options (a b : Value) (o1 o2 : Options) :
    (printDiff a b (newContext o1)).diff = (printDiff a b (newContext o2)).diff ∧
    (Compare (some a) (some b) o1).1 = (Compare (some a) (some b) o2).1 ∧
    (∀ c1 c2 : Context, c1.diff = c2.diff → (printDiff a b c1).diff = (printDiff a b c2).diff) := by
  refine ⟨traversal_diff_opts a b o1 o2, ?_, ?_⟩
  · rw [compare_fst, compare_fst]
    exact traversal_diff_opts a b o1 o2
  · intro c1 c2 h
    rw [printDiff_outcomes, printDiff_outcomes, h]

/-- C24: with the arguments swapped, `Compare` returns `FullMatch` exactly when it
did before, and `NoMatch` when it returned `SupersetMatch` before; `SupersetMatch`
is never returned in both directions. -/
theorem compare_swap (a b : Value) (o1 o2 : Options) :
    ((Compare (some a) (some b) o1).1 = FullMatch ↔
      (Compare (some b) (some a) o2).1 = FullMatch) ∧
    ((Compare (some a) (some b) o1).1 = SupersetMatch →
      (Compare (some b) (some a) o2).1 = NoMatch) ∧
    ¬ ((Compare (some a) (some b) o1).1 = SupersetMatch ∧
      (Compare (some b) (some a) o2).1 = SupersetMatch) := by
  refine ⟨compare_fullMatch_swap a b o1 o2, compare_supersetMatch_swap a b o1 o2, ?_⟩
  rintro ⟨h1, h2⟩
  have h3 := compare_supersetMatch_swap a b o1 o2 h1
  rw [h3] at h2
  exact absurd h2 (by decide)

/-- Witness of C24: the documents of the superset scenario, which give
`SupersetMatch` in one direction and `NoMatch` in the other. -/
theorem compare_swap_witness :
    (Compare (some supersetDoc) (some subsetDoc) DefaultConsoleOptions).1 = SupersetMatch ∧
    (Compare (some subsetDoc) (some supersetDoc) DefaultConsoleOptions).1 = NoMatch :=
  ⟨by set_option maxRecDepth 100000 in decide,
    (compare_swap supersetDoc subsetDoc DefaultConsoleOptions DefaultConsoleOptions).2.1
      (by set_option maxRecDepth 100000 in decide)⟩

/-- C25: the traversal over a `Printer` ends with the classification of the
traversal over `context`: for `printDiff` over `NewPrinter(opts)` and the
traversal that `Compare` runs, and for the two printers started on any state. -/
theorem printer_verdict_agrees (a b : Value) (opts : Options) :
    ((NewPrinter opts).printDiff a b).Diff =
      (Context.printDiff a b (newContext opts)).diff ∧
    ((NewPrinter opts).printDiff a b).Diff = (Compare (some a) (some b) opts).1 ∧
    (∀ c : Context,
      ((Printer.jsonPrinter c).printDiff a b).Diff = (Context.printDiff a b c).diff) ∧
    (∀ c : Context,
      ((Printer.yamlPrinter c).printDiff a b).Diff = (Context.printDiff a b c).diff) ∧
    (opts.Output = YAML → NewPrinter opts = .yamlPrinter (newContext opts)) ∧
    (opts.Output ≠ YAML → NewPrinter opts = .jsonPrinter (newContext opts)) := by
  have h1 : ((NewPrinter opts).printDiff a b).Diff =
      (Context.printDiff a b (newContext opts)).diff :=
    printer_traversal_diff a b _ _ (newPrinter_diff opts)
  refine ⟨h1, ?_, fun c => printer_traversal_diff a b _ c rfl,
    fun c => printer_traversal_diff a b _ c rfl, ?_, ?_⟩
  · rw [h1, compare_fst]
  · intro h; unfold NewPrinter; rw [if_pos h]
  · intro h; unfold NewPrinter; rw [if_neg h]

end Jsondiff
